import Mathlib

/-!
# ReciSense: pantry reconciliation and recipe text structuring

A shallow embedding of the backend of the ReciSense repository
(`backend/models/Pantry.js`, `backend/routes/pantryRoutes.js`,
`backend/services/ocrService.js`, `backend/services/geminiService.js`,
`backend/routes/recipeRoutes.js`) together with theorems about it.

Conventions of the embedding.

* A JavaScript string handled by the text services is a `List Char`; its
  `.length` is the number of UTF-16 code units (`jsLength`), and a `.` of a
  regular expression takes one code unit.  Pantry names are Lean `String`s,
  compared only for equality and for containment.
* `String.prototype.toLowerCase` is a library function: every pantry operation
  takes it as the parameter `lc`, so the theorems hold for each lower-casing
  function.  Concrete evaluations use `asciiLower`, which agrees with
  `toLowerCase` on ASCII text.
* JavaScript numbers are not identified with the integers.  The quantities of
  the pantry range over a carrier `Num` whose operations and facts are bundled
  in `JsNumbers`; `parseInt` is the parameter `ParseInt`, which returns the
  double nearest to the decimal value of a run of digits; the arithmetic of
  the match percentage goes through `Rounding`.  The theorems hold for every
  such structure, hence for the doubles; `intNumbers`, `roundingParseInt` and
  `exactRounding` serve concrete evaluations.
* Dates are integer millisecond timestamps, and the clock is read once per
  operation (the parameter `now`).
* An absent (`undefined`) field of a JavaScript object is `none`.
* A record reaches the store through the schema: the setters of `name`
  lower-case and trim it, the value assigned to `quantity` is cast to a number,
  and on save the validators run (`name` required, `category` and `unit` in
  their enumerations) on the record that the operation touched; the other
  records passed them when they were stored.  A save that fails leaves the
  stored pantry as it was and its error reaches the caller.
-/

namespace ReciSense

/-! ## JavaScript strings and numbers -/

/-- The class `\s` (and the characters removed by `trim`): the WhiteSpace and
LineTerminator code points. -/
def isWhiteSpace (c : Char) : Bool :=
  let n := c.toNat
  n == 9 || n == 10 || n == 11 || n == 12 || n == 13 || n == 32 || n == 160 || n == 5760 ||
    (8192 ≤ n && n ≤ 8202) || n == 8232 || n == 8233 || n == 8239 || n == 8287 ||
    n == 12288 || n == 65279

/-- `String.prototype.trim`. -/
def trim (s : List Char) : List Char :=
  ((s.dropWhile isWhiteSpace).reverse.dropWhile isWhiteSpace).reverse

/-- ASCII lower-casing, the behaviour of `toLowerCase` on ASCII strings. -/
def asciiLower (s : String) : String :=
  String.mk (s.data.map Char.toLower)

/-- The values that the `quantity` path of a record can hold (the doubles, and
`null`), with the operations of JavaScript and of Mongoose on them:
`ofInt n` is the number written `n`, `add` is `+` on two such values, `falsy`
is the test made by `||`, `positive` is `> 0`, `toText` is the conversion to
a string that `+` applies next to a string, and `castNumber` and `castText`
are the casts that Mongoose applies to a number and to a string assigned to
the path (`none` for a cast error).  The facts listed are those of the
language: integers of magnitude at most 2^53 are doubles, distinct from each
other, and are added exactly; the sum of two positive numbers is positive; a
positive number is truthy and is cast to itself. -/
structure JsNumbers (Num : Type) where
  ofInt : Int → Num
  add : Num → Num → Num
  falsy : Num → Bool
  positive : Num → Bool
  toText : Num → String
  castNumber : Num → Option Num
  castText : String → Option Num
  add_ofInt : ∀ a b : Int, |a| ≤ 2 ^ 53 → |b| ≤ 2 ^ 53 → |a + b| ≤ 2 ^ 53 →
    add (ofInt a) (ofInt b) = ofInt (a + b)
  ofInt_inj : ∀ a b : Int, |a| ≤ 2 ^ 53 → |b| ≤ 2 ^ 53 → ofInt a = ofInt b → a = b
  falsy_ofInt : ∀ n : Int, |n| ≤ 2 ^ 53 → (falsy (ofInt n) = true ↔ n = 0)
  positive_ofInt : ∀ n : Int, |n| ≤ 2 ^ 53 → (positive (ofInt n) = true ↔ 0 < n)
  castNumber_ofInt : ∀ n : Int, |n| ≤ 2 ^ 53 → castNumber (ofInt n) = some (ofInt n)
  positive_add : ∀ a b : Num, positive a = true → positive b = true →
    positive (add a b) = true
  positive_truthy : ∀ a : Num, positive a = true → falsy a = false
  positive_cast : ∀ a : Num, positive a = true → castNumber a = some a

/-- The integers with exact addition: they satisfy the facts of `JsNumbers`,
and agree with JavaScript as long as every value stays within 2^53 in
magnitude.  `castText` reads a decimal numeral. -/
def intNumbers : JsNumbers Int :=
  { ofInt := fun n => n
    add := fun a b => a + b
    falsy := fun n => decide (n = 0)
    positive := fun n => decide (0 < n)
    toText := fun n => toString n
    castNumber := fun n => some n
    castText := fun s => s.toInt?
    add_ofInt := fun _ _ _ _ _ => rfl
    ofInt_inj := fun _ _ _ _ h => h
    falsy_ofInt := fun _ _ => by simp
    positive_ofInt := fun _ _ => by simp
    castNumber_ofInt := fun _ _ => rfl
    positive_add := fun a b ha hb => by
      simp only [decide_eq_true_eq] at ha hb ⊢
      omega
    positive_truthy := fun a ha => by
      simp only [decide_eq_true_eq, decide_eq_false_iff_not] at ha ⊢
      omega
    positive_cast := fun _ _ => rfl }

/-! ## Pantry data model (`backend/models/Pantry.js`) -/

/-- One stored ingredient sub-document (`ingredientSchema`). -/
structure IngredientRecord (Num : Type) where
  name : String
  category : String
  quantity : Num
  unit : String
  expiryDate : Option Int
  addedDate : Int
deriving DecidableEq, Repr

/-- A quantity as a caller hands it over: a number or a string. -/
inductive QuantityValue (Num : Type) where
  | num (n : Num)
  | str (s : String)
deriving DecidableEq, Repr

/-- The object handed to `addIngredient`; only `name` is required by the schema. -/
structure Ingredient (Num : Type) where
  name : String
  category : Option String := none
  quantity : Option (QuantityValue Num) := none
  unit : Option String := none
  expiryDate : Option Int := none
deriving DecidableEq, Repr

/-- The pantry document of one user (`pantrySchema`), without its `userId`, as
it is stored. -/
structure Pantry (Num : Type) where
  ingredients : List (IngredientRecord Num)
  totalItems : Nat
  lastUpdated : Int
deriving DecidableEq, Repr

/-- The identity key of the data model: `(name, category, unit)`. -/
def recordKey {Num : Type} (r : IngredientRecord Num) : String × String × String :=
  (r.name, r.category, r.unit)

/-- `Array.prototype.findIndex`, with `-1` rendered as `none`. -/
def findIndex {α : Type} (pred : α → Bool) : List α → Option Nat
  | [] => none
  | x :: xs => if pred x then some 0 else (findIndex pred xs).map (· + 1)

/-- The `pre('save')` hook followed by a successful save: `totalItems` and
`lastUpdated` are re-stamped. -/
def save {Num : Type} (now : Int) (p : Pantry Num) : Pantry Num :=
  { p with totalItems := p.ingredients.length, lastUpdated := now }

/-- `Pantry.createUserPantry(userId)` with the default empty ingredient list. -/
def createUserPantry {Num : Type} (now : Int) : Pantry Num :=
  { ingredients := [], totalItems := 0, lastUpdated := now }

/-- The setters of the `name` path (`lowercase: true`, `trim: true`): the name
as it is stored. -/
def storedName (lc : String → String) (name : String) : String :=
  String.mk (trim (lc name).data)

/-- The values of the `category` enumeration. -/
def categoryValues : List String :=
  ["dairy", "meat", "vegetable", "fruit", "grain", "spice", "condiment", "other"]

/-- The values of the `unit` enumeration. -/
def unitValues : List String :=
  ["piece", "cup", "tbsp", "tsp", "lb", "oz", "kg", "g", "ml", "l", "other"]

/-- The validators that run on a record when the pantry is saved: `name` is
required (not empty), `category` and `unit` are in their enumerations. -/
def validRecord {Num : Type} (r : IngredientRecord Num) : Bool :=
  r.name != "" && categoryValues.contains r.category && unitValues.contains r.unit

/-- The message of the error with which a failed save rejects. -/
def validationFailed : String := "Pantry validation failed"

/-- `ingredient.quantity || 1`: an absent quantity, a falsy number and the
empty string are replaced by `1`. -/
def quantityOrOne {Num : Type} (js : JsNumbers Num) (q : Option (QuantityValue Num)) :
    QuantityValue Num :=
  match q with
  | none => QuantityValue.num (js.ofInt 1)
  | some (QuantityValue.num n) =>
    if js.falsy n then QuantityValue.num (js.ofInt 1) else QuantityValue.num n
  | some (QuantityValue.str s) =>
    if s = "" then QuantityValue.num (js.ofInt 1) else QuantityValue.str s

/-- `old + x` for a stored quantity `old`: the sum of two numbers, or the text
of `old` followed by the string `x`. -/
def plus {Num : Type} (js : JsNumbers Num) (old : Num) (x : QuantityValue Num) :
    QuantityValue Num :=
  match x with
  | QuantityValue.num n => QuantityValue.num (js.add old n)
  | QuantityValue.str s => QuantityValue.str (js.toText old ++ s)

/-- The cast of a value assigned to the `quantity` path; `none` is a cast
error, which makes the save fail. -/
def castQuantity {Num : Type} (js : JsNumbers Num) (v : QuantityValue Num) : Option Num :=
  match v with
  | QuantityValue.num n => js.castNumber n
  | QuantityValue.str s => js.castText s

/-- `ingredient.unit || existing.unit`: an absent or empty unit keeps the old one. -/
def unitOr (u : Option String) (old : String) : String :=
  match u with
  | some v => if v = "" then old else v
  | none => old

/-- The sub-document made of a new ingredient: the spread of the incoming
object plus `addedDate`, the name passed through its setters, the quantity
cast, absent fields taking the schema defaults (`'other'`, `1`, `'piece'`,
`null`); `none` when the quantity cannot be cast. -/
def newRecord {Num : Type} (js : JsNumbers Num) (lc : String → String) (now : Int)
    (ingredient : Ingredient Num) : Option (IngredientRecord Num) :=
  ((ingredient.quantity.map (castQuantity js)).getD (some (js.ofInt 1))).map (fun q =>
    { name := storedName lc ingredient.name
      category := ingredient.category.getD "other"
      quantity := q
      unit := ingredient.unit.getD "piece"
      expiryDate := ingredient.expiryDate
      addedDate := now })

/-- The record after a merge: `quantity += ingredient.quantity || 1` and
`unit = ingredient.unit || unit`; `none` when the new quantity cannot be
cast. -/
def mergeRecord {Num : Type} (js : JsNumbers Num) (item : IngredientRecord Num)
    (ingredient : Ingredient Num) : Option (IngredientRecord Num) :=
  (castQuantity js (plus js item.quantity (quantityOrOne js ingredient.quantity))).map (fun q =>
    { item with
      quantity := q
      unit := unitOr ingredient.unit item.unit })

/-- `pantrySchema.methods.addIngredient`: the stored pantry after the call and
either the returned record or the message of the error.  The look-up compares
the lower-cased stored names with the lower-cased incoming name.  The save
fails, and leaves the stored pantry as it was, when the touched record does not
pass the cast or the validators.  For a new ingredient the call returns the
object that was pushed, given here in its stored form. -/
def addIngredient {Num : Type} (js : JsNumbers Num) (lc : String → String) (now : Int)
    (p : Pantry Num) (ingredient : Ingredient Num) :
    Pantry Num × Except String (IngredientRecord Num) :=
  let existingIndex := findIndex (fun item => lc item.name == lc ingredient.name) p.ingredients
  match existingIndex.bind (fun i => (p.ingredients[i]?).map (fun item => (i, item))) with
  | some (i, item) =>
    match mergeRecord js item ingredient with
    | some updated =>
      if validRecord updated then
        (save now { p with ingredients := p.ingredients.set i updated }, Except.ok updated)
      else (p, Except.error validationFailed)
    | none => (p, Except.error validationFailed)
  | none =>
    match newRecord js lc now ingredient with
    | some newIngredient =>
      if validRecord newIngredient then
        (save now { p with ingredients := p.ingredients ++ [newIngredient] },
          Except.ok newIngredient)
      else (p, Except.error validationFailed)
    | none => (p, Except.error validationFailed)

/-- A finite sequence of `addIngredient` calls, each at its own instant and
each on the pantry as stored by the calls before it. -/
def addAll {Num : Type} (js : JsNumbers Num) (lc : String → String) (p : Pantry Num)
    (calls : List (Int × Ingredient Num)) : Pantry Num :=
  calls.foldl (fun acc c => (addIngredient js lc c.1 acc c.2).1) p

/-! ### Quantities requested and stored -/

/-- The key under which a call asks to store: its name and its category and
unit, absent ones read as the schema defaults. -/
def callKey {Num : Type} (ingredient : Ingredient Num) : String × String × String :=
  (ingredient.name, ingredient.category.getD "other", ingredient.unit.getD "piece")

/-- The quantities stored in the pantry under one `(name, category, unit)` key. -/
def storedUnderKey {Num : Type} (p : Pantry Num) (k : String × String × String) : List Num :=
  (p.ingredients.filter (fun r => recordKey r == k)).map (fun r => r.quantity)

/-- The quantities of the calls made with one `(name, category, unit)` key, in
call order. -/
def requestedUnderKey {Num : Type} (calls : List (Int × Ingredient Num))
    (k : String × String × String) : List (Option (QuantityValue Num)) :=
  (calls.filter (fun c => callKey c.2 == k)).map (fun c => c.2.quantity)

/-- The quantities stored in the pantry under one name, ignoring case. -/
def storedUnderName {Num : Type} (lc : String → String) (p : Pantry Num) (name : String) :
    List Num :=
  (p.ingredients.filter (fun r => lc r.name == lc name)).map (fun r => r.quantity)

/-- The number a call asks to add when its quantity is absent or a number: the
number itself, and `1` when it is absent. -/
def callNumber {Num : Type} (js : JsNumbers Num) (ingredient : Ingredient Num) : Num :=
  match ingredient.quantity with
  | some (QuantityValue.num n) => n
  | _ => js.ofInt 1

/-- A running total taken up by one more number: the number itself at first,
the sum `total + n` afterwards. -/
def accumulate {Num : Type} (js : JsNumbers Num) (total : Option Num) (n : Num) : Option Num :=
  match total with
  | none => some n
  | some t => some (js.add t n)

/-- The sum, taken by `+` in call order, of the numbers of the calls made with
one name, ignoring case; `none` when no call was made with it. -/
def requestedUnderName {Num : Type} (js : JsNumbers Num) (lc : String → String)
    (calls : List (Int × Ingredient Num)) (name : String) : Option Num :=
  (calls.filter (fun c => lc c.2.name == lc name)).foldl
    (fun total c => accumulate js total (callNumber js c.2)) none

/-- The request body of an update: the fields that `Object.assign` copies over
the stored record. A present `expiryDate` may be `null`. -/
structure IngredientUpdates (Num : Type) where
  name : Option String := none
  category : Option String := none
  quantity : Option (QuantityValue Num) := none
  unit : Option String := none
  expiryDate : Option (Option Int) := none
  addedDate : Option Int := none
deriving DecidableEq, Repr

/-- `Object.assign(ingredient, updates)`: every field present in `updates`
overwrites the stored one (a name through its setters, a quantity through its
cast), every absent field is kept; `none` when the quantity cannot be cast. -/
def assign {Num : Type} (js : JsNumbers Num) (lc : String → String) (item : IngredientRecord Num)
    (updates : IngredientUpdates Num) : Option (IngredientRecord Num) :=
  ((updates.quantity.map (castQuantity js)).getD (some item.quantity)).map (fun q =>
    { name := (updates.name.map (storedName lc)).getD item.name
      category := updates.category.getD item.category
      quantity := q
      unit := updates.unit.getD item.unit
      expiryDate := updates.expiryDate.getD item.expiryDate
      addedDate := updates.addedDate.getD item.addedDate })

/-- `pantrySchema.methods.updateIngredient`: the stored pantry after the call
and either the updated record or the message of the thrown error. `find`
returns the first matching record, which is mutated in place; the save fails,
and leaves the stored pantry as it was, when the record does not pass the cast
or the validators. -/
def updateIngredient {Num : Type} (js : JsNumbers Num) (lc : String → String) (now : Int)
    (p : Pantry Num) (ingredientName : String) (updates : IngredientUpdates Num) :
    Pantry Num × Except String (IngredientRecord Num) :=
  let found := findIndex (fun item => lc item.name == lc ingredientName) p.ingredients
  match found.bind (fun i => (p.ingredients[i]?).map (fun item => (i, item))) with
  | some (i, item) =>
    match assign js lc item updates with
    | some updated =>
      if validRecord updated then
        (save now { p with ingredients := p.ingredients.set i updated }, Except.ok updated)
      else (p, Except.error validationFailed)
    | none => (p, Except.error validationFailed)
  | none => (p, Except.error "Ingredient not found")

/-- `pantrySchema.methods.removeIngredient`. -/
def removeIngredient {Num : Type} (lc : String → String) (now : Int) (p : Pantry Num)
    (ingredientName : String) : Pantry Num :=
  save now { p with ingredients :=
    p.ingredients.filter (fun item => lc item.name != lc ingredientName) }

/-! ## Pantry routes (`backend/routes/pantryRoutes.js`) -/

/-- The JSON answer of a route: HTTP status, `success`, `message` and `data`. -/
structure RouteResponse (α : Type) where
  status : Nat
  success : Bool
  message : Option String
  data : Option α
deriving DecidableEq, Repr

/-- The `data` of a successful update. -/
structure UpdateData (Num : Type) where
  ingredient : IngredientRecord Num
  totalItems : Nat
deriving DecidableEq, Repr

/-- `PUT /api/pantry/ingredients/:name`: the stored pantry after the request
(`none` when the user has no pantry) and the answer. -/
def putIngredient {Num : Type} (js : JsNumbers Num) (lc : String → String) (now : Int)
    (stored : Option (Pantry Num)) (ingredientName : String) (updates : IngredientUpdates Num) :
    Option (Pantry Num) × RouteResponse (UpdateData Num) :=
  match stored with
  | none => (none, { status := 404, success := false, message := some "Pantry not found",
                     data := none })
  | some pantry =>
    match updateIngredient js lc now pantry ingredientName updates with
    | (pantry', Except.ok updatedIngredient) =>
      (some pantry', { status := 200, success := true,
                       message := some "Ingredient updated successfully",
                       data := some { ingredient := updatedIngredient,
                                      totalItems := pantry'.totalItems } })
    | (pantry', Except.error msg) =>
      if msg = "Ingredient not found" then
        (some pantry', { status := 404, success := false,
                         message := some "Ingredient not found in pantry", data := none })
      else
        (some pantry', { status := 500, success := false,
                         message := some "Failed to update ingredient", data := none })

/-- `String.prototype.includes`: `t` occurs in `s` as a contiguous block. -/
def includes (s t : List Char) : Bool :=
  match s with
  | [] => t.isEmpty
  | c :: cs => t.isPrefixOf (c :: cs) || includes cs t

/-- The `data` of a search answer. -/
structure SearchData (Num : Type) where
  results : List (IngredientRecord Num)
  totalResults : Nat
  query : Option String
deriving DecidableEq, Repr

/-- `GET /api/pantry/search`: `query` is the query-string parameter, absent or a
string. -/
def search {Num : Type} (lc : String → String) (stored : Option (Pantry Num))
    (query : Option String) : RouteResponse (SearchData Num) :=
  match query with
  | none => { status := 400, success := false, message := some "Search query is required",
              data := none }
  | some q =>
    if q = "" then
      { status := 400, success := false, message := some "Search query is required",
        data := none }
    else
      match stored with
      | none => { status := 200, success := true, message := none,
                  data := some { results := [], totalResults := 0, query := none } }
      | some pantry =>
        let results := pantry.ingredients.filter
          (fun ingredient => includes (lc ingredient.name).data (lc q).data)
        { status := 200, success := true, message := none,
          data := some { results := results, totalResults := results.length, query := some q } }

/-- Milliseconds in one day. -/
def msPerDay : Int := 86400000

/-- `d.setDate(d.getDate() + 7)` on the current instant, in a zone whose offset
does not change during the week: seven days of 24 hours later. -/
def sevenDaysFromNow (now : Int) : Int :=
  now + 7 * msPerDay

/-- The filter predicate of the expiring items: a date is present (a `Date` is
truthy, `null` is not), at most seven days ahead, and not before now. -/
def isExpiring {Num : Type} (now : Int) (ingredient : IngredientRecord Num) : Bool :=
  match ingredient.expiryDate with
  | some e => decide (e ≤ sevenDaysFromNow now) && decide (e ≥ now)
  | none => false

/-- The `reduce` that counts the records of each category, keys in order of
first appearance. -/
def countCategory (acc : List (String × Nat)) (category : String) : List (String × Nat) :=
  match acc with
  | [] => [(category, 1)]
  | (k, n) :: rest =>
    if k = category then (k, n + 1) :: rest else (k, n) :: countCategory rest category

/-- The `data` of a statistics answer. -/
structure StatsData (Num : Type) where
  totalItems : Nat
  categories : List (String × Nat)
  expiringItems : List (IngredientRecord Num)
  lastUpdated : Option Int
deriving DecidableEq, Repr

/-- `GET /api/pantry/stats`. -/
def stats {Num : Type} (now : Int) (stored : Option (Pantry Num)) :
    RouteResponse (StatsData Num) :=
  match stored with
  | none => { status := 200, success := true, message := none,
              data := some { totalItems := 0, categories := [], expiringItems := [],
                             lastUpdated := none } }
  | some pantry =>
    let categories := pantry.ingredients.foldl
      (fun acc ingredient => countCategory acc ingredient.category) []
    let expiringItems := pantry.ingredients.filter (isExpiring now)
    { status := 200, success := true, message := none,
      data := some { totalItems := pantry.totalItems, categories := categories,
                     expiringItems := expiringItems, lastUpdated := some pantry.lastUpdated } }

/-- The request body of `POST /api/pantry/ingredients`; `expiryDate` is a
timestamp. -/
structure AddRequest (Num : Type) where
  name : Option String := none
  category : Option String := none
  quantity : Option (QuantityValue Num) := none
  unit : Option String := none
  expiryDate : Option Int := none
deriving DecidableEq, Repr

/-- `x || fallback` on an optional string: absent and empty are falsy. -/
def stringOr (x : Option String) (fallback : String) : String :=
  match x with
  | some v => if v = "" then fallback else v
  | none => fallback

/-- The object `ingredient` built by the add route (lines 65-71) from a body
whose `name` is the truthy string `name`; a falsy `expiryDate` (absent, or the
timestamp 0) becomes `null`. -/
def formatIngredient {Num : Type} (js : JsNumbers Num) (lc : String → String) (name : String)
    (body : AddRequest Num) : Ingredient Num :=
  { name := String.mk (trim (lc name).data)
    category := some (stringOr body.category "other")
    quantity := some (quantityOrOne js body.quantity)
    unit := some (stringOr body.unit "piece")
    expiryDate := body.expiryDate.bind (fun e => if e = 0 then none else some e) }

/-- The `data` of a successful add. -/
structure AddData (Num : Type) where
  ingredient : IngredientRecord Num
  totalItems : Nat
deriving DecidableEq, Repr

/-- `POST /api/pantry/ingredients`: the stored pantry after the request and the
answer.  A missing or empty name is rejected with status 400; a user without a
pantry gets a new empty one first, which stays stored when the add then
fails; a failed save is answered with status 500. -/
def postIngredient {Num : Type} (js : JsNumbers Num) (lc : String → String) (now : Int)
    (stored : Option (Pantry Num)) (body : AddRequest Num) :
    Option (Pantry Num) × RouteResponse (AddData Num) :=
  match body.name with
  | none => (stored, { status := 400, success := false,
                       message := some "Ingredient name is required", data := none })
  | some name =>
    if name = "" then
      (stored, { status := 400, success := false,
                 message := some "Ingredient name is required", data := none })
    else
      let pantry := stored.getD (createUserPantry now)
      match addIngredient js lc now pantry (formatIngredient js lc name body) with
      | (pantry', Except.ok added) =>
        (some pantry', { status := 201, success := true,
                         message := some "Ingredient added successfully",
                         data := some { ingredient := added, totalItems := pantry'.totalItems } })
      | (pantry', Except.error _) =>
        (some pantry', { status := 500, success := false,
                         message := some "Failed to add ingredient", data := none })

/-- A finite sequence of add requests, each at its own instant, against the
pantry store of one user. -/
def postAll {Num : Type} (js : JsNumbers Num) (lc : String → String)
    (stored : Option (Pantry Num)) (requests : List (Int × AddRequest Num)) :
    Option (Pantry Num) :=
  requests.foldl (fun acc r => (postIngredient js lc r.1 acc r.2).1) stored

/-- `DELETE /api/pantry/ingredients/:name`: the stored pantry after the request
and the answer, whose `data` is `totalItems`. -/
def deleteIngredient {Num : Type} (lc : String → String) (now : Int)
    (stored : Option (Pantry Num)) (ingredientName : String) :
    Option (Pantry Num) × RouteResponse Nat :=
  match stored with
  | none => (none, { status := 404, success := false, message := some "Pantry not found",
                     data := none })
  | some pantry =>
    let pantry' := removeIngredient lc now pantry ingredientName
    (some pantry', { status := 200, success := true,
                     message := some "Ingredient removed successfully",
                     data := some pantry'.totalItems })

/-- The mutation of `DELETE /api/pantry`: `pantry.ingredients = []` and save. -/
def clearIngredients {Num : Type} (now : Int) (p : Pantry Num) : Pantry Num :=
  save now { p with ingredients := [] }

/-- `DELETE /api/pantry`. -/
def clearPantry {Num : Type} (now : Int) (stored : Option (Pantry Num)) :
    Option (Pantry Num) × RouteResponse Nat :=
  match stored with
  | none => (none, { status := 404, success := false, message := some "Pantry not found",
                     data := none })
  | some pantry =>
    (some (clearIngredients now pantry),
      { status := 200, success := true, message := some "Pantry cleared successfully",
        data := some 0 })

/-- A sample pantry: egg and milk, both `other` and counted by the piece. -/
def eggMilkPantry : Pantry Int :=
  { ingredients :=
      [{ name := "egg", category := "other", quantity := 2, unit := "piece",
         expiryDate := none, addedDate := 0 },
       { name := "milk", category := "other", quantity := 1, unit := "piece",
         expiryDate := none, addedDate := 0 }]
    totalItems := 2
    lastUpdated := 0 }

/-! ## Text normalisation (`backend/services/ocrService.js`)

Regular expressions are rendered as matchers over `List Char`.  None of them
carries the `u` flag, so `\s`, `\w`, `\d` and `\b` have their ASCII / fixed
meanings and the `i` flag relates only `A`-`Z` to `a`-`z`. -/

/-- The class `\d`. -/
def isDigit (c : Char) : Bool :=
  48 ≤ c.toNat && c.toNat ≤ 57

/-- The class `\w`: `[A-Za-z0-9_]`. -/
def isWordChar (c : Char) : Bool :=
  let n := c.toNat
  (65 ≤ n && n ≤ 90) || (97 ≤ n && n ≤ 122) || (48 ≤ n && n ≤ 57) || n == 95

/-- `\b` between the character before the position and the one after it
(`none` at either end of the input). -/
def isWordBoundary (before after : Option Char) : Bool :=
  before.any isWordChar != after.any isWordChar

/-- `String.prototype.length`: the number of UTF-16 code units. -/
def jsLength (s : List Char) : Nat :=
  (s.map (fun c => if c.toNat < 65536 then 1 else 2)).sum

/-- `s.replace(re, rep)` for a regular expression with the `g` flag and a
replacement without `$` patterns.  `matchAt before rest` is the length of the
match of `re` that starts at the current position, where `before` is the
character in front of the position (`none` at position 0) and `rest` the input
from the position on.  `skip` counts the characters of the current match still
to be consumed.  After an empty match the scan advances by one character. -/
def replaceAllFrom (matchAt : Option Char → List Char → Option Nat) (rep : List Char) :
    Nat → Option Char → List Char → List Char
  | 0, before, [] =>
    match matchAt before [] with
    | some _ => rep
    | none => []
  | 0, before, c :: cs =>
    match matchAt before (c :: cs) with
    | some 0 => rep ++ c :: replaceAllFrom matchAt rep 0 (some c) cs
    | some (n + 1) => rep ++ replaceAllFrom matchAt rep n (some c) cs
    | none => c :: replaceAllFrom matchAt rep 0 (some c) cs
  | _ + 1, _, [] => []
  | skip + 1, _, c :: cs => replaceAllFrom matchAt rep skip (some c) cs

/-- `s.replace(re, rep)` from the start of the string. -/
def replaceAll (matchAt : Option Char → List Char → Option Nat) (rep : List Char)
    (s : List Char) : List Char :=
  replaceAllFrom matchAt rep 0 none s

/-- The matcher of `/\s+/`: the maximal run of white space, if not empty. -/
def matchWhiteSpaceRun (_before : Option Char) (rest : List Char) : Option Nat :=
  match (rest.takeWhile isWhiteSpace).length with
  | 0 => none
  | n + 1 => some (n + 1)

/-- Index of the last occurrence of `c`. -/
def lastIndexOf (c : Char) : List Char → Option Nat
  | [] => none
  | x :: xs =>
    match lastIndexOf c xs with
    | some k => some (k + 1)
    | none => if x = c then some 0 else none

/-- The matcher of `/\n\s*\n/`: a line feed, then the greedy `\s*` given back
until a line feed follows, that is up to the last line feed of the white-space
run behind the first one. -/
def matchBlankLines (_before : Option Char) (rest : List Char) : Option Nat :=
  match rest with
  | [] => none
  | c :: r =>
    if c = '\n' then (lastIndexOf '\n' (r.takeWhile isWhiteSpace)).map (· + 2) else none

/-- The matcher of `/[|\\]/`. -/
def matchPipeOrBackslash (_before : Option Char) (rest : List Char) : Option Nat :=
  match rest with
  | [] => none
  | c :: _ => if c = '|' || c = '\\' then some 1 else none

/-- The matcher of `/0/`. -/
def matchZero (_before : Option Char) (rest : List Char) : Option Nat :=
  match rest with
  | [] => none
  | c :: _ => if c = '0' then some 1 else none

/-- The literal alternatives of `(?:@|#|&|%|$|\*)`; the fifth alternative is
the end-of-input assertion `$`, which consumes nothing. -/
def isArtifactChar (c : Char) : Bool :=
  c = '@' || c = '#' || c = '&' || c = '%' || c = '*'

/-- The part `(?:@|#|&|%|$|\*)+(?:\s|$)` at the current position.  The
repetition takes the maximal run of artifact characters; giving characters back
never helps, since an artifact character is neither white space nor the end.
With no artifact character the single obligatory iteration can only be the
empty `$`, at the end of the input. -/
def matchArtifactTail (rest : List Char) : Option Nat :=
  let run := (rest.takeWhile isArtifactChar).length
  match rest.drop run with
  | [] => some run
  | c :: _ => if 0 < run && isWhiteSpace c then some (run + 1) else none

/-- The matcher of `/(?:^|\s)(?:@|#|&|%|$|\*)+(?:\s|$)/`: first the
alternative `^` (position 0 only), then the alternative `\s`. -/
def matchArtifact (before : Option Char) (rest : List Char) : Option Nat :=
  match (if before.isNone then matchArtifactTail rest else none) with
  | some n => some n
  | none =>
    match rest with
    | [] => none
    | c :: r => if isWhiteSpace c then (matchArtifactTail r).map (· + 1) else none

/-- Case-insensitive match of a lower-case ASCII literal at the start of the
input: the input behind the literal, if it matches. -/
def matchLiteral : List Char → List Char → Option (List Char)
  | [], rest => some rest
  | _ :: _, [] => none
  | p :: ps, c :: cs => if c.toLower = p then matchLiteral ps cs else none

/-- The matcher of `/\bSTEMs?\b/i` for a stem of letters: a word boundary, the
stem, the greedy optional `s` (given back when no boundary follows it), and a
word boundary. -/
def matchUnitWord (stem : List Char) (before : Option Char) (rest : List Char) : Option Nat :=
  if isWordBoundary before rest.head? then
    match matchLiteral stem rest with
    | none => none
    | some [] => if isWordBoundary stem.getLast? none then some stem.length else none
    | some (c :: r) =>
      if c.toLower = 's' && isWordBoundary (some c) r.head? then some (stem.length + 1)
      else if isWordBoundary stem.getLast? (some c) then some stem.length
      else none
  else none

/-- The table `recipeCorrections`: the stem of each pattern `STEMs?` and its
replacement, in insertion order. -/
def recipeCorrections : List (List Char × List Char) :=
  [("tsp".data, "tsp".data), ("tbsp".data, "tbsp".data), ("cup".data, "cup".data),
   ("oz".data, "oz".data), ("lb".data, "lb".data), ("clove".data, "clove".data),
   ("spoon".data, "spoon".data)]

/-- `OCRService.cleanExtractedText`. -/
def cleanExtractedText (rawText : List Char) : List Char :=
  if rawText.isEmpty then []
  else
    let cleaned := trim (replaceAll matchBlankLines ['\n']
      (replaceAll matchWhiteSpaceRun [' '] rawText))
    let cleaned := replaceAll matchArtifact [' ']
      (replaceAll matchZero ['O'] (replaceAll matchPipeOrBackslash ['I'] cleaned))
    recipeCorrections.foldl
      (fun acc entry => replaceAll (matchUnitWord entry.1) entry.2 acc) cleaned

/-! ## Recipe segmentation (`OCRService.analyzeRecipeText`) -/

/-- `String.prototype.split` on one separator character. -/
def splitOnChar (sep : Char) : List Char → List (List Char)
  | [] => [[]]
  | c :: cs =>
    if c = sep then [] :: splitOnChar sep cs
    else
      match splitOnChar sep cs with
      | [] => [[c]]
      | l :: ls => (c :: l) :: ls

/-- A greedy `X*` in front of the continuation `k`, for a test: some number of
leading characters of class `cls`, then `k`. -/
def starThen (cls : Char → Bool) (k : List Char → Bool) : List Char → Bool
  | [] => k []
  | c :: cs => k (c :: cs) || (cls c && starThen cls k cs)

/-- A greedy `X+` in front of the continuation `k`, for a test. -/
def plusThen (cls : Char → Bool) (k : List Char → Bool) (rest : List Char) : Bool :=
  match rest with
  | [] => false
  | c :: cs => cls c && starThen cls k cs

/-- An alternation of case-insensitive literals in front of the continuation
`k`, for a test. -/
def anyLiteralThen (literals : List (List Char)) (k : List Char → Bool) (rest : List Char) :
    Bool :=
  literals.any (fun lit =>
    match matchLiteral lit rest with
    | some r => k r
    | none => false)

/-- An unanchored test: the matcher succeeds at some position of the input. -/
def testAnywhere (m : List Char → Bool) : List Char → Bool
  | [] => m []
  | c :: cs => m (c :: cs) || testAnywhere m cs

/-- The first position (from the left) at which a matcher succeeds, with its
result. -/
def searchFirst {α : Type} (m : List Char → Option α) : List Char → Option α
  | [] => m []
  | c :: cs =>
    match m (c :: cs) with
    | some a => some a
    | none => searchFirst m cs

/-- The line terminators, which `.` does not match. -/
def isLineTerminator (c : Char) : Bool :=
  c.toNat == 10 || c.toNat == 13 || c.toNat == 8232 || c.toNat == 8233

/-- The test `/^(ingredients?|what you.?ll need)/i`.  Without the `u` flag the
`.` takes one UTF-16 code unit: a character outside the Basic Multilingual
Plane is two units, of which the `.` takes the first and the second is not an
`l`, so such a character between `what you` and `ll need` makes no header. -/
def isIngredientsHeader (line : List Char) : Bool :=
  (matchLiteral "ingredient".data line).isSome ||
    (match matchLiteral "what you".data line with
     | none => false
     | some rest =>
       (match rest with
        | [] => false
        | c :: r => !isLineTerminator c && decide (c.toNat < 65536) &&
            (matchLiteral "ll need".data r).isSome) ||
         (matchLiteral "ll need".data rest).isSome)

/-- The test `/^(instructions?|directions?|method|steps?)/i`. -/
def isInstructionsHeader (line : List Char) : Bool :=
  anyLiteralThen ["instruction".data, "direction".data, "method".data, "step".data]
    (fun _ => true) line

/-- Decimal value of a string of digits, as an exact natural number. -/
def parseDigits (ds : List Char) : Nat :=
  ds.foldl (fun acc c => acc * 10 + (c.toNat - 48)) 0

/-- A value that `parseInt` returns on a run of digits: a non-negative integer
or `Infinity`. -/
inductive ParsedInt where
  | finite (n : Nat)
  | infinity
deriving DecidableEq, Repr

instance (n : Nat) : OfNat ParsedInt n := ⟨ParsedInt.finite n⟩

/-- Number of binary digits of `n`; `fuel` bounds the number of halvings. -/
def bitLengthFrom : Nat → Nat → Nat
  | 0, _ => 0
  | fuel + 1, n => if n = 0 then 0 else bitLengthFrom fuel (n / 2) + 1

/-- Number of binary digits of `n`. -/
def bitLength (n : Nat) : Nat :=
  bitLengthFrom n n

/-- The Number value for a natural number: the nearest double, ties to the even
significand, and `Infinity` when the rounded value needs more than 1024 binary
digits.  A number below 2^53 is a double itself. -/
def nearestDouble (n : Nat) : ParsedInt :=
  if n < 2 ^ 53 then ParsedInt.finite n
  else
    let e := bitLength n - 53
    let q := n / 2 ^ e
    let r := n % 2 ^ e
    let half := 2 ^ (e - 1)
    let q' := if r > half ∨ (r = half ∧ q % 2 = 1) then q + 1 else q
    if bitLength (q' * 2 ^ e) ≤ 1024 then ParsedInt.finite (q' * 2 ^ e) else ParsedInt.infinity

/-- The library function `parseInt` on a run of decimal digits.  For a run of at
most 20 digits the language fixes its value: the Number value for the integer
written; for longer runs an implementation may approximate, so nothing is
assumed there. -/
structure ParseInt where
  run : List Char → ParsedInt
  run_digits : ∀ ds : List Char, ds ≠ [] → (∀ c ∈ ds, isDigit c = true) → ds.length ≤ 20 →
    run ds = nearestDouble (parseDigits ds)

/-- A `parseInt` that rounds every run of digits to the nearest double. -/
def roundingParseInt : ParseInt :=
  { run := fun ds => nearestDouble (parseDigits ds)
    run_digits := fun _ _ _ _ => rfl }

/-- The part `[\s:]*([\d]+)`: the capture group, after the maximal run of white
space and colons. -/
def matchServingsCount (rest : List Char) : Option (List Char) :=
  let ds := (rest.dropWhile (fun c => isWhiteSpace c || c = ':')).takeWhile isDigit
  if ds.isEmpty then none else some ds

/-- One alternative `STEMs?` of the servings pattern followed by the count: the
optional `s` is taken first and given back if the count does not follow. -/
def matchServingsWord (stem : List Char) (rest : List Char) : Option (List Char) :=
  match matchLiteral stem rest with
  | none => none
  | some [] => matchServingsCount []
  | some (c :: r) =>
    if c.toLower = 's' then
      match matchServingsCount r with
      | some ds => some ds
      | none => matchServingsCount (c :: r)
    else matchServingsCount (c :: r)

/-- The pattern `/(?:serves?|servings?|makes?)[\s:]*([\d]+)/i` at one position:
its capture group. -/
def matchServingsAt (rest : List Char) : Option (List Char) :=
  match matchServingsWord "serve".data rest with
  | some ds => some ds
  | none =>
    match matchServingsWord "serving".data rest with
    | some ds => some ds
    | none => matchServingsWord "make".data rest

/-- The pattern `/(\d+)\s*(min|minute|hour|hr)/i` at one position: its two
capture groups.  The alternative `min` comes before `minute`. -/
def matchTimeAt (rest : List Char) : Option (List Char × List Char) :=
  let ds := rest.takeWhile isDigit
  if ds.isEmpty then none
  else
    let r := (rest.drop ds.length).dropWhile isWhiteSpace
    if (matchLiteral "min".data r).isSome then some (ds, r.take 3)
    else if (matchLiteral "minute".data r).isSome then some (ds, r.take 6)
    else if (matchLiteral "hour".data r).isSome then some (ds, r.take 4)
    else if (matchLiteral "hr".data r).isSome then some (ds, r.take 2)
    else none

/-- The unit words of the first ingredient pattern. -/
def ingredientUnitsLong : List (List Char) :=
  ["cup".data, "tsp".data, "tbsp".data, "lb".data, "oz".data, "g".data, "kg".data, "ml".data,
   "l".data, "piece".data, "clove".data]

/-- The unit words of the second and third ingredient patterns. -/
def ingredientUnits : List (List Char) :=
  ["cup".data, "tsp".data, "tbsp".data, "lb".data, "oz".data, "g".data, "kg".data, "ml".data,
   "l".data]

/-- The test `/^\d+[\s\w]*(?:cup|tsp|tbsp|lb|oz|g|kg|ml|l|piece|clove)/i`. -/
def ingredientPattern1 (line : List Char) : Bool :=
  plusThen isDigit
    (starThen (fun c => isWhiteSpace c || isWordChar c)
      (anyLiteralThen ingredientUnitsLong (fun _ => true))) line

/-- The test `/^\d+\s*[\/\d]*\s*(?:cup|tsp|tbsp|lb|oz|g|kg|ml|l)/i`. -/
def ingredientPattern2 (line : List Char) : Bool :=
  plusThen isDigit
    (starThen isWhiteSpace
      (starThen (fun c => c = '/' || isDigit c)
        (starThen isWhiteSpace (anyLiteralThen ingredientUnits (fun _ => true))))) line

/-- The test `/(?:cup|tsp|tbsp|lb|oz|g|kg|ml|l)\s+(?:of\s+)?[\w\s]+/i`. -/
def ingredientPattern3 (line : List Char) : Bool :=
  testAnywhere
    (anyLiteralThen ingredientUnits
      (plusThen isWhiteSpace (fun r =>
        anyLiteralThen ["of".data]
            (plusThen isWhiteSpace
              (plusThen (fun c => isWordChar c || isWhiteSpace c) (fun _ => true))) r ||
          plusThen (fun c => isWordChar c || isWhiteSpace c) (fun _ => true) r))) line

/-- `OCRService.looksLikeIngredient`. -/
def looksLikeIngredient (line : List Char) : Bool :=
  ingredientPattern1 (trim line) || ingredientPattern2 (trim line) ||
    ingredientPattern3 (trim line)

/-- The test `/^\d+[\.\)]\s/`. -/
def instructionPattern1 (line : List Char) : Bool :=
  plusThen isDigit (fun r =>
    match r with
    | c :: d :: _ => (c = '.' || c = ')') && isWhiteSpace d
    | _ => false) line

/-- The test `/^(?:first|next|then|finally|meanwhile|after)/i`. -/
def instructionPattern2 (line : List Char) : Bool :=
  anyLiteralThen ["first".data, "next".data, "then".data, "finally".data, "meanwhile".data,
    "after".data] (fun _ => true) line

/-- The test `/(?:heat|cook|bake|mix|stir|add|combine|place|put)/i`. -/
def instructionPattern3 (line : List Char) : Bool :=
  testAnywhere
    (anyLiteralThen ["heat".data, "cook".data, "bake".data, "mix".data, "stir".data, "add".data,
      "combine".data, "place".data, "put".data] (fun _ => true)) line

/-- `OCRService.looksLikeInstruction`. -/
def looksLikeInstruction (line : List Char) : Bool :=
  decide (jsLength line > 20) &&
    (instructionPattern1 (trim line) || instructionPattern2 (trim line) ||
      instructionPattern3 (trim line))

/-- The values of `currentSection`. -/
inductive RecipeSection where
  | unknown
  | ingredients
  | instructions
deriving DecidableEq, Repr

/-- The object `analysis` returned by `analyzeRecipeText`; `title` starts as
the empty string, `servings` and `cookTime` as `null`. -/
structure RecipeAnalysis where
  ingredients : List (List Char)
  instructions : List (List Char)
  title : List Char
  servings : Option ParsedInt
  cookTime : Option (List Char)
deriving DecidableEq, Repr

/-- One iteration of the loop over the lines, on the state
`(analysis, currentSection)`. -/
def analyzeLine (parseInt : ParseInt) (state : RecipeAnalysis × RecipeSection)
    (rawLine : List Char) : RecipeAnalysis × RecipeSection :=
  let line := trim rawLine
  if isIngredientsHeader line then (state.1, RecipeSection.ingredients)
  else if isInstructionsHeader line then (state.1, RecipeSection.instructions)
  else
    let analysis := state.1
    let analysis :=
      match searchFirst matchServingsAt line with
      | some ds => { analysis with servings := some (parseInt.run ds) }
      | none => analysis
    let analysis :=
      match searchFirst matchTimeAt line with
      | some (n, u) => { analysis with cookTime := some (n ++ ' ' :: u) }
      | none => analysis
    let analysis :=
      if analysis.title.isEmpty && decide (jsLength line > 10) && decide (jsLength line < 100)
      then { analysis with title := line }
      else analysis
    let analysis :=
      if looksLikeIngredient line then
        { analysis with ingredients := analysis.ingredients ++ [line] }
      else if looksLikeInstruction line then
        { analysis with instructions := analysis.instructions ++ [line] }
      else analysis
    (analysis, state.2)

/-- `OCRService.analyzeRecipeText`. -/
def analyzeRecipeText (parseInt : ParseInt) (text : List Char) : RecipeAnalysis :=
  let lines := (splitOnChar '\n' text).filter (fun line => decide (jsLength (trim line) > 0))
  (lines.foldl (analyzeLine parseInt)
    ({ ingredients := [], instructions := [], title := [], servings := none, cookTime := none },
      RecipeSection.unknown)).1

/-! ## The AI response (`backend/services/geminiService.js`) -/

/-- A value produced by `JSON.parse`. -/
inductive Json where
  | null : Json
  | bool : Bool → Json
  | num : ℚ → Json
  | str : String → Json
  | arr : List Json → Json
  | obj : List (String × Json) → Json

/-- JavaScript truthiness of a JSON value. -/
def Json.truthy : Json → Bool
  | Json.null => false
  | Json.bool b => b
  | Json.num n => decide (n ≠ 0)
  | Json.str s => decide (s ≠ "")
  | Json.arr _ => true
  | Json.obj _ => true

/-- The member of an object under a key; of duplicate keys `JSON.parse` keeps
the last. -/
def lookupField (key : String) (fields : List (String × Json)) : Option Json :=
  fields.foldl (fun acc kv => if kv.1 = key then some kv.2 else acc) none

/-- The property access `value.key` for one of the field names of the analysis:
it throws on `null` (outer `none`), is `undefined` (inner `none`) on a missing
member and on every value that is not an object. -/
def getProperty (value : Json) (key : String) : Option (Option Json) :=
  match value with
  | Json.null => none
  | Json.obj fields => some (lookupField key fields)
  | _ => some none

/-- The optional chain `value?.key`, where `value` may be `undefined`: it is
`undefined` when `value` is `undefined` or `null`. -/
def getOptionalProperty (value : Option Json) (key : String) : Option Json :=
  match value with
  | none => none
  | some Json.null => none
  | some (Json.obj fields) => lookupField key fields
  | some _ => none

/-- `Array.isArray(x) ? x : []`. -/
def arrayOrEmpty (x : Option Json) : List Json :=
  match x with
  | some (Json.arr items) => items
  | _ => []

/-- `x || fallback` for a possibly `undefined` JSON value and a string. -/
def valueOr (x : Option Json) (fallback : String) : Json :=
  match x with
  | some v => if v.truthy then v else Json.str fallback
  | none => Json.str fallback

/-- `GeminiService.validateScore`.  `parseInt` is the library function: the
integer it parses from its argument, `none` standing for `NaN`. -/
def validateScore (parseInt : Option Json → Option Int) (score : Option Json) : Int :=
  match parseInt score with
  | none => 50
  | some numScore => if numScore < 0 ∨ numScore > 100 then 50 else numScore

/-- The object `suggestions` of an analysis. -/
structure Suggestions where
  substitutions : List Json
  modifications : List Json
  tips : List Json

/-- The object `nutritionalInfo` of an analysis. -/
structure NutritionalInfo where
  estimatedCalories : Json
  difficulty : Json
  cookingTime : Json
  servings : Json

/-- The analysis returned by `parseGeminiResponse`; `rawResponse` is set only
in the fallback analysis. -/
structure GeminiAnalysis where
  feasibilityScore : Int
  recipeTitle : Json
  extractedIngredients : List Json
  requiredTools : List Json
  availableIngredients : List Json
  missingIngredients : List Json
  suggestions : Suggestions
  nutritionalInfo : NutritionalInfo
  warningsAndNotes : List Json
  rawResponse : Option (List Char)
  timestamp : String

/-- `GeminiService.createFallbackAnalysis`. -/
def createFallbackAnalysis (timestamp : String) (responseText : List Char) : GeminiAnalysis :=
  { feasibilityScore := 50
    recipeTitle := Json.str "Recipe Analysis"
    extractedIngredients := []
    requiredTools := []
    availableIngredients := []
    missingIngredients := []
    suggestions :=
      { substitutions := []
        modifications := [Json.str "Unable to parse detailed analysis. Please try again."]
        tips := [Json.str "Check your recipe image quality and try again."] }
    nutritionalInfo :=
      { estimatedCalories := Json.str "Unknown"
        difficulty := Json.str "medium"
        cookingTime := Json.str "Unknown"
        servings := Json.str "Unknown" }
    warningsAndNotes :=
      [Json.str "Analysis parsing failed. Raw response available for debugging.",
       Json.str "Please check your internet connection and API key configuration."]
    rawResponse := some responseText
    timestamp := timestamp }

/-- Lines 170-199 of `parseGeminiResponse`: the analysis built from the parsed
response, `none` when a property access throws (the parsed value is `null`). -/
def analysisOfParsed (parseInt : Option Json → Option Int) (timestamp : String)
    (parsedResponse : Json) : Option GeminiAnalysis :=
  match parsedResponse with
  | Json.null => none
  | _ =>
    let field := fun key => (getProperty parsedResponse key).getD none
    some
      { feasibilityScore := validateScore parseInt (field "feasibilityScore")
        recipeTitle := valueOr (field "recipeTitle") "Unknown Recipe"
        extractedIngredients := arrayOrEmpty (field "extractedIngredients")
        requiredTools := arrayOrEmpty (field "requiredTools")
        availableIngredients := arrayOrEmpty (field "availableIngredients")
        missingIngredients := arrayOrEmpty (field "missingIngredients")
        suggestions :=
          { substitutions :=
              arrayOrEmpty (getOptionalProperty (field "suggestions") "substitutions")
            modifications :=
              arrayOrEmpty (getOptionalProperty (field "suggestions") "modifications")
            tips := arrayOrEmpty (getOptionalProperty (field "suggestions") "tips") }
        nutritionalInfo :=
          { estimatedCalories :=
              valueOr (getOptionalProperty (field "nutritionalInfo") "estimatedCalories")
                "Unknown"
            difficulty :=
              valueOr (getOptionalProperty (field "nutritionalInfo") "difficulty") "medium"
            cookingTime :=
              valueOr (getOptionalProperty (field "nutritionalInfo") "cookingTime") "Unknown"
            servings :=
              valueOr (getOptionalProperty (field "nutritionalInfo") "servings") "Unknown" }
        warningsAndNotes := arrayOrEmpty (field "warningsAndNotes")
        rawResponse := none
        timestamp := timestamp }

/-- The backtick character of a Markdown fence. -/
def backtick : Char := Char.ofNat 96

/-- The opening brace, sought by `indexOf`. -/
def openBrace : Char := Char.ofNat 123

/-- The closing brace, sought by `lastIndexOf`. -/
def closeBrace : Char := Char.ofNat 125

/-- Three backticks. -/
def fence : List Char := [backtick, backtick, backtick]

/-- The matcher of the fence followed by `json` and `\s*`, ignoring case. -/
def matchFenceJson (_before : Option Char) (rest : List Char) : Option Nat :=
  match matchLiteral (fence ++ "json".data) rest with
  | some r => some (7 + (r.takeWhile isWhiteSpace).length)
  | none => none

/-- The matcher of the fence followed by `\s*`. -/
def matchFence (_before : Option Char) (rest : List Char) : Option Nat :=
  match matchLiteral fence rest with
  | some r => some (3 + (r.takeWhile isWhiteSpace).length)
  | none => none

/-- The matcher of `^\s*` followed by the fence, with the `m` flag: `^` holds
at position 0 and behind a line terminator; the fence must follow the whole
white-space run, since a backtick is not white space. -/
def matchLineStartFence (before : Option Char) (rest : List Char) : Option Nat :=
  if before.all isLineTerminator then
    let ws := (rest.takeWhile isWhiteSpace).length
    match matchLiteral fence (rest.drop ws) with
    | some _ => some (ws + 3)
    | none => none
  else none

/-- Index of the last element that satisfies `p`. -/
def lastIndexWhere (p : Char → Bool) : List Char → Option Nat
  | [] => none
  | x :: xs =>
    match lastIndexWhere p xs with
    | some k => some (k + 1)
    | none => if p x then some 0 else none

/-- The matcher of the fence followed by `\s*$`, with the `m` flag: `$` holds
at the end of the input and in front of a line terminator; the greedy `\s*`
is given back until one of the two holds. -/
def matchFenceLineEnd (_before : Option Char) (rest : List Char) : Option Nat :=
  match matchLiteral fence rest with
  | none => none
  | some r =>
    let ws := r.takeWhile isWhiteSpace
    if (r.drop ws.length).isEmpty then some (3 + ws.length)
    else (lastIndexWhere isLineTerminator ws).map (· + 3)

/-- `String.prototype.indexOf` for one character, `-1` rendered as `none`. -/
def indexOfChar (c : Char) : List Char → Option Nat
  | [] => none
  | x :: xs => if x = c then some 0 else (indexOfChar c xs).map (· + 1)

/-- `String.prototype.substring(a, b)`: the two indices are swapped when
`a > b`. -/
def substring (s : List Char) (a b : Nat) : List Char :=
  (s.take (max a b)).drop (min a b)

/-- `GeminiService.parseGeminiResponse`.  `jsonParse` is `JSON.parse`, `none`
when it throws; every exception raised in the `try` block leads to the fallback
analysis.  The test `jsonEnd === -1` can never hold, because `jsonEnd` is
`lastIndexOf(...) + 1`. -/
def parseGeminiResponse (parseInt : Option Json → Option Int)
    (jsonParse : List Char → Option Json) (timestamp : String) (responseText : List Char) :
    GeminiAnalysis :=
  let cleanedResponse := trim responseText
  let cleanedResponse :=
    replaceAll matchFenceLineEnd []
      (replaceAll matchLineStartFence []
        (replaceAll matchFence [] (replaceAll matchFenceJson [] cleanedResponse)))
  match indexOfChar openBrace cleanedResponse with
  | none => createFallbackAnalysis timestamp responseText
  | some jsonStart =>
    let jsonEnd :=
      match lastIndexOf closeBrace cleanedResponse with
      | some k => k + 1
      | none => 0
    let jsonString := substring cleanedResponse jsonStart jsonEnd
    match (jsonParse jsonString).bind (analysisOfParsed parseInt timestamp) with
    | some analysis => analysis
    | none => createFallbackAnalysis timestamp responseText

/-! ## The analyze route (`backend/routes/recipeRoutes.js`) -/

/-- The rounding of an exact result to a double, which every arithmetic
operation of JavaScript applies.  Two facts about it are used: it is monotone,
and an integer of magnitude at most 2^53 is a double and so is left as it
is. -/
structure Rounding where
  fl : ℚ → ℚ
  fl_mono : ∀ x y : ℚ, x ≤ y → fl x ≤ fl y
  fl_int : ∀ n : Int, |n| ≤ 2 ^ 53 → fl (n : ℚ) = (n : ℚ)

/-- The rounding that changes nothing: it satisfies the two facts. -/
def exactRounding : Rounding :=
  { fl := fun x => x
    fl_mono := fun _ _ h => h
    fl_int := fun _ _ => rfl }

/-- `Math.round((available / extracted) * 100)` guarded by the pantry size: the
quotient of the two lengths is rounded to a double, its product with 100 is
rounded to a double, and `Math.round` takes the integer nearest to that, the
larger one on a tie.  `none` stands for the non-finite results `NaN` and
`Infinity` of a division by zero. -/
def matchPercentage (rounding : Rounding) (pantryCount availableCount extractedCount : Nat) :
    Option Int :=
  if pantryCount > 0 then
    if extractedCount = 0 then none
    else some ⌊rounding.fl (rounding.fl ((availableCount : ℚ) / (extractedCount : ℚ)) * 100)
      + 1 / 2⌋
  else some 0

/-- The object `pantryAnalysis` of the answer. -/
structure PantryAnalysis where
  totalPantryItems : Nat
  availableIngredients : List Json
  missingIngredients : List Json
  matchPercentage : Option Int

/-- The `pantryAnalysis` built by `POST /api/recipe/analyze` (lines 143-150). -/
def pantryAnalysis {α : Type} (rounding : Rounding) (pantryIngredients : List α)
    (geminiAnalysis : GeminiAnalysis) : PantryAnalysis :=
  { totalPantryItems := pantryIngredients.length
    availableIngredients := geminiAnalysis.availableIngredients
    missingIngredients := geminiAnalysis.missingIngredients
    matchPercentage := matchPercentage rounding pantryIngredients.length
      geminiAnalysis.availableIngredients.length geminiAnalysis.extractedIngredients.length }

/-- The ingredient list of the recipe in the answer (`recipe.ingredients`). -/
def recipeIngredients (geminiAnalysis : GeminiAnalysis) : List Json :=
  geminiAnalysis.extractedIngredients

/-- The failures that reach the `catch` block of the analyze route: an empty
extraction (line 96), a failure inside `extractTextFromImage` and a failure
inside `analyzeRecipeFeasibility`, each with the message of the underlying
error. -/
inductive AnalyzeFailure where
  | emptyExtraction
  | ocrFailure (inner : String)
  | aiFailure (inner : String)

/-- The message of the error as it reaches the route: the services re-throw
with their own prefixes (`ocrService.js` line 88, `geminiService.js` line 53). -/
def failureMessage : AnalyzeFailure → String
  | AnalyzeFailure.emptyExtraction =>
    "No text could be extracted from the image. " ++
      "Please ensure the image is clear and contains readable text."
  | AnalyzeFailure.ocrFailure inner => "OCR processing failed: " ++ inner
  | AnalyzeFailure.aiFailure inner => "Recipe analysis failed: " ++ inner

/-- The error mapping of the analyze route (lines 183-196): status code and
message. -/
def analyzeErrorResponse (message : String) : Nat × String :=
  if includes message.data "No text could be extracted".data then (422, message)
  else if includes message.data "Gemini".data then
    (503, "AI analysis service temporarily unavailable")
  else if includes message.data "OCR".data then
    (422, "Failed to process image. Please try with a clearer image.")
  else (500, "Internal server error during recipe analysis")

/-! ## The client store (`frontend/src/store/useAppStore.js`) -/

/-- The `pantry` slice of the client store, without its `loading`, `error` and
`lastUpdated` fields.  `totalItems` is a number the store decrements freely. -/
structure StorePantry (Num : Type) where
  ingredients : List (IngredientRecord Num)
  totalItems : Int
deriving DecidableEq, Repr

/-- The state update of the store action `loadPantry` on a successful answer
carrying `ingredients`: duplicates by name, category, quantity and unit are
dropped, the first of each kept. -/
def storeLoadPantry {Num : Type} [DecidableEq Num] (_state : StorePantry Num)
    (ingredients : List (IngredientRecord Num)) : StorePantry Num :=
  let same := fun (i ingredient : IngredientRecord Num) =>
    i.name == ingredient.name && i.category == ingredient.category &&
      i.quantity == ingredient.quantity && i.unit == ingredient.unit
  let uniqueIngredients :=
    (ingredients.enum.filter (fun entry =>
      findIndex (fun i => same i entry.2) ingredients == some entry.1)).map (fun entry => entry.2)
  { ingredients := uniqueIngredients, totalItems := uniqueIngredients.length }

/-- The state update of the store action `addIngredient` on a successful
answer whose `data.ingredient` is `newIngredient`. -/
def storeAddIngredient {Num : Type} (js : JsNumbers Num) (state : StorePantry Num)
    (newIngredient : IngredientRecord Num) : StorePantry Num :=
  let existingIndex := findIndex (fun ingredient =>
    ingredient.name == newIngredient.name && ingredient.category == newIngredient.category &&
      ingredient.unit == newIngredient.unit) state.ingredients
  let updatedIngredients :=
    match existingIndex.bind (fun i => (state.ingredients[i]?).map (fun item => (i, item))) with
    | some (i, item) =>
      state.ingredients.set i
        { item with quantity := js.add item.quantity newIngredient.quantity }
    | none => state.ingredients ++ [newIngredient]
  { ingredients := updatedIngredients, totalItems := updatedIngredients.length }

/-- The state update of the store action `updateIngredient` on a successful
answer. -/
def storeUpdateIngredient {Num : Type} (state : StorePantry Num) (originalName : String)
    (updatedIngredient : IngredientRecord Num) : StorePantry Num :=
  { state with ingredients := state.ingredients.map (fun ingredient =>
      if ingredient.name = originalName then updatedIngredient else ingredient) }

/-- The state update of the store action `removeIngredient` on a successful
answer. -/
def storeRemoveIngredient {Num : Type} (state : StorePantry Num) (ingredientName : String) :
    StorePantry Num :=
  { ingredients := state.ingredients.filter (fun ingredient => ingredient.name != ingredientName)
    totalItems := state.totalItems - 1 }

/-- The state update of the store action `clearPantry` on a successful answer. -/
def storeClearPantry {Num : Type} (_state : StorePantry Num) : StorePantry Num :=
  { ingredients := [], totalItems := 0 }

/-- The store action `addIngredient` against the server: the request goes
through `POST /api/pantry/ingredients`; on success the store is updated with
the returned record, otherwise it is left alone. -/
def clientAddIngredient {Num : Type} (js : JsNumbers Num) (lc : String → String) (now : Int)
    (server : Option (Pantry Num)) (state : StorePantry Num) (ingredientData : AddRequest Num) :
    Option (Pantry Num) × StorePantry Num :=
  let answer := postIngredient js lc now server ingredientData
  match answer.2.data with
  | some data => if answer.2.success then (answer.1, storeAddIngredient js state data.ingredient)
                 else (answer.1, state)
  | none => (answer.1, state)

/-- The store action `removeIngredient` against the server. -/
def clientRemoveIngredient {Num : Type} (lc : String → String) (now : Int)
    (server : Option (Pantry Num)) (state : StorePantry Num) (ingredientName : String) :
    Option (Pantry Num) × StorePantry Num :=
  let answer := deleteIngredient lc now server ingredientName
  if answer.2.success then (answer.1, storeRemoveIngredient state ingredientName)
  else (answer.1, state)

/-! ## Reading aids for the pantry -/

/-- A call that the schema accepts as it stands: its name is stored as it is
passed (lower-cased and trimmed already) and is not empty, its category and
unit are absent or listed in the schema, and its quantity is absent or a
positive number. -/
def WellFormedCall {Num : Type} (js : JsNumbers Num) (lc : String → String)
    (c : Ingredient Num) : Prop :=
  storedName lc c.name = c.name ∧ c.name ≠ "" ∧
  (∀ k, c.category = some k → categoryValues.contains k = true) ∧
  (∀ u, c.unit = some u → unitValues.contains u = true) ∧
  (c.quantity = none ∨ ∃ n, c.quantity = some (QuantityValue.num n) ∧ js.positive n = true)

/-- A pantry as the schema lets it be stored, with positive quantities: every
record passes the validators and has a positive quantity. -/
def WellFormedPantry {Num : Type} (js : JsNumbers Num) (p : Pantry Num) : Prop :=
  ∀ r ∈ p.ingredients, validRecord r = true ∧ js.positive r.quantity = true

/-- The record `item` after a well-formed call `c` has been merged into it. -/
def mergedWith {Num : Type} (js : JsNumbers Num) (item : IngredientRecord Num)
    (c : Ingredient Num) : IngredientRecord Num :=
  { item with quantity := js.add item.quantity (callNumber js c), unit := unitOr c.unit item.unit }

/-- The record stored for a well-formed call `c` made with a new name. -/
def storedFor {Num : Type} (js : JsNumbers Num) (now : Int) (c : Ingredient Num) :
    IngredientRecord Num :=
  { name := c.name, category := c.category.getD "other", quantity := callNumber js c,
    unit := c.unit.getD "piece", expiryDate := c.expiryDate, addedDate := now }

/-! ## Reading aids for the segmenter -/

/-- The header test at the head of the loop body: either section-header
pattern matches. -/
def isHeaderLine (line : List Char) : Bool :=
  isIngredientsHeader line || isInstructionsHeader line

/-- The lines the loop of `analyzeRecipeText` runs over: the non-blank lines
of the text, in input order. -/
def recipeLines (text : List Char) : List (List Char) :=
  (splitOnChar '\n' text).filter (fun line => decide (jsLength (trim line) > 0))

/-- The content lines of a text: its non-blank lines, trimmed, without the
section-header lines, in input order. -/
def contentLines (text : List Char) : List (List Char) :=
  ((recipeLines text).map trim).filter (fun line => !isHeaderLine line)

/-- A line qualifies as the title when its length lies strictly between 10
and 100. -/
def qualifiesAsTitle (line : List Char) : Bool :=
  decide (jsLength line > 10) && decide (jsLength line < 100)

/-- The maximal runs of word characters of a text, in order. -/
def wordsOfFrom : List Char → List Char → List (List Char)
  | acc, [] => if acc.isEmpty then [] else [acc.reverse]
  | acc, c :: cs =>
    if isWordChar c then wordsOfFrom (c :: acc) cs
    else if acc.isEmpty then wordsOfFrom [] cs
    else acc.reverse :: wordsOfFrom [] cs

/-- The whole words of a text: its maximal runs of word characters. -/
def wordsOf (text : List Char) : List (List Char) :=
  wordsOfFrom [] text

/-- The text contains `word` (given in lower case) as a whole word, in any
letter case. -/
def hasWholeWord (word : List Char) (text : List Char) : Bool :=
  (wordsOf text).any (fun w => w.map Char.toLower == word)

/-! ## Reading aids for the unit corrections -/

/-- A word matches the pattern `STEMs?` as a whole, ignoring case. -/
def matchesEntry (entry : List Char × List Char) (word : List Char) : Bool :=
  decide (word.map Char.toLower = entry.1 ∨ word.map Char.toLower = entry.1 ++ ['s'])

/-- One correction on a single word: the replacement when the whole word is the
stem or its plural, ignoring case, and the word itself otherwise. -/
def fixWord (entry : List Char × List Char) (word : List Char) : List Char :=
  if matchesEntry entry word then entry.2 else word

/-- All corrections on a single word: the lower-case singular of the first
entry of the table that the word matches, and the word itself when it matches
none. -/
def correctWord (word : List Char) : List Char :=
  match recipeCorrections.find? (fun entry => matchesEntry entry word) with
  | some entry => entry.2
  | none => word

/-- The plural forms of the table: tsps, tbsps, cups, ozs, lbs, cloves,
spoons. -/
def pluralForms : List (List Char) :=
  recipeCorrections.map (fun entry => entry.1 ++ ['s'])

/-- The text with `f` applied to each of its maximal runs of word characters
and every other character kept; `acc` holds the current run, reversed. -/
def mapWordsFrom (f : List Char → List Char) : List Char → List Char → List Char
  | acc, [] => if acc.isEmpty then [] else f acc.reverse
  | acc, c :: cs =>
    if isWordChar c then mapWordsFrom f (c :: acc) cs
    else (if acc.isEmpty then [] else f acc.reverse) ++ c :: mapWordsFrom f [] cs

/-- The text with `f` applied to each of its whole words. -/
def mapWords (f : List Char → List Char) (text : List Char) : List Char :=
  mapWordsFrom f [] text

/-- The stage of `cleanExtractedText` that applies the table of corrections. -/
def applyCorrections (text : List Char) : List Char :=
  recipeCorrections.foldl
    (fun acc entry => replaceAll (matchUnitWord entry.1) entry.2 acc) text

/-- A stem of the table of corrections: not empty and made of lower-case
letters. -/
def IsStem (stem : List Char) : Prop :=
  stem ≠ [] ∧ ∀ p ∈ stem, 97 ≤ p.toNat ∧ p.toNat ≤ 122

/-- The function `f` maps words to words: a non-empty run of word characters
to a non-empty run of word characters. -/
def PreservesWords (f : List Char → List Char) : Prop :=
  ∀ w, w ≠ [] → (∀ c ∈ w, isWordChar c = true) → f w ≠ [] ∧ ∀ c ∈ f w, isWordChar c = true

/-! # Theorems -/

set_option maxRecDepth 100000

/-! ## Look-up lemmas -/

theorem findIndex_eq_none {α : Type} (pred : α → Bool) (l : List α) :
    findIndex pred l = none ↔ ∀ x ∈ l, pred x = false := by
  induction l with
  | nil => simp [findIndex]
  | cons x xs ih =>
    by_cases h : pred x = true
    · simp [findIndex, h]
    · simp only [Bool.not_eq_true] at h
      simp [findIndex, h, ih]

theorem findIndex_eq_some {α : Type} (pred : α → Bool) (l : List α) (i : Nat)
    (h : findIndex pred l = some i) :
    ∃ x, l[i]? = some x ∧ pred x = true ∧ ∀ j, j < i → ∀ y, l[j]? = some y → pred y = false := by
  induction l generalizing i with
  | nil => simp [findIndex] at h
  | cons x xs ih =>
    by_cases hx : pred x = true
    · simp [findIndex, hx] at h
      subst h
      exact ⟨x, by simp, hx, by intro j hj; omega⟩
    · simp only [Bool.not_eq_true] at hx
      simp [findIndex, hx] at h
      obtain ⟨k, hk, rfl⟩ := h
      obtain ⟨y, hy1, hy2, hy3⟩ := ih k hk
      refine ⟨y, by simpa using hy1, hy2, ?_⟩
      intro j hj z hz
      cases j with
      | zero => simp at hz; subst hz; exact hx
      | succ j => simp at hz; exact hy3 j (by omega) z hz

/-- The look-up shared by `addIngredient` and `updateIngredient` finds nothing
exactly when no element satisfies the predicate. -/
theorem lookup_eq_none {α : Type} (pred : α → Bool) (l : List α) :
    (findIndex pred l).bind (fun i => (l[i]?).map (fun item => (i, item))) = none ↔
      ∀ x ∈ l, pred x = false := by
  rw [← findIndex_eq_none]
  constructor
  · intro h
    cases hf : findIndex pred l with
    | none => rfl
    | some i =>
      obtain ⟨x, hx, -, -⟩ := findIndex_eq_some pred l i hf
      simp [hf, hx] at h
  · intro h; simp [h]

/-- The look-up returns the first element that satisfies the predicate. -/
theorem lookup_eq_some {α : Type} (pred : α → Bool) (l : List α) (i : Nat) (x : α)
    (h : (findIndex pred l).bind (fun i => (l[i]?).map (fun item => (i, item))) = some (i, x)) :
    l[i]? = some x ∧ pred x = true ∧ ∀ j, j < i → ∀ y, l[j]? = some y → pred y = false := by
  cases hf : findIndex pred l with
  | none => simp [hf] at h
  | some k =>
    obtain ⟨y, hy1, hy2, hy3⟩ := findIndex_eq_some pred l k hf
    simp [hf, hy1] at h
    obtain ⟨rfl, rfl⟩ := h
    exact ⟨hy1, hy2, hy3⟩

theorem map_set_of_eq {α β : Type} (f : α → β) (l : List α) (i : Nat) (x y : α)
    (hx : l[i]? = some x) (hxy : f y = f x) : (l.set i y).map f = l.map f := by
  induction l generalizing i with
  | nil => simp
  | cons a as ih =>
    cases i with
    | zero => simp at hx; subst hx; simp [hxy]
    | succ i => simp at hx; simp [ih i hx]

/-! ## The AI response and the analyze route -/

/-- C7, as stated, fails: for a response that lists one extracted ingredient
and empty available and missing arrays the route reports 0 available and 0
missing ingredients against 1 recipe ingredient. -/
theorem partition_counterexample :
    (analysisOfParsed (fun _ => none) "t"
        (Json.obj [("extractedIngredients", Json.arr [Json.str "flour"]),
                   ("availableIngredients", Json.arr []),
                   ("missingIngredients", Json.arr [])])).map
      (fun a =>
        ((pantryAnalysis exactRounding eggMilkPantry.ingredients a).availableIngredients.length,
         (pantryAnalysis exactRounding eggMilkPantry.ingredients a).missingIngredients.length,
         (recipeIngredients a).length)) = some (0, 0, 1) := by
  rfl

/-- C7, amended: the analyze route reports the availableIngredients and
missingIngredients arrays of the AI response as they are (an absent or
non-array field as the empty list), next to its extractedIngredients as the
recipe's ingredient list, so available.length + missing.length equals the
number of recipe ingredients exactly when the response's own arrays satisfy
that equation; it does for the fallback analysis, whose three lists are
empty. -/
theorem pantryAnalysis_passthrough {α : Type} (rounding : Rounding)
    (parseInt : Option Json → Option Int) (timestamp : String)
    (pantryIngredients : List α) (fields : List (String × Json))
    (ex av ms : List Json)
    (hex : lookupField "extractedIngredients" fields = some (Json.arr ex))
    (hav : lookupField "availableIngredients" fields = some (Json.arr av))
    (hms : lookupField "missingIngredients" fields = some (Json.arr ms)) :
    (∃ a, analysisOfParsed parseInt timestamp (Json.obj fields) = some a ∧
      (pantryAnalysis rounding pantryIngredients a).availableIngredients = av ∧
      (pantryAnalysis rounding pantryIngredients a).missingIngredients = ms ∧
      recipeIngredients a = ex ∧
      ((pantryAnalysis rounding pantryIngredients a).availableIngredients.length
          + (pantryAnalysis rounding pantryIngredients a).missingIngredients.length
          = (recipeIngredients a).length ↔ av.length + ms.length = ex.length)) ∧
    (∀ responseText,
      (pantryAnalysis rounding pantryIngredients
          (createFallbackAnalysis timestamp responseText)).availableIngredients.length
        + (pantryAnalysis rounding pantryIngredients
            (createFallbackAnalysis timestamp responseText)).missingIngredients.length
        = (recipeIngredients (createFallbackAnalysis timestamp responseText)).length) ∧
    (∀ otherFields : List (String × Json),
      ∃ a, analysisOfParsed parseInt timestamp (Json.obj otherFields) = some a ∧
        (pantryAnalysis rounding pantryIngredients a).availableIngredients
          = arrayOrEmpty (lookupField "availableIngredients" otherFields) ∧
        (pantryAnalysis rounding pantryIngredients a).missingIngredients
          = arrayOrEmpty (lookupField "missingIngredients" otherFields) ∧
        recipeIngredients a = arrayOrEmpty (lookupField "extractedIngredients" otherFields)) := by
  refine ⟨⟨_, rfl, ?_, ?_, ?_, ?_⟩, ?_, ?_⟩
  · simp [pantryAnalysis, getProperty, hav, arrayOrEmpty]
  · simp [pantryAnalysis, getProperty, hms, arrayOrEmpty]
  · simp [recipeIngredients, getProperty, hex, arrayOrEmpty]
  · simp [pantryAnalysis, recipeIngredients, getProperty, hex, hav, hms, arrayOrEmpty]
  · intro responseText
    simp [pantryAnalysis, recipeIngredients, createFallbackAnalysis]
  · intro otherFields
    exact ⟨_, rfl, by simp [pantryAnalysis, getProperty],
      by simp [pantryAnalysis, getProperty], by simp [recipeIngredients, getProperty]⟩

/-- Witness of C7 amended: a response whose arrays do partition the recipe. -/
theorem pantryAnalysis_passthrough_witness :
    (lookupField "extractedIngredients"
        [("extractedIngredients", Json.arr [Json.str "flour", Json.str "salt"]),
         ("availableIngredients", Json.arr [Json.str "salt"]),
         ("missingIngredients", Json.arr [Json.str "flour"])]
      = some (Json.arr [Json.str "flour", Json.str "salt"])) ∧
    (∃ a, analysisOfParsed (fun _ => none) "t"
        (Json.obj [("extractedIngredients", Json.arr [Json.str "flour", Json.str "salt"]),
                   ("availableIngredients", Json.arr [Json.str "salt"]),
                   ("missingIngredients", Json.arr [Json.str "flour"])]) = some a ∧
      (pantryAnalysis exactRounding eggMilkPantry.ingredients a).availableIngredients.length
        + (pantryAnalysis exactRounding eggMilkPantry.ingredients a).missingIngredients.length
        = (recipeIngredients a).length) := by
  refine ⟨rfl, ?_⟩
  obtain ⟨⟨a, ha, _, _, _, hiff⟩, _⟩ := pantryAnalysis_passthrough exactRounding
    (fun _ => none) "t" eggMilkPantry.ingredients
    [("extractedIngredients", Json.arr [Json.str "flour", Json.str "salt"]),
     ("availableIngredients", Json.arr [Json.str "salt"]),
     ("missingIngredients", Json.arr [Json.str "flour"])]
    [Json.str "flour", Json.str "salt"] [Json.str "salt"] [Json.str "flour"] rfl rfl rfl
  exact ⟨a, ha, hiff.2 rfl⟩

/-- C23, at the failing input: for the response text made of `5`, a space and
an opening brace there is no closing brace, `jsonEnd` is 0, `substring` swaps
its arguments and `JSON.parse` receives `5 `; the result is not the fallback
analysis: it has no rawResponse and no fallback modification. -/
theorem parseGeminiResponse_no_fallback (parseInt : Option Json → Option Int)
    (jsonParse : List Char → Option Json) (timestamp : String)
    (h : jsonParse "5 ".data = some (Json.num 5)) :
    (parseGeminiResponse parseInt jsonParse timestamp "5 \x7b".data).rawResponse = none ∧
    (parseGeminiResponse parseInt jsonParse timestamp "5 \x7b".data).suggestions.modifications.length
      = 0 := by
  have hs : substring "5 \x7b".data 2 0 = "5 ".data := by decide
  have hc : replaceAll matchFenceLineEnd []
      (replaceAll matchLineStartFence []
        (replaceAll matchFence [] (replaceAll matchFenceJson [] (trim "5 \x7b".data))))
      = "5 \x7b".data := by decide
  have hi : indexOfChar openBrace "5 \x7b".data = some 2 := by decide
  have hl : lastIndexOf closeBrace "5 \x7b".data = none := by decide
  simp only [parseGeminiResponse, hc, hi, hl, hs, h]
  simp [analysisOfParsed, getProperty, arrayOrEmpty, getOptionalProperty]

/-- Witness of C23's evaluation, with a `JSON.parse` that knows the text `5 `. -/
theorem parseGeminiResponse_no_fallback_witness :
    ((fun s => if s = "5 ".data then some (Json.num 5) else none :
        List Char → Option Json) "5 ".data).isSome = true ∧
    (parseGeminiResponse (fun _ => none)
        (fun s => if s = "5 ".data then some (Json.num 5) else none) "t"
        "5 \x7b".data).rawResponse = none :=
  ⟨by simp, (parseGeminiResponse_no_fallback (fun _ => none)
    (fun s => if s = "5 ".data then some (Json.num 5) else none) "t" (by simp)).1⟩

/-- C24, at the failing input: a failure of the AI call whose message is
"fetch failed" reaches the route as "Recipe analysis failed: fetch failed",
which mentions neither Gemini nor OCR, and is answered with status 500; the
empty extraction and an OCR failure are answered with 422. -/
theorem analyzeErrorResponse_ai_failure :
    analyzeErrorResponse (failureMessage (AnalyzeFailure.aiFailure "fetch failed"))
      = (500, "Internal server error during recipe analysis") ∧
    analyzeErrorResponse (failureMessage AnalyzeFailure.emptyExtraction)
      = (422, failureMessage AnalyzeFailure.emptyExtraction) ∧
    analyzeErrorResponse (failureMessage (AnalyzeFailure.ocrFailure "worker crashed"))
      = (422, "Failed to process image. Please try with a clearer image.") := by
  decide

/-- Whatever the rounding of the arithmetic is, a response with one extracted
and two available ingredients and a pantry that is not empty is reported with
the matchPercentage 200, and the fallback analysis with no number. -/
theorem matchPercentage_general (rounding : Rounding) :
    (analysisOfParsed (fun _ => none) "t"
        (Json.obj [("extractedIngredients", Json.arr [Json.str "flour"]),
                   ("availableIngredients", Json.arr [Json.str "flour", Json.str "salt"])])).map
      (fun a => (pantryAnalysis rounding eggMilkPantry.ingredients a).matchPercentage)
      = some (some 200) ∧
    (pantryAnalysis rounding eggMilkPantry.ingredients
        (createFallbackAnalysis "t" [])).matchPercentage = none := by
  have h2 : rounding.fl 2 = 2 := by
    have := rounding.fl_int 2 (by norm_num)
    simpa using this
  have h200 : rounding.fl 200 = 200 := by
    have := rounding.fl_int 200 (by norm_num)
    simpa using this
  have h : matchPercentage rounding 2 2 1 = some 200 := by
    simp only [matchPercentage]
    norm_num [h2, h200, Int.floor_eq_iff]
  refine ⟨?_, ?_⟩
  · simpa [analysisOfParsed, pantryAnalysis, getProperty, lookupField, arrayOrEmpty,
      eggMilkPantry] using h
  · simp [pantryAnalysis, createFallbackAnalysis, matchPercentage, eggMilkPantry]

/-- C29, as stated, fails: for a response with one extracted and two available
ingredients and a pantry that is not empty the reported matchPercentage is
200; and for the fallback analysis, which has no extracted ingredient, the
division is a division by zero and the result is not a number. -/
theorem matchPercentage_counterexample :
    (analysisOfParsed (fun _ => none) "t"
        (Json.obj [("extractedIngredients", Json.arr [Json.str "flour"]),
                   ("availableIngredients", Json.arr [Json.str "flour", Json.str "salt"])])).map
      (fun a => (pantryAnalysis exactRounding eggMilkPantry.ingredients a).matchPercentage)
      = some (some 200) ∧
    (pantryAnalysis exactRounding eggMilkPantry.ingredients
        (createFallbackAnalysis "t" [])).matchPercentage = none :=
  matchPercentage_general exactRounding

/-- C29, amended: for every pantry and every analysis with at least one
extracted ingredient and no more available than extracted ingredients, the
matchPercentage reported by the analyze route is an integer between 0 and
100. -/
theorem matchPercentage_range {α : Type} (rounding : Rounding) (pantryIngredients : List α)
    (geminiAnalysis : GeminiAnalysis)
    (he : 0 < geminiAnalysis.extractedIngredients.length)
    (ha : geminiAnalysis.availableIngredients.length
      ≤ geminiAnalysis.extractedIngredients.length) :
    ∃ n : Int,
      (pantryAnalysis rounding pantryIngredients geminiAnalysis).matchPercentage = some n ∧
      0 ≤ n ∧ n ≤ 100 := by
  simp only [pantryAnalysis]
  generalize geminiAnalysis.extractedIngredients.length = extractedCount at he ha
  generalize geminiAnalysis.availableIngredients.length = availableCount at ha
  generalize pantryIngredients.length = pantryCount
  unfold matchPercentage
  by_cases hp : pantryCount > 0
  · have he' : extractedCount ≠ 0 := by omega
    simp only [hp, if_true, he', if_false]
    have h0 : rounding.fl 0 = 0 := by
      have := rounding.fl_int 0 (by norm_num)
      simpa using this
    have h1 : rounding.fl 1 = 1 := by
      have := rounding.fl_int 1 (by norm_num)
      simpa using this
    have h100 : rounding.fl 100 = 100 := by
      have := rounding.fl_int 100 (by norm_num)
      simpa using this
    have hq : (0 : ℚ) < (extractedCount : ℚ) := by exact_mod_cast he
    have hlo : (0 : ℚ) ≤ (availableCount : ℚ) / (extractedCount : ℚ) := by positivity
    have hhi : ((availableCount : ℚ) / (extractedCount : ℚ)) ≤ 1 := by
      rw [div_le_one hq]; exact_mod_cast ha
    have hlo1 : 0 ≤ rounding.fl ((availableCount : ℚ) / (extractedCount : ℚ)) := by
      have := rounding.fl_mono _ _ hlo
      rwa [h0] at this
    have hhi1 : rounding.fl ((availableCount : ℚ) / (extractedCount : ℚ)) ≤ 1 := by
      have := rounding.fl_mono _ _ hhi
      rwa [h1] at this
    have hlo2 : 0 ≤ rounding.fl
        (rounding.fl ((availableCount : ℚ) / (extractedCount : ℚ)) * 100) := by
      have := rounding.fl_mono 0
        (rounding.fl ((availableCount : ℚ) / (extractedCount : ℚ)) * 100)
        (mul_nonneg hlo1 (by norm_num))
      rwa [h0] at this
    have hhi2 : rounding.fl
        (rounding.fl ((availableCount : ℚ) / (extractedCount : ℚ)) * 100) ≤ 100 := by
      have := rounding.fl_mono
        (rounding.fl ((availableCount : ℚ) / (extractedCount : ℚ)) * 100) 100
        (by linarith)
      rwa [h100] at this
    refine ⟨_, rfl, ?_, ?_⟩
    · apply Int.floor_nonneg.2
      linarith
    · have := Int.floor_le (rounding.fl
        (rounding.fl ((availableCount : ℚ) / (extractedCount : ℚ)) * 100) + 1 / 2)
      have h3 : ((⌊rounding.fl
          (rounding.fl ((availableCount : ℚ) / (extractedCount : ℚ)) * 100) + 1 / 2⌋ : Int) : ℚ)
          < 100 + 1 := by linarith
      have h4 : (⌊rounding.fl
          (rounding.fl ((availableCount : ℚ) / (extractedCount : ℚ)) * 100) + 1 / 2⌋ : Int)
          < 100 + 1 := by exact_mod_cast h3
      omega
  · simp [hp]

/-- Witness of C29 amended: one of three extracted ingredients is available. -/
theorem matchPercentage_range_witness :
    (0 < ({ (createFallbackAnalysis "t" []) with
            extractedIngredients := [Json.str "a", Json.str "b", Json.str "c"]
            availableIngredients := [Json.str "a"] } : GeminiAnalysis).extractedIngredients.length) ∧
    (∃ n : Int, (pantryAnalysis exactRounding eggMilkPantry.ingredients
        { (createFallbackAnalysis "t" []) with
          extractedIngredients := [Json.str "a", Json.str "b", Json.str "c"]
          availableIngredients := [Json.str "a"] }).matchPercentage = some n ∧
      0 ≤ n ∧ n ≤ 100) :=
  ⟨by simp, matchPercentage_range exactRounding eggMilkPantry.ingredients _ (by simp) (by simp)⟩

/-- C30: for every input, `validateScore` returns an integer in the range
0..100: the integer parsed from the input when that lies in 0..100, and 50
when the input does not parse to a number or parses to a value below 0 or
above 100. -/
theorem validateScore_range (parseInt : Option Json → Option Int) (score : Option Json) :
    (0 ≤ validateScore parseInt score ∧ validateScore parseInt score ≤ 100) ∧
    (∀ n, parseInt score = some n → 0 ≤ n → n ≤ 100 → validateScore parseInt score = n) ∧
    (parseInt score = none → validateScore parseInt score = 50) ∧
    (∀ n, parseInt score = some n → n < 0 ∨ n > 100 → validateScore parseInt score = 50) := by
  unfold validateScore
  cases h : parseInt score with
  | none => simp
  | some n =>
    by_cases hn : n < 0 ∨ n > 100
    · simp [hn]
      intro h0 h100
      omega
    · simp only [hn, if_false]
      push_neg at hn
      refine ⟨⟨hn.1, hn.2⟩, ?_, by simp, ?_⟩
      · intro m hm _ _; simp at hm; exact hm
      · intro m hm hm2; simp at hm; subst hm; exact absurd hm2 (by push_neg; exact hn)

/-- Witness of C30: a score that parses to 73. -/
theorem validateScore_range_witness :
    ((fun _ => some 73 : Option Json → Option Int) (some (Json.num 73)) = some 73) ∧
    validateScore (fun _ => some 73) (some (Json.num 73)) = 73 :=
  ⟨rfl, (validateScore_range (fun _ => some 73) (some (Json.num 73))).2.1 73 rfl
    (by decide) (by decide)⟩

/-! ## Normalisation at concrete inputs -/

/-- C1, at the failing input: the leading bullet of "@ foo" is replaced by a
space after the trim, so the first pass yields " foo" and the second pass
yields "foo"; likewise "a @ @ b" yields "a @ b" and then "a b". -/
theorem cleanExtractedText_not_idempotent :
    cleanExtractedText "@ foo".data = " foo".data ∧
    cleanExtractedText (cleanExtractedText "@ foo".data) = "foo".data ∧
    cleanExtractedText "a @ @ b".data = "a @ b".data ∧
    cleanExtractedText (cleanExtractedText "a @ @ b".data) = "a b".data := by
  decide

/-- C11, at the failing input: a bullet in front of "2 cups flour" leaves a
leading space, an artifact at the end leaves a trailing space, and a text of
three spaces yields one space. -/
theorem cleanExtractedText_not_trimmed :
    cleanExtractedText "* 2 cups flour".data = " 2 cup flour".data ∧
    cleanExtractedText "salt #".data = "salt ".data ∧
    cleanExtractedText "   ".data = " ".data := by
  decide

/-- C12, at the failing input: the blank line between "Pancakes" and
"Serves 4" becomes a single space, not a newline, and so does a single line
break. -/
theorem cleanExtractedText_joins_lines :
    cleanExtractedText "Pancakes\n\nServes 4".data = "Pancakes Serves 4".data ∧
    cleanExtractedText "2 cups flour\n1 tsp salt".data = "2 cup flour 1 tsp salt".data := by
  decide

/-- C13, at the failing input: of two artifact tokens in a row only the first
is stripped, because its match consumes the space in front of the second; and a
dollar token is never stripped, because the unescaped `$` of the pattern is the
end-of-input assertion. -/
theorem cleanExtractedText_keeps_artifacts :
    cleanExtractedText "a @ @ b".data = "a @ b".data ∧
    cleanExtractedText "salt $ pepper".data = "salt $ pepper".data ∧
    cleanExtractedText "salt # % pepper".data = "salt % pepper".data := by
  decide

/-! ## The replace scanner and the clean-up stages -/

theorem mem_replaceAllFrom (m : Option Char → List Char → Option Nat) (rep : List Char)
    (s : List Char) : ∀ (k : Nat) (b : Option Char) (c : Char),
    c ∈ replaceAllFrom m rep k b s → c ∈ s ∨ c ∈ rep := by
  induction s with
  | nil =>
    intro k b c h
    cases k with
    | zero =>
      simp only [replaceAllFrom] at h
      split at h
      · exact Or.inr h
      · simp at h
    | succ k => simp [replaceAllFrom] at h
  | cons x xs ih =>
    intro k b c h
    cases k with
    | zero =>
      simp only [replaceAllFrom] at h
      split at h
      · rcases List.mem_append.1 h with h | h
        · exact Or.inr h
        · rcases List.mem_cons.1 h with h | h
          · exact Or.inl (by simp [h])
          · rcases ih _ _ _ h with h | h
            · exact Or.inl (List.mem_cons_of_mem _ h)
            · exact Or.inr h
      · rcases List.mem_append.1 h with h | h
        · exact Or.inr h
        · rcases ih _ _ _ h with h | h
          · exact Or.inl (List.mem_cons_of_mem _ h)
          · exact Or.inr h
      · rcases List.mem_cons.1 h with h | h
        · exact Or.inl (by simp [h])
        · rcases ih _ _ _ h with h | h
          · exact Or.inl (List.mem_cons_of_mem _ h)
          · exact Or.inr h
    | succ k =>
      simp only [replaceAllFrom] at h
      rcases ih _ _ _ h with h | h
      · exact Or.inl (List.mem_cons_of_mem _ h)
      · exact Or.inr h

theorem mem_replaceAll (m : Option Char → List Char → Option Nat) (rep s : List Char) (c : Char)
    (h : c ∈ replaceAll m rep s) : c ∈ s ∨ c ∈ rep :=
  mem_replaceAllFrom m rep s 0 none c h

/-- Collapsing white space leaves no white space but the space character. -/
theorem collapse_whiteSpace (s : List Char) : ∀ (k : Nat) (b : Option Char),
    (∀ c ∈ s.take k, isWhiteSpace c = true) →
    ∀ c ∈ replaceAllFrom matchWhiteSpaceRun [' '] k b s, c = ' ' ∨ isWhiteSpace c = false := by
  induction s with
  | nil =>
    intro k b _ c h
    cases k with
    | zero => simp [replaceAllFrom, matchWhiteSpaceRun] at h
    | succ k => simp [replaceAllFrom] at h
  | cons x xs ih =>
    intro k b hk c h
    cases k with
    | zero =>
      by_cases hx : isWhiteSpace x = true
      · have hm : matchWhiteSpaceRun b (x :: xs)
            = some ((xs.takeWhile isWhiteSpace).length + 1) := by
          simp [matchWhiteSpaceRun, List.takeWhile_cons, hx]
        simp only [replaceAllFrom, hm] at h
        rcases List.mem_append.1 h with h | h
        · left; simpa using h
        · refine ih _ _ ?_ c h
          intro d hd
          have hd' : d ∈ xs.takeWhile isWhiteSpace := by
            have : xs.take (xs.takeWhile isWhiteSpace).length = xs.takeWhile isWhiteSpace := by
              exact (List.prefix_iff_eq_take.1 (List.takeWhile_prefix _)).symm
            rw [this] at hd; exact hd
          exact (List.mem_takeWhile_imp hd')
      · have hm : matchWhiteSpaceRun b (x :: xs) = none := by
          simp [matchWhiteSpaceRun, List.takeWhile_cons, hx]
        simp only [replaceAllFrom, hm] at h
        rcases List.mem_cons.1 h with h | h
        · right; subst h; simpa using hx
        · exact ih 0 _ (by simp) c h
    | succ k =>
      simp only [replaceAllFrom] at h
      refine ih k _ ?_ c h
      intro d hd
      exact hk d (by simp [List.take_succ_cons, hd])

theorem replaceAllFrom_no_match (m : Option Char → List Char → Option Nat) (rep : List Char)
    (s : List Char) : ∀ b : Option Char, (∀ b' r, r <:+ s → m b' r = none) →
    replaceAllFrom m rep 0 b s = s := by
  induction s with
  | nil =>
    intro b h
    simp [replaceAllFrom, h b [] (List.suffix_refl _)]
  | cons x xs ih =>
    intro b h
    simp only [replaceAllFrom, h b (x :: xs) (List.suffix_refl _)]
    rw [ih (some x) (fun b' r hr => h b' r (hr.trans (List.suffix_cons x xs)))]

theorem mem_trim (s : List Char) (c : Char) (h : c ∈ trim s) : c ∈ s := by
  unfold trim at h
  rw [List.mem_reverse] at h
  have h1 := (List.dropWhile_sublist isWhiteSpace).subset h
  rw [List.mem_reverse] at h1
  exact (List.dropWhile_sublist isWhiteSpace).subset h1

theorem blankLines_id (s : List Char) (h : '\n' ∉ s) :
    replaceAll matchBlankLines ['\n'] s = s := by
  apply replaceAllFrom_no_match
  intro b r hr
  cases r with
  | nil => rfl
  | cons c cs =>
    have hc : c ≠ '\n' := by
      intro hc
      apply h
      rw [← hc]
      exact hr.subset (List.mem_cons_self _ _)
    simp [matchBlankLines, hc]

/-- The characters of the whitespace-normalised text. -/
theorem mem_normalised (rawText : List Char) (c : Char)
    (h : c ∈ trim (replaceAll matchBlankLines ['\n']
      (replaceAll matchWhiteSpaceRun [' '] rawText))) :
    c = ' ' ∨ isWhiteSpace c = false := by
  have hcol : ∀ d ∈ replaceAll matchWhiteSpaceRun [' '] rawText,
      d = ' ' ∨ isWhiteSpace d = false :=
    collapse_whiteSpace rawText 0 none (by simp)
  have hnl : '\n' ∉ replaceAll matchWhiteSpaceRun [' '] rawText := by
    intro hmem
    rcases hcol _ hmem with h1 | h1
    · exact absurd h1 (by decide)
    · exact absurd h1 (by decide)
  rw [blankLines_id _ hnl] at h
  exact hcol c (mem_trim _ c h)

theorem mem_corrections (entries : List (List Char × List Char)) (s : List Char) (c : Char)
    (h : c ∈ entries.foldl
      (fun acc entry => replaceAll (matchUnitWord entry.1) entry.2 acc) s) :
    c ∈ s ∨ ∃ e ∈ entries, c ∈ e.2 := by
  induction entries generalizing s with
  | nil => exact Or.inl h
  | cons e es ih =>
    simp only [List.foldl_cons] at h
    rcases ih _ h with h | ⟨e', he', hc⟩
    · rcases mem_replaceAll _ _ _ _ h with h | h
      · exact Or.inl h
      · exact Or.inr ⟨e, List.mem_cons_self _ _, h⟩
    · exact Or.inr ⟨e', List.mem_cons_of_mem _ he', hc⟩

theorem isWhiteSpace_of_mem_clean (rawText : List Char) (c : Char)
    (h : c ∈ cleanExtractedText rawText) : c = ' ' ∨ isWhiteSpace c = false := by
  unfold cleanExtractedText at h
  split at h
  · simp at h
  · simp only at h
    rcases mem_corrections _ _ _ h with h | ⟨e, he, hc⟩
    · rcases mem_replaceAll _ _ _ _ h with h | h
      · rcases mem_replaceAll _ _ _ _ h with h | h
        · rcases mem_replaceAll _ _ _ _ h with h | h
          · exact mem_normalised rawText c h
          · right; simp at h; subst h; decide
        · right; simp at h; subst h; decide
      · left; simpa using h
    · right
      have hall : ∀ e ∈ recipeCorrections, ∀ d ∈ e.2, isWhiteSpace d = false := by decide
      exact hall e he c hc

theorem cleanExtractedText_no_newline (rawText : List Char) :
    '\n' ∉ cleanExtractedText rawText := by
  intro h
  rcases isWhiteSpace_of_mem_clean rawText _ h with h1 | h1
  · exact absurd h1 (by decide)
  · exact absurd h1 (by decide)

/-! ## Responses without an opening brace -/

theorem indexOfChar_eq_none (c : Char) (s : List Char) (h : c ∉ s) : indexOfChar c s = none := by
  induction s with
  | nil => rfl
  | cons x xs ih =>
    simp only [List.mem_cons, not_or] at h
    simp [indexOfChar, Ne.symm h.1, ih h.2]

/-- A response text without an opening brace yields the fallback analysis,
whatever `JSON.parse` does: no clean-up step adds a character. -/
theorem parseGeminiResponse_without_brace (parseInt : Option Json → Option Int)
    (jsonParse : List Char → Option Json) (timestamp : String) (responseText : List Char)
    (h : openBrace ∉ responseText) :
    parseGeminiResponse parseInt jsonParse timestamp responseText
      = createFallbackAnalysis timestamp responseText := by
  have hc : openBrace ∉ replaceAll matchFenceLineEnd []
      (replaceAll matchLineStartFence []
        (replaceAll matchFence [] (replaceAll matchFenceJson [] (trim responseText)))) := by
    intro hm
    rcases mem_replaceAll _ _ _ _ hm with hm | hm
    · rcases mem_replaceAll _ _ _ _ hm with hm | hm
      · rcases mem_replaceAll _ _ _ _ hm with hm | hm
        · rcases mem_replaceAll _ _ _ _ hm with hm | hm
          · exact h (mem_trim _ _ hm)
          · simp at hm
        · simp at hm
      · simp at hm
    · simp at hm
  unfold parseGeminiResponse
  simp only [indexOfChar_eq_none _ _ hc]

/-! ## The loop of the segmenter -/

theorem analyzeLine_header (parseInt : ParseInt) (st : RecipeAnalysis × RecipeSection) (raw : List Char)
    (h : isHeaderLine (trim raw) = true) : (analyzeLine parseInt st raw).1 = st.1 := by
  unfold isHeaderLine at h
  unfold analyzeLine
  by_cases h1 : isIngredientsHeader (trim raw) = true
  · simp [h1]
  · simp only [Bool.not_eq_true] at h1
    simp only [h1, Bool.false_or] at h
    simp [h1, h]

theorem analyzeLine_content (parseInt : ParseInt) (st : RecipeAnalysis × RecipeSection) (raw : List Char)
    (h : isHeaderLine (trim raw) = false) :
    (analyzeLine parseInt st raw).1.title
      = (if st.1.title.isEmpty && decide (jsLength (trim raw) > 10)
            && decide (jsLength (trim raw) < 100) then trim raw else st.1.title) ∧
    (analyzeLine parseInt st raw).1.servings
      = (match searchFirst matchServingsAt (trim raw) with
         | some ds => some (parseInt.run ds)
         | none => st.1.servings) ∧
    (analyzeLine parseInt st raw).1.ingredients
      = (if looksLikeIngredient (trim raw) then st.1.ingredients ++ [trim raw]
         else st.1.ingredients) ∧
    (analyzeLine parseInt st raw).1.instructions
      = (if looksLikeIngredient (trim raw) then st.1.instructions
         else if looksLikeInstruction (trim raw) then st.1.instructions ++ [trim raw]
         else st.1.instructions) := by
  unfold isHeaderLine at h
  simp only [Bool.or_eq_false_iff] at h
  unfold analyzeLine
  simp only [h.1, h.2, Bool.false_eq_true, if_false]
  refine ⟨?_, ?_, ?_, ?_⟩
  · cases searchFirst matchServingsAt (trim raw) <;> cases searchFirst matchTimeAt (trim raw) <;>
      simp only <;> split <;> split <;> (try split) <;> simp_all
  · cases searchFirst matchServingsAt (trim raw) <;> cases searchFirst matchTimeAt (trim raw) <;>
      simp only <;> split <;> split <;> (try split) <;> simp_all
  · cases searchFirst matchServingsAt (trim raw) <;> cases searchFirst matchTimeAt (trim raw) <;>
      simp only <;> split <;> split <;> (try split) <;> simp_all
  · cases searchFirst matchServingsAt (trim raw) <;> cases searchFirst matchTimeAt (trim raw) <;>
      simp only <;> split <;> split <;> (try split) <;> simp_all

theorem qualifiesAsTitle_ne_nil (l : List Char) (h : qualifiesAsTitle l = true) :
    l.isEmpty = false := by
  cases l with
  | nil => simp [qualifiesAsTitle, jsLength] at h
  | cons c cs => rfl

/-- The loop of `analyzeRecipeText`, field by field. -/
theorem foldl_analyzeLine (parseInt : ParseInt) (lines : List (List Char)) :
    ∀ st : RecipeAnalysis × RecipeSection,
    (lines.foldl (analyzeLine parseInt) st).1.title
      = (if st.1.title.isEmpty then
          ((((lines.map trim).filter (fun l => !isHeaderLine l)).find?
            qualifiesAsTitle).getD [])
         else st.1.title) ∧
    (lines.foldl (analyzeLine parseInt) st).1.servings
      = (match (((lines.map trim).filter (fun l => !isHeaderLine l)).filterMap
            (searchFirst matchServingsAt)).getLast? with
         | some ds => some (parseInt.run ds)
         | none => st.1.servings) ∧
    (lines.foldl (analyzeLine parseInt) st).1.ingredients
      = st.1.ingredients
        ++ ((lines.map trim).filter (fun l => !isHeaderLine l)).filter looksLikeIngredient ∧
    (lines.foldl (analyzeLine parseInt) st).1.instructions
      = st.1.instructions
        ++ ((lines.map trim).filter (fun l => !isHeaderLine l)).filter
            (fun l => !looksLikeIngredient l && looksLikeInstruction l) := by
  induction lines with
  | nil =>
    intro st
    simp
    cases h : st.1.title <;> simp
  | cons x xs ih =>
    intro st
    obtain ⟨i1, i2, i3, i4⟩ := ih (analyzeLine parseInt st x)
    simp only [List.foldl_cons, List.map_cons]
    rw [i1, i2, i3, i4]
    by_cases hh : isHeaderLine (trim x) = true
    · rw [analyzeLine_header parseInt st x hh]
      simp [List.filter_cons, hh]
    · simp only [Bool.not_eq_true] at hh
      obtain ⟨c1, c2, c3, c4⟩ := analyzeLine_content parseInt st x hh
      rw [c1, c2, c3, c4]
      refine ⟨?_, ?_, ?_, ?_⟩
      · simp only [List.filter_cons, hh, Bool.not_false, if_true, List.find?_cons]
        by_cases ht : st.1.title.isEmpty = true
        · by_cases hq : qualifiesAsTitle (trim x) = true
          · have hq' := hq
            unfold qualifiesAsTitle at hq'
            simp only [Bool.and_eq_true] at hq'
            simp [ht, hq, hq'.1, hq'.2, qualifiesAsTitle_ne_nil _ hq]
          · simp only [Bool.not_eq_true] at hq
            have hq' := hq
            unfold qualifiesAsTitle at hq'
            have : (decide (jsLength (trim x) > 10) && decide (jsLength (trim x) < 100))
                = false := hq'
            simp [ht, hq, Bool.and_assoc, this]
        · simp [ht]
      · simp only [List.filter_cons, hh, Bool.not_false, if_true, List.filterMap_cons]
        cases hs : searchFirst matchServingsAt (trim x) with
        | none => simp
        | some ds =>
          simp only [List.getLast?_cons]
          cases hl : (List.filterMap (searchFirst matchServingsAt)
            (List.filter (fun l => !isHeaderLine l) (List.map trim xs))).getLast? <;> simp
      · simp only [List.filter_cons, hh, Bool.not_false, if_true]
        by_cases hi : looksLikeIngredient (trim x) = true <;> simp [hi]
      · simp only [List.filter_cons, hh, Bool.not_false, if_true]
        by_cases hi : looksLikeIngredient (trim x) = true
        · simp [hi]
        · by_cases hj : looksLikeInstruction (trim x) = true <;> simp [hi, hj]

theorem mem_splitOnChar (sep : Char) (t : List Char) :
    ∀ l ∈ splitOnChar sep t, ∀ c ∈ l, c ∈ t := by
  induction t with
  | nil => intro l hl c hc; simp [splitOnChar] at hl; subst hl; simp at hc
  | cons x xs ih =>
    intro l hl c hc
    simp only [splitOnChar] at hl
    split at hl
    · rcases List.mem_cons.1 hl with h | h
      · subst h; simp at hc
      · exact List.mem_cons_of_mem _ (ih l h c hc)
    · split at hl
      · simp at hl; subst hl; simp at hc; subst hc; simp
      · rename_i l0 ls heq
        rcases List.mem_cons.1 hl with h | h
        · subst h
          rcases List.mem_cons.1 hc with h | h
          · subst h; simp
          · exact List.mem_cons_of_mem _ (ih l0 (by rw [heq]; simp) c h)
        · exact List.mem_cons_of_mem _ (ih l (by rw [heq]; simp [h]) c hc)

theorem splitOnChar_of_not_mem (sep : Char) (t : List Char) (h : sep ∉ t) :
    splitOnChar sep t = [t] := by
  induction t with
  | nil => rfl
  | cons x xs ih =>
    have hx : x ≠ sep := fun e => h (by simp [e])
    have hxs : sep ∉ xs := fun e => h (List.mem_cons_of_mem _ e)
    simp [splitOnChar, hx, ih hxs]

theorem trim_of_whiteSpace (l : List Char) (h : ∀ c ∈ l, isWhiteSpace c = true) :
    trim l = [] := by
  unfold trim
  have : l.dropWhile isWhiteSpace = [] := by
    rw [List.dropWhile_eq_nil_iff]
    exact h
  simp [this]

theorem matchLiteral_suffix (p : List Char) : ∀ (s r : List Char),
    matchLiteral p s = some r → r <:+ s := by
  induction p with
  | nil => intro s r h; simp [matchLiteral] at h; subst h; exact List.suffix_refl _
  | cons a as ih =>
    intro s r h
    cases s with
    | nil => simp [matchLiteral] at h
    | cons c cs =>
      simp only [matchLiteral] at h
      split at h
      · exact (ih cs r h).trans (List.suffix_cons c cs)
      · simp at h

theorem matchServingsCount_spec (r ds : List Char) (h : matchServingsCount r = some ds) :
    ds ≠ [] ∧ ∀ c ∈ ds, isDigit c = true ∧ c ∈ r := by
  unfold matchServingsCount at h
  simp only at h
  split at h
  · simp at h
  · rename_i hne
    simp only [Option.some.injEq] at h
    subst h
    refine ⟨by intro e; simp [e] at hne, ?_⟩
    intro c hc
    refine ⟨List.mem_takeWhile_imp hc, ?_⟩
    exact (List.dropWhile_sublist _).subset ((List.takeWhile_sublist _).subset hc)

theorem matchServingsWord_spec (stem r ds : List Char) (h : matchServingsWord stem r = some ds) :
    ds ≠ [] ∧ ∀ c ∈ ds, isDigit c = true ∧ c ∈ r := by
  unfold matchServingsWord at h
  split at h
  · simp at h
  · rename_i hm
    obtain ⟨h1, h2⟩ := matchServingsCount_spec _ _ h
    exact ⟨h1, fun c hc => by simpa using (h2 c hc)⟩
  · rename_i c r' hm
    have hsuf := matchLiteral_suffix _ _ _ hm
    split at h
    · split at h
      · rename_i ds' hds
        simp only [Option.some.injEq] at h
        subst h
        obtain ⟨h1, h2⟩ := matchServingsCount_spec _ _ hds
        exact ⟨h1, fun d hd => ⟨(h2 d hd).1,
          hsuf.subset (List.mem_cons_of_mem _ (h2 d hd).2)⟩⟩
      · obtain ⟨h1, h2⟩ := matchServingsCount_spec _ _ h
        exact ⟨h1, fun d hd => ⟨(h2 d hd).1, hsuf.subset (h2 d hd).2⟩⟩
    · obtain ⟨h1, h2⟩ := matchServingsCount_spec _ _ h
      exact ⟨h1, fun d hd => ⟨(h2 d hd).1, hsuf.subset (h2 d hd).2⟩⟩

theorem matchServingsAt_spec (r ds : List Char) (h : matchServingsAt r = some ds) :
    ds ≠ [] ∧ ∀ c ∈ ds, isDigit c = true ∧ c ∈ r := by
  unfold matchServingsAt at h
  split at h
  · rename_i ds' h1
    simp only [Option.some.injEq] at h; subst h
    exact matchServingsWord_spec _ _ _ h1
  · split at h
    · rename_i ds' h1
      simp only [Option.some.injEq] at h; subst h
      exact matchServingsWord_spec _ _ _ h1
    · exact matchServingsWord_spec _ _ _ h

theorem searchFirst_spec {α : Type} (m : List Char → Option α) (s : List Char) (a : α)
    (h : searchFirst m s = some a) : ∃ r, r <:+ s ∧ m r = some a := by
  induction s with
  | nil => exact ⟨[], List.suffix_refl _, by simpa [searchFirst] using h⟩
  | cons c cs ih =>
    simp only [searchFirst] at h
    split at h
    · rename_i a' ha
      simp only [Option.some.injEq] at h; subst h
      exact ⟨c :: cs, List.suffix_refl _, ha⟩
    · obtain ⟨r, hr, hm⟩ := ih h
      exact ⟨r, hr.trans (List.suffix_cons c cs), hm⟩

theorem parseDigits_append (ds : List Char) (c : Char) :
    parseDigits (ds ++ [c]) = parseDigits ds * 10 + (c.toNat - 48) := by
  simp [parseDigits, List.foldl_append]

theorem parseDigits_no_zero (ds : List Char)
    (h : ∀ c ∈ ds, isDigit c = true ∧ c ≠ '0') :
    0 ∉ Nat.digits 10 (parseDigits ds) ∧ (ds ≠ [] → 0 < parseDigits ds) := by
  induction ds using List.reverseRecOn with
  | nil => simp [parseDigits]
  | append_singleton ds c ih =>
    have hds := ih (fun d hd => h d (by simp [hd]))
    obtain ⟨hc1, hc2⟩ := h c (by simp)
    have hv : 1 ≤ c.toNat - 48 ∧ c.toNat - 48 < 10 := by
      simp only [isDigit, Bool.and_eq_true, decide_eq_true_eq] at hc1
      have : c.toNat ≠ 48 := by
        intro e
        apply hc2
        have := Char.ofNat_toNat c
        rw [e] at this
        exact this.symm
      omega
    rw [parseDigits_append]
    have hd : Nat.digits 10 (parseDigits ds * 10 + (c.toNat - 48))
        = (c.toNat - 48) :: Nat.digits 10 (parseDigits ds) := by
      have := Nat.digits_add 10 (by norm_num) (c.toNat - 48) (parseDigits ds) hv.2
        (Or.inl (by omega))
      rw [← this]
      congr 1
      ring
    rw [hd]
    refine ⟨?_, fun _ => by omega⟩
    simp only [List.mem_cons, not_or]
    exact ⟨by omega, hds.1⟩

/-! ## Title, servings and the empty structure -/

theorem analyzeRecipeText_eq (parseInt : ParseInt) (text : List Char) :
    analyzeRecipeText parseInt text
      = ((recipeLines text).foldl (analyzeLine parseInt)
          ({ ingredients := [], instructions := [], title := [], servings := none,
             cookTime := none }, RecipeSection.unknown)).1 := rfl

theorem mem_contentLines (text line : List Char) (h : line ∈ contentLines text) :
    ∀ c ∈ line, c ∈ text := by
  unfold contentLines recipeLines at h
  rw [List.mem_filter, List.mem_map] at h
  obtain ⟨⟨raw, hraw, rfl⟩, -⟩ := h
  intro c hc
  exact mem_splitOnChar _ _ raw (List.mem_filter.1 hraw).1 c (mem_trim _ _ hc)

theorem title_eq (parseInt : ParseInt) (text : List Char) :
    (analyzeRecipeText parseInt text).title
      = ((contentLines text).find? qualifiesAsTitle).getD [] := by
  rw [analyzeRecipeText_eq, (foldl_analyzeLine parseInt _ _).1]
  simp [contentLines]

theorem servings_eq (parseInt : ParseInt) (text : List Char) :
    (analyzeRecipeText parseInt text).servings
      = (((contentLines text).filterMap (searchFirst matchServingsAt)).getLast?).map
          parseInt.run := by
  rw [analyzeRecipeText_eq, (foldl_analyzeLine parseInt _ _).2.1]
  simp only [contentLines]
  cases (List.filterMap (searchFirst matchServingsAt)
    (List.filter (fun l => !isHeaderLine l) (List.map trim (recipeLines text)))).getLast? <;> rfl

theorem ingredients_eq (parseInt : ParseInt) (text : List Char) :
    (analyzeRecipeText parseInt text).ingredients
      = (contentLines text).filter looksLikeIngredient := by
  rw [analyzeRecipeText_eq, (foldl_analyzeLine parseInt _ _).2.2.1]
  simp [contentLines]

theorem instructions_eq (parseInt : ParseInt) (text : List Char) :
    (analyzeRecipeText parseInt text).instructions
      = (contentLines text).filter
          (fun l => !looksLikeIngredient l && looksLikeInstruction l) := by
  rw [analyzeRecipeText_eq, (foldl_analyzeLine parseInt _ _).2.2.2]
  simp [contentLines]

theorem parseDigits_lt (ds : List Char) (h : ∀ c ∈ ds, isDigit c = true) :
    parseDigits ds < 10 ^ ds.length := by
  induction ds using List.reverseRecOn with
  | nil => simp [parseDigits]
  | append_singleton ds c ih =>
    have hds := ih (fun d hd => h d (by simp [hd]))
    have hc := h c (by simp)
    simp only [isDigit, Bool.and_eq_true, decide_eq_true_eq] at hc
    rw [parseDigits_append, List.length_append, List.length_singleton, pow_succ]
    omega

/-- On a run of at most 15 digits `parseInt` returns the integer written. -/
theorem run_small (parseInt : ParseInt) (ds : List Char) (hne : ds ≠ [])
    (hd : ∀ c ∈ ds, isDigit c = true) (hlen : ds.length ≤ 15) :
    parseInt.run ds = ParsedInt.finite (parseDigits ds) := by
  rw [parseInt.run_digits ds hne hd (by omega)]
  have h1 := parseDigits_lt ds hd
  have h2 : (10 : Nat) ^ ds.length ≤ 10 ^ 15 := Nat.pow_le_pow_right (by norm_num) hlen
  have h3 : parseDigits ds < 2 ^ 53 := by
    have : (10 : Nat) ^ 15 < 2 ^ 53 := by norm_num
    omega
  unfold nearestDouble
  rw [if_pos h3]

/-- The capture of the servings pattern is a non-empty run of digits. -/
theorem capture_digits (text : List Char) (ds : List Char)
    (h : ((contentLines text).filterMap (searchFirst matchServingsAt)).getLast? = some ds) :
    ds ≠ [] ∧ (∀ c ∈ ds, isDigit c = true) ∧ ∀ c ∈ ds, c ∈ text := by
  have hmem := List.mem_of_getLast?_eq_some h
  rw [List.mem_filterMap] at hmem
  obtain ⟨line, hline, hs⟩ := hmem
  obtain ⟨r, hr, hm⟩ := searchFirst_spec _ _ _ hs
  obtain ⟨hne, hall⟩ := matchServingsAt_spec _ _ hm
  refine ⟨hne, fun c hc => (hall c hc).1, fun c hc => ?_⟩
  exact mem_contentLines _ _ hline c (hr.subset (hall c hc).2)

/-- C5: for the clean-recipe text, `analyzeRecipeText` returns servings = 4
and ingredients = ["2 cups flour", "1 tsp salt"]. -/
theorem analyzeRecipeText_clean_recipe (parseInt : ParseInt) :
    (analyzeRecipeText parseInt
        ("Pancakes\nServes 4\nIngredients:\n2 cups flour\n1 tsp salt\n" ++
        "Instructions:\n1. Mix ingredients.\n2. Heat pan and cook.").data).servings = some 4 ∧
    (analyzeRecipeText parseInt
        ("Pancakes\nServes 4\nIngredients:\n2 cups flour\n1 tsp salt\n" ++
        "Instructions:\n1. Mix ingredients.\n2. Heat pan and cook.").data).ingredients
      = ["2 cups flour".data, "1 tsp salt".data] := by
  constructor
  · have hc : ((contentLines ("Pancakes\nServes 4\nIngredients:\n2 cups flour\n1 tsp salt\n" ++
        "Instructions:\n1. Mix ingredients.\n2. Heat pan and cook.").data).filterMap
        (searchFirst matchServingsAt)).getLast? = some "4".data := by decide
    rw [servings_eq, hc, Option.map_some', run_small parseInt _ (by decide) (by decide) (by decide)]
    rfl
  · rw [ingredients_eq]
    decide

/-- C6, as stated, fails: for the clean-recipe text the instructions returned
are not ["1. Mix ingredients.", "2. Heat pan and cook."]. -/
theorem clean_recipe_instructions_counterexample :
    (analyzeRecipeText roundingParseInt
        ("Pancakes\nServes 4\nIngredients:\n2 cups flour\n1 tsp salt\n" ++
        "Instructions:\n1. Mix ingredients.\n2. Heat pan and cook.").data).instructions
      ≠ ["1. Mix ingredients.".data, "2. Heat pan and cook.".data] := by
  rw [instructions_eq]
  decide

/-- C6, amended: for the clean-recipe text, `analyzeRecipeText` returns
instructions = ["2. Heat pan and cook."]; the line "1. Mix ingredients." has 19
characters, which does not exceed 20, so `looksLikeInstruction` rejects it. -/
theorem analyzeRecipeText_clean_recipe_instructions (parseInt : ParseInt) :
    (analyzeRecipeText parseInt
        ("Pancakes\nServes 4\nIngredients:\n2 cups flour\n1 tsp salt\n" ++
        "Instructions:\n1. Mix ingredients.\n2. Heat pan and cook.").data).instructions
      = ["2. Heat pan and cook.".data] ∧
    jsLength "1. Mix ingredients.".data = 19 ∧
    looksLikeInstruction "1. Mix ingredients.".data = false ∧
    instructionPattern1 "1. Mix ingredients.".data = true := by
  refine ⟨?_, by decide, by decide, by decide⟩
  rw [instructions_eq]
  decide

/-- C15: for every text, the title returned by `analyzeRecipeText` is the
first of its content lines (trimmed, blank and section-header lines skipped, in
input order) whose length is strictly greater than 10 and strictly less than
100, and the empty string when there is none; once a title is set, no later
line replaces it. -/
theorem analyzeRecipeText_title (parseInt : ParseInt) (text : List Char) :
    (analyzeRecipeText parseInt text).title
      = ((contentLines text).find? qualifiesAsTitle).getD [] ∧
    (∀ (st : RecipeAnalysis × RecipeSection) (lines : List (List Char)),
      st.1.title.isEmpty = false →
        (lines.foldl (analyzeLine parseInt) st).1.title = st.1.title) := by
  constructor
  · exact title_eq parseInt text
  · intro st lines h
    rw [(foldl_analyzeLine parseInt _ _).1]
    simp [h]

/-- Witness of C15: the first line is too short, the second becomes the title
and the third, which also qualifies, does not replace it; and a line that puts
a character outside the Basic Multilingual Plane between "what you" and
"ll need" is no header, so it can become the title. -/
theorem analyzeRecipeText_title_witness :
    (analyzeRecipeText roundingParseInt
        "Soup\nA very tasty soup\nAnother long line here".data).title
      = "A very tasty soup".data ∧
    (analyzeRecipeText roundingParseInt
        ("what you".data ++ [Char.ofNat 128512] ++ "ll need 2 cups flour".data)).title
      = "what you".data ++ [Char.ofNat 128512] ++ "ll need 2 cups flour".data := by
  constructor
  · rw [(analyzeRecipeText_title _ _).1]
    decide
  · rw [(analyzeRecipeText_title _ _).1]
    decide

/-- Whatever `parseInt` is, for the line "Serves 9007199254740993" the value of
servings is 9007199254740992, the double nearest to the captured integer. -/
theorem servings_rounded_general (parseInt : ParseInt) :
    (analyzeRecipeText parseInt "Serves 9007199254740993".data).servings
      = some 9007199254740992 ∧
    parseDigits "9007199254740993".data = 9007199254740993 := by
  refine ⟨?_, by decide⟩
  have hc : ((contentLines "Serves 9007199254740993".data).filterMap
      (searchFirst matchServingsAt)).getLast? = some "9007199254740993".data := by decide
  rw [servings_eq, hc, Option.map_some',
    parseInt.run_digits _ (by decide) (by decide) (by decide)]
  decide

/-- C16, as stated, fails: for the line "Serves 9007199254740993" the value of
servings is 9007199254740992, the double nearest to the captured integer, not
the captured integer 9007199254740993. -/
theorem servings_rounded_counterexample :
    (analyzeRecipeText roundingParseInt "Serves 9007199254740993".data).servings
      = some 9007199254740992 ∧
    parseDigits "9007199254740993".data = 9007199254740993 :=
  servings_rounded_general roundingParseInt

/-- C16, amended: for every text, servings returned by `analyzeRecipeText` is
null when no content line matches the serves/servings/makes pattern, and
otherwise is `parseInt` of the digits captured by the first match within the
last matching line: the double nearest to the captured integer when at most 20
digits are captured, and the captured integer itself when at most 15 are. -/
theorem analyzeRecipeText_servings (parseInt : ParseInt) (text : List Char) :
    (analyzeRecipeText parseInt text).servings
      = (((contentLines text).filterMap (searchFirst matchServingsAt)).getLast?).map
          parseInt.run ∧
    (∀ ds, ((contentLines text).filterMap (searchFirst matchServingsAt)).getLast? = some ds →
      ds.length ≤ 20 →
      (analyzeRecipeText parseInt text).servings = some (nearestDouble (parseDigits ds))) ∧
    (∀ ds, ((contentLines text).filterMap (searchFirst matchServingsAt)).getLast? = some ds →
      ds.length ≤ 15 →
      (analyzeRecipeText parseInt text).servings = some (ParsedInt.finite (parseDigits ds))) ∧
    ((∀ line ∈ contentLines text, searchFirst matchServingsAt line = none) →
      (analyzeRecipeText parseInt text).servings = none) := by
  refine ⟨servings_eq parseInt text, ?_, ?_, ?_⟩
  · intro ds h hlen
    obtain ⟨hne, hd, -⟩ := capture_digits text ds h
    rw [servings_eq, h, Option.map_some', parseInt.run_digits ds hne hd hlen]
  · intro ds h hlen
    obtain ⟨hne, hd, -⟩ := capture_digits text ds h
    rw [servings_eq, h, Option.map_some', run_small parseInt ds hne hd hlen]
  · intro h
    rw [servings_eq]
    have : (contentLines text).filterMap (searchFirst matchServingsAt) = [] := by
      rw [List.filterMap_eq_nil_iff]
      exact h
    simp [this]

/-- Witness of C16 amended: the later line "makes 12 small ones" overwrites
"Serves 4", and a text without a matching line has servings null. -/
theorem analyzeRecipeText_servings_witness :
    (((contentLines "Serves 4\nIngredients\nmakes 12 small ones, or 3".data).filterMap
        (searchFirst matchServingsAt)).getLast? = some "12".data) ∧
    (analyzeRecipeText roundingParseInt
        "Serves 4\nIngredients\nmakes 12 small ones, or 3".data).servings = some 12 ∧
    (∀ line ∈ contentLines "Pancakes\nIngredients".data,
      searchFirst matchServingsAt line = none) ∧
    (analyzeRecipeText roundingParseInt "Pancakes\nIngredients".data).servings = none :=
  ⟨by decide,
   (analyzeRecipeText_servings roundingParseInt _).2.2.1 "12".data (by decide) (by decide),
   by decide, (analyzeRecipeText_servings roundingParseInt _).2.2.2 (by decide)⟩

/-- C18: `analyzeRecipeText` is a total function and, for the empty text and
for every text made only of white space and blank lines, returns the empty
structure: no ingredients, no instructions, the empty title, servings and
cookTime null. -/
theorem analyzeRecipeText_blank (parseInt : ParseInt) (text : List Char)
    (h : ∀ c ∈ text, isWhiteSpace c = true) :
    analyzeRecipeText parseInt text
      = { ingredients := [], instructions := [], title := [], servings := none,
          cookTime := none } := by
  have : recipeLines text = [] := by
    unfold recipeLines
    rw [List.filter_eq_nil_iff]
    intro l hl
    have ht : trim l = [] :=
      trim_of_whiteSpace l (fun c hc => h c (mem_splitOnChar _ _ l hl c hc))
    simp [ht, jsLength]
  rw [analyzeRecipeText_eq, this]
  rfl

/-- Witness of C18: a text of spaces, a tab and line feeds. -/
theorem analyzeRecipeText_blank_witness :
    (∀ c ∈ " \n\t \n".data, isWhiteSpace c = true) ∧
    analyzeRecipeText roundingParseInt " \n\t \n".data
      = { ingredients := [], instructions := [], title := [], servings := none,
          cookTime := none } :=
  ⟨by decide, analyzeRecipeText_blank roundingParseInt _ (by decide)⟩

/-! ## The pipeline of the analyze route -/

theorem recipeLines_length_le_one (t : List Char) (h : '\n' ∉ t) :
    (recipeLines t).length ≤ 1 := by
  unfold recipeLines
  rw [splitOnChar_of_not_mem _ _ h]
  exact List.length_filter_le _ _

theorem classified_le (L : List (List Char)) (p q : List Char → Bool) :
    (L.filter p).length + (L.filter (fun l => !p l && q l)).length ≤ L.length := by
  induction L with
  | nil => simp
  | cons x xs ih =>
    by_cases hp : p x = true
    · simp [List.filter_cons, hp]; omega
    · by_cases hq : q x = true
      · simp [List.filter_cons, hp, hq]; omega
      · simp [List.filter_cons, hp, hq]; omega

/-- C25: for every raw text, `cleanExtractedText` returns a string with no
newline character, so the segmenter sees one line and classifies at most one
line in total. -/
theorem pipeline_single_line (parseInt : ParseInt) (rawText : List Char) :
    '\n' ∉ cleanExtractedText rawText ∧
    (analyzeRecipeText parseInt (cleanExtractedText rawText)).ingredients.length
      + (analyzeRecipeText parseInt (cleanExtractedText rawText)).instructions.length ≤ 1 := by
  refine ⟨cleanExtractedText_no_newline rawText, ?_⟩
  rw [analyzeRecipeText_eq, (foldl_analyzeLine parseInt _ _).2.2.1, (foldl_analyzeLine parseInt _ _).2.2.2]
  simp only [List.nil_append]
  have h1 := classified_le
    ((List.map trim (recipeLines (cleanExtractedText rawText))).filter
      (fun l => !isHeaderLine l)) looksLikeIngredient looksLikeInstruction
  have h2 : ((List.map trim (recipeLines (cleanExtractedText rawText))).filter
      (fun l => !isHeaderLine l)).length ≤ 1 := by
    refine le_trans (List.length_filter_le _ _) ?_
    rw [List.length_map]
    exact recipeLines_length_le_one _ (cleanExtractedText_no_newline rawText)
  omega

theorem zero_replaced (s : List Char) : ∀ (b : Option Char),
    ∀ c ∈ replaceAllFrom matchZero ['O'] 0 b s, c ≠ '0' := by
  induction s with
  | nil => intro b c h; simp [replaceAllFrom, matchZero] at h
  | cons x xs ih =>
    intro b c h
    by_cases hx : x = '0'
    · simp only [replaceAllFrom, matchZero, hx, if_true] at h
      rcases List.mem_append.1 h with h | h
      · simp at h; subst h; decide
      · exact ih _ c h
    · simp only [replaceAllFrom, matchZero, hx, if_false] at h
      rcases List.mem_cons.1 h with h | h
      · subst h; exact hx
      · exact ih _ c h

theorem cleanExtractedText_no_zero (rawText : List Char) : '0' ∉ cleanExtractedText rawText := by
  intro h
  unfold cleanExtractedText at h
  split at h
  · simp at h
  · simp only at h
    rcases mem_corrections _ _ _ h with h | ⟨e, he, hc⟩
    · rcases mem_replaceAll _ _ _ _ h with h | h
      · exact zero_replaced _ none _ h rfl
      · simp at h
    · have hall : ∀ e ∈ recipeCorrections, ∀ d ∈ e.2, d ≠ '0' := by decide
      exact hall e he _ hc rfl

/-- Whatever `parseInt` is, the raw text "Serves 9999999999999999", which
contains no digit 0, yields servings = 10000000000000000. -/
theorem servings_zero_general (parseInt : ParseInt) :
    '0' ∉ "Serves 9999999999999999".data ∧
    (analyzeRecipeText parseInt
        (cleanExtractedText "Serves 9999999999999999".data)).servings
      = some 10000000000000000 ∧
    0 ∈ Nat.digits 10 10000000000000000 := by
  refine ⟨by decide, ?_, by norm_num⟩
  have hc : ((contentLines (cleanExtractedText "Serves 9999999999999999".data)).filterMap
      (searchFirst matchServingsAt)).getLast? = some "9999999999999999".data := by decide
  rw [servings_eq, hc, Option.map_some',
    parseInt.run_digits _ (by decide) (by decide) (by decide)]
  decide

/-- C26, as stated, fails: the raw text "Serves 9999999999999999" contains no
digit 0, is left as it is by `cleanExtractedText`, and yields servings =
10000000000000000, the double nearest to the captured integer, whose decimal
representation has sixteen digits 0. -/
theorem servings_zero_counterexample :
    '0' ∉ "Serves 9999999999999999".data ∧
    (analyzeRecipeText roundingParseInt
        (cleanExtractedText "Serves 9999999999999999".data)).servings
      = some 10000000000000000 ∧
    0 ∈ Nat.digits 10 10000000000000000 :=
  servings_zero_general roundingParseInt

/-- C26, amended: for every raw text whose servings pattern captures at most
15 digits in `analyzeRecipeText (cleanExtractedText raw)`, servings is the
captured integer, which is positive and has no digit 0 in its decimal
representation, because normalization rewrites every digit 0 to the letter O;
the raw text "Serves 10 people" yields servings = 1. -/
theorem pipeline_servings_no_zero (parseInt : ParseInt) (rawText : List Char) (ds : List Char)
    (h : ((contentLines (cleanExtractedText rawText)).filterMap
      (searchFirst matchServingsAt)).getLast? = some ds)
    (hlen : ds.length ≤ 15) :
    ((analyzeRecipeText parseInt (cleanExtractedText rawText)).servings
        = some (ParsedInt.finite (parseDigits ds)) ∧
      0 < parseDigits ds ∧ 0 ∉ Nat.digits 10 (parseDigits ds)) ∧
    (analyzeRecipeText parseInt (cleanExtractedText "Serves 10 people".data)).servings
      = some 1 := by
  obtain ⟨hne, hd, hmem⟩ := capture_digits _ ds h
  refine ⟨⟨?_, ?_⟩, ?_⟩
  · rw [servings_eq, h, Option.map_some', run_small parseInt ds hne hd hlen]
  · have hz : ∀ c ∈ ds, isDigit c = true ∧ c ≠ '0' := by
      intro c hc
      refine ⟨hd c hc, ?_⟩
      intro e
      apply cleanExtractedText_no_zero rawText
      rw [← e]
      exact hmem c hc
    obtain ⟨h1, h2⟩ := parseDigits_no_zero ds hz
    exact ⟨h2 hne, h1⟩
  · have hc : ((contentLines (cleanExtractedText "Serves 10 people".data)).filterMap
        (searchFirst matchServingsAt)).getLast? = some "1".data := by decide
    rw [servings_eq, hc, Option.map_some', run_small parseInt _ (by decide) (by decide) (by decide)]
    rfl

/-- Witness of C26 amended: "Makes 205 cookies" is read as 2 servings. -/
theorem pipeline_servings_no_zero_witness :
    (((contentLines (cleanExtractedText "Makes 205 cookies".data)).filterMap
        (searchFirst matchServingsAt)).getLast? = some "2".data) ∧
    ("2".data.length ≤ 15) ∧
    ((analyzeRecipeText roundingParseInt (cleanExtractedText "Makes 205 cookies".data)).servings
        = some (ParsedInt.finite (parseDigits "2".data)) ∧
      0 < parseDigits "2".data ∧ 0 ∉ Nat.digits 10 (parseDigits "2".data)) :=
  ⟨by decide, by decide,
   (pipeline_servings_no_zero roundingParseInt "Makes 205 cookies".data "2".data
      (by decide) (by decide)).1⟩

/-! ## Ingredient lines -/

theorem dropWhile_eq_self_of_head {p : Char → Bool} (l : List Char)
    (h : ∀ c, l.head? = some c → p c = false) : l.dropWhile p = l := by
  cases l with
  | nil => rfl
  | cons x xs =>
    have := h x rfl
    simp [List.dropWhile_cons, this]

theorem head?_dropWhile_false (p : Char → Bool) (l : List Char) :
    ∀ c, (l.dropWhile p).head? = some c → p c = false := by
  induction l with
  | nil => intro c h; simp at h
  | cons x xs ih =>
    intro c h
    by_cases hx : p x = true
    · rw [List.dropWhile_cons_of_pos hx] at h
      exact ih c h
    · rw [List.dropWhile_cons_of_neg hx] at h
      simp at h; subst h; simpa using hx

theorem trim_trim (s : List Char) : trim (trim s) = trim s := by
  unfold trim
  set d := s.dropWhile isWhiteSpace with hd
  set u := d.reverse.dropWhile isWhiteSpace with hu
  have h1 : u.reverse.dropWhile isWhiteSpace = u.reverse := by
    apply dropWhile_eq_self_of_head
    intro c hc
    have hpre : u.reverse <+: d := by
      have : u <:+ d.reverse := List.dropWhile_suffix _
      have := List.reverse_prefix.2 this
      simpa using this
    obtain ⟨w, hw⟩ := hpre
    have hne : u.reverse ≠ [] := by intro e; rw [e] at hc; simp at hc
    have : d.head? = some c := by
      rw [← hw, List.head?_append_of_ne_nil _ hne, hc]
    exact head?_dropWhile_false isWhiteSpace s c this
  rw [h1, List.reverse_reverse, hu, List.dropWhile_idempotent]

theorem matchLiteral_spec (p : List Char) : ∀ (s r : List Char),
    matchLiteral p s = some r → ∃ m, s = m ++ r ∧ m.map Char.toLower = p := by
  induction p with
  | nil => intro s r h; simp [matchLiteral] at h; subst h; exact ⟨[], rfl, rfl⟩
  | cons a as ih =>
    intro s r h
    cases s with
    | nil => simp [matchLiteral] at h
    | cons c cs =>
      simp only [matchLiteral] at h
      split at h
      · rename_i hc
        obtain ⟨m, hm1, hm2⟩ := ih cs r h
        exact ⟨c :: m, by simp [hm1], by simp [hm2, hc]⟩
      · simp at h

theorem anyLiteralThen_spec (literals : List (List Char)) (k : List Char → Bool)
    (s : List Char) (h : anyLiteralThen literals k s = true) :
    ∃ lit ∈ literals, ∃ m r, s = m ++ r ∧ m.map Char.toLower = lit ∧ k r = true := by
  unfold anyLiteralThen at h
  rw [List.any_eq_true] at h
  obtain ⟨lit, hlit, hk⟩ := h
  split at hk
  · rename_i r hr
    obtain ⟨m, hm1, hm2⟩ := matchLiteral_spec _ _ _ hr
    exact ⟨lit, hlit, m, r, hm1, hm2, hk⟩
  · simp at hk

theorem starThen_spec (cls : Char → Bool) (k : List Char → Bool) (s : List Char)
    (h : starThen cls k s = true) : ∃ a r, s = a ++ r ∧ k r = true := by
  induction s with
  | nil => exact ⟨[], [], rfl, by simpa [starThen] using h⟩
  | cons c cs ih =>
    simp only [starThen, Bool.or_eq_true, Bool.and_eq_true] at h
    rcases h with h | ⟨-, h⟩
    · exact ⟨[], c :: cs, rfl, h⟩
    · obtain ⟨a, r, ha, hr⟩ := ih h
      exact ⟨c :: a, r, by simp [ha], hr⟩

theorem plusThen_spec (cls : Char → Bool) (k : List Char → Bool) (s : List Char)
    (h : plusThen cls k s = true) :
    ∃ c a r, s = c :: (a ++ r) ∧ cls c = true ∧ k r = true := by
  unfold plusThen at h
  cases s with
  | nil => simp at h
  | cons c cs =>
    simp only [Bool.and_eq_true] at h
    obtain ⟨a, r, ha, hr⟩ := starThen_spec _ _ _ h.2
    exact ⟨c, a, r, by simp [ha], h.1, hr⟩

theorem testAnywhere_spec (m : List Char → Bool) (s : List Char)
    (h : testAnywhere m s = true) : ∃ a r, s = a ++ r ∧ m r = true := by
  induction s with
  | nil => exact ⟨[], [], rfl, by simpa [testAnywhere] using h⟩
  | cons c cs ih =>
    simp only [testAnywhere, Bool.or_eq_true] at h
    rcases h with h | h
    · exact ⟨[], c :: cs, rfl, h⟩
    · obtain ⟨a, r, ha, hr⟩ := ih h
      exact ⟨c :: a, r, by simp [ha], hr⟩

theorem ingredientUnits_subset : ∀ u ∈ ingredientUnits, u ∈ ingredientUnitsLong := by
  decide

/-- What a line that looks like an ingredient contains: a unit string,
ignoring case, in a line that starts with a digit or right in front of white
space. -/
theorem looksLikeIngredient_spec (line : List Char) (h : looksLikeIngredient line = true) :
    ∃ u ∈ ingredientUnitsLong, ∃ pre m post, trim line = pre ++ m ++ post ∧
      m.map Char.toLower = u ∧
      ((∃ d, (trim line).head? = some d ∧ isDigit d = true) ∨
        (∃ w, post.head? = some w ∧ isWhiteSpace w = true)) := by
  unfold looksLikeIngredient at h
  simp only [Bool.or_eq_true] at h
  rcases h with (h | h) | h
  · unfold ingredientPattern1 at h
    obtain ⟨d, a, r, hs, hd, hk⟩ := plusThen_spec _ _ _ h
    obtain ⟨b, r2, hb, hk2⟩ := starThen_spec _ _ _ hk
    obtain ⟨u, hu, m, r3, hm, hml, -⟩ := anyLiteralThen_spec _ _ _ hk2
    refine ⟨u, hu, d :: (a ++ b), m, r3, ?_, hml, Or.inl ⟨d, by simp [hs], hd⟩⟩
    simp [hs, hb, hm]
  · unfold ingredientPattern2 at h
    obtain ⟨d, a, r, hs, hd, hk⟩ := plusThen_spec _ _ _ h
    obtain ⟨b, r2, hb, hk2⟩ := starThen_spec _ _ _ hk
    obtain ⟨b3, r3, hb3, hk3⟩ := starThen_spec _ _ _ hk2
    obtain ⟨b4, r4, hb4, hk4⟩ := starThen_spec _ _ _ hk3
    obtain ⟨u, hu, m, r5, hm, hml, -⟩ := anyLiteralThen_spec _ _ _ hk4
    refine ⟨u, ingredientUnits_subset u hu, d :: (a ++ b ++ b3 ++ b4), m, r5, ?_, hml,
      Or.inl ⟨d, by simp [hs], hd⟩⟩
    simp [hs, hb, hb3, hb4, hm]
  · unfold ingredientPattern3 at h
    obtain ⟨a, r, hs, hk⟩ := testAnywhere_spec _ _ h
    obtain ⟨u, hu, m, r2, hm, hml, hk2⟩ := anyLiteralThen_spec _ _ _ hk
    obtain ⟨w, a3, r3, hw, hws, -⟩ := plusThen_spec _ _ _ hk2
    refine ⟨u, ingredientUnits_subset u hu, a, m, r2, ?_, hml, Or.inr ⟨w, by simp [hw], hws⟩⟩
    simp [hs, hm]

/-- C17, as stated, fails: the line "3 eggs" is classified as an ingredient
(its `g` is read as the unit g) although none of the unit words occurs in it as
a whole word. -/
theorem eggs_counterexample :
    (analyzeRecipeText roundingParseInt "3 eggs".data).ingredients = ["3 eggs".data] ∧
    (∀ u ∈ ingredientUnitsLong, hasWholeWord u "3 eggs".data = false) := by
  refine ⟨?_, by decide⟩
  rw [ingredients_eq]
  decide

/-- C17, amended: for every text, every entry of ingredients returned by
`analyzeRecipeText` contains one of the unit words (cup, tsp, tbsp, lb, oz, g,
kg, ml, l, piece, clove) ignoring case, not necessarily as a whole word, in a
line that starts with a digit or directly in front of a white-space character;
so a line that contains none of the unit words is never classified as an
ingredient. -/
theorem ingredients_contain_unit (parseInt : ParseInt) (text : List Char) (entry : List Char)
    (h : entry ∈ (analyzeRecipeText parseInt text).ingredients) :
    ∃ u ∈ ingredientUnitsLong, ∃ pre m post, entry = pre ++ m ++ post ∧
      m.map Char.toLower = u ∧
      ((∃ d, entry.head? = some d ∧ isDigit d = true) ∨
        (∃ w, post.head? = some w ∧ isWhiteSpace w = true)) := by
  rw [analyzeRecipeText_eq, (foldl_analyzeLine parseInt _ _).2.2.1] at h
  simp only [List.nil_append, List.mem_filter, List.mem_map] at h
  obtain ⟨⟨⟨raw, -, rfl⟩, -⟩, hl⟩ := h
  have := looksLikeIngredient_spec _ hl
  rw [trim_trim] at this
  exact this

/-- Witness of C17 amended: the entry "a cup of sugar". -/
theorem ingredients_contain_unit_witness :
    ("a cup of sugar".data
      ∈ (analyzeRecipeText roundingParseInt "Cake\na cup of sugar".data).ingredients) ∧
    (∃ u ∈ ingredientUnitsLong, ∃ pre m post, "a cup of sugar".data = pre ++ m ++ post ∧
      m.map Char.toLower = u ∧
      ((∃ d, "a cup of sugar".data.head? = some d ∧ isDigit d = true) ∨
        (∃ w, post.head? = some w ∧ isWhiteSpace w = true))) :=
  ⟨by decide, ingredients_contain_unit roundingParseInt "Cake\na cup of sugar".data _
    (by decide)⟩

theorem isWordChar_of_letter (p : Char) (h : 97 ≤ p.toNat ∧ p.toNat ≤ 122) :
    isWordChar p = true := by
  simp only [isWordChar, Bool.or_eq_true, Bool.and_eq_true, decide_eq_true_eq, beq_iff_eq]
  omega

theorem isWordChar_of_toLower (c p : Char) (hp : 97 ≤ p.toNat ∧ p.toNat ≤ 122)
    (h : c.toLower = p) : isWordChar c = true := by
  unfold Char.toLower at h
  simp only at h
  split at h
  · rename_i hc
    simp only [isWordChar, Bool.or_eq_true, Bool.and_eq_true, decide_eq_true_eq, beq_iff_eq]
    have h1 : 65 ≤ c.toNat := by
      have := hc.1
      simpa [Char.toNat, UInt32.le_def, Nat.le_iff_lt_or_eq] using this
    have h2 : c.toNat ≤ 90 := by
      have := hc.2
      simpa [Char.toNat, UInt32.le_def] using this
    omega
  · subst h
    exact isWordChar_of_letter _ hp

theorem matchLiteral_complete (m0 r : List Char) :
    matchLiteral (m0.map Char.toLower) (m0 ++ r) = some r := by
  induction m0 with
  | nil => simp [matchLiteral]
  | cons c cs ih => simp [matchLiteral, ih]

/-- The characters matched by a stem are word characters. -/
theorem word_of_map_toLower (stem m0 : List Char) (hs : ∀ p ∈ stem, 97 ≤ p.toNat ∧ p.toNat ≤ 122)
    (h : m0.map Char.toLower = stem) : ∀ c ∈ m0, isWordChar c = true := by
  intro c hc
  apply isWordChar_of_toLower c c.toLower _ rfl
  apply hs
  rw [← h]
  exact List.mem_map_of_mem _ hc

/-- A run of word characters at the head of `w ++ r` lies inside `w` when `r`
does not start with a word character. -/
theorem prefix_of_word_run (m0 r' w r : List Char) (h : w ++ r = m0 ++ r')
    (hm : ∀ c ∈ m0, isWordChar c = true) (hr : r.head?.any isWordChar = false) :
    ∃ w', w = m0 ++ w' ∧ r' = w' ++ r := by
  rcases List.append_eq_append_iff.1 h with ⟨a, ha1, ha2⟩ | ⟨a, ha1, ha2⟩
  · -- m0 = w ++ a, r = a ++ r'
    cases a with
    | nil => exact ⟨[], by simpa using ha1.symm, by simpa using ha2.symm⟩
    | cons x xs =>
      exfalso
      have hx : isWordChar x = true := hm x (by rw [ha1]; simp)
      rw [ha2] at hr
      simp [hx] at hr
  · exact ⟨a, ha1, ha2⟩

theorem matchUnitWord_word (stem : List Char) (hs : IsStem stem) (b : Option Char)
    (hb : b.any isWordChar = false) (w r : List Char) (hw : w ≠ [])
    (hall : ∀ c ∈ w, isWordChar c = true) (hr : r.head?.any isWordChar = false) :
    matchUnitWord stem b (w ++ r)
      = if w.map Char.toLower = stem ∨ w.map Char.toLower = stem ++ ['s']
        then some w.length else none := by
  obtain ⟨hne, hlet⟩ := hs
  have hhead : (w ++ r).head?.any isWordChar = true := by
    cases w with
    | nil => exact absurd rfl hw
    | cons x xs => simpa using hall x (by simp)
  have hbd : isWordBoundary b (w ++ r).head? = true := by
    unfold isWordBoundary
    rw [hb, hhead]
    rfl
  have hlast : stem.getLast?.any isWordChar = true := by
    obtain ⟨l, hl⟩ : ∃ l, stem.getLast? = some l := by
      cases hg : stem.getLast? with
      | none => exact absurd (List.getLast?_eq_none_iff.1 hg) hne
      | some l => exact ⟨l, rfl⟩
    rw [hl]
    simpa using isWordChar_of_letter l (hlet l (List.mem_of_getLast?_eq_some hl))
  unfold matchUnitWord
  simp only [hbd, if_true]
  cases hm : matchLiteral stem (w ++ r) with
  | none =>
    simp only
    rw [if_neg]
    rintro (h | h)
    · have := matchLiteral_complete w r
      rw [h, hm] at this
      cases this
    · -- w = m0 ++ [c]
      have hwl : w ≠ [] := hw
      obtain ⟨m0, c, rfl⟩ : ∃ m0 c, w = m0 ++ [c] := by
        rcases List.eq_nil_or_concat w with e | ⟨m0, c, e⟩
        · exact absurd e hw
        · exact ⟨m0, c, by simpa using e⟩
      simp only [List.map_append, List.map_cons, List.map_nil] at h
      have h1 : m0.map Char.toLower = stem := by
        have := List.append_inj_left' h (by simp)
        exact this
      have := matchLiteral_complete m0 ([c] ++ r)
      rw [h1] at this
      rw [List.append_assoc, this] at hm
      cases hm
  | some r' =>
    obtain ⟨m0, hm1, hm2⟩ := matchLiteral_spec _ _ _ hm
    have hm0 := word_of_map_toLower stem m0 hlet hm2
    obtain ⟨w', hw1, hw2⟩ := prefix_of_word_run m0 r' w r hm1 hm0 hr
    have hlen : m0.length = stem.length := by rw [← hm2]; simp
    cases r' with
    | nil =>
      have hw'nil : w' = [] := by
        cases w' with
        | nil => rfl
        | cons x xs => simp at hw2
      subst hw'nil
      simp only [List.append_nil] at hw1
      subst hw1
      simp [hlast, isWordBoundary, hm2, hlen]
    | cons c r'' =>
      simp only
      by_cases h1 : (c.toLower = 's' && isWordBoundary (some c) r''.head?) = true
      · simp only [h1, if_true]
        simp only [Bool.and_eq_true, decide_eq_true_eq] at h1
        obtain ⟨hc, hbd2⟩ := h1
        have hcw : isWordChar c = true :=
          isWordChar_of_toLower c 's' (by decide) hc
        have hr'' : r''.head?.any isWordChar = false := by
          simp only [isWordBoundary, Option.any_some, hcw] at hbd2
          cases hx : r''.head?.any isWordChar
          · rfl
          · rw [hx] at hbd2; simp at hbd2
        cases w' with
        | nil =>
          exfalso
          simp only [List.nil_append] at hw2
          rw [← hw2] at hr
          simp [hcw] at hr
        | cons x xs =>
          simp only [List.cons_append, List.cons.injEq] at hw2
          obtain ⟨rfl, hxs⟩ := hw2
          have hxsnil : xs = [] := by
            cases xs with
            | nil => rfl
            | cons y ys =>
              exfalso
              have hy : isWordChar y = true := hall y (by rw [hw1]; simp)
              rw [hxs] at hr''
              simp [hy] at hr''
          subst hxsnil
          subst hw1
          rw [if_pos (Or.inr (by simp [hm2, hc]))]
          simp [hlen]
      · simp only [h1, Bool.false_eq_true, if_false]
        by_cases h2 : isWordBoundary stem.getLast? (some c) = true
        · simp only [h2, if_true]
          have hcn : isWordChar c = false := by
            simp only [isWordBoundary, hlast, Option.any_some] at h2
            cases hx : isWordChar c
            · rfl
            · rw [hx] at h2; simp at h2
          have hw'nil : w' = [] := by
            cases w' with
            | nil => rfl
            | cons x xs =>
              exfalso
              simp only [List.cons_append, List.cons.injEq] at hw2
              have hx : isWordChar x = true := hall x (by rw [hw1]; simp)
              rw [← hw2.1, hcn] at hx
              cases hx
          subst hw'nil
          simp only [List.append_nil] at hw1
          subst hw1
          rw [if_pos (Or.inl hm2)]
          simp [hlen]
        · simp only [h2, Bool.false_eq_true, if_false]
          have hcw : isWordChar c = true := by
            simp only [isWordBoundary, hlast, Option.any_some] at h2
            cases hx : isWordChar c
            · rw [hx] at h2; simp at h2
            · rfl
          rw [if_neg]
          cases w' with
          | nil =>
            exfalso
            simp only [List.nil_append] at hw2
            rw [← hw2] at hr
            simp [hcw] at hr
          | cons x xs =>
            simp only [List.cons_append, List.cons.injEq] at hw2
            obtain ⟨rfl, hxs⟩ := hw2
            subst hw1
            rintro (h | h)
            · have := congrArg List.length h
              simp [hlen] at this
            · simp only [List.map_append, List.map_cons, hm2] at h
              have h3 := List.append_cancel_left h
              simp only [List.cons.injEq, List.map_eq_nil_iff] at h3
              obtain ⟨hc, hxs0⟩ := h3
              subst hxs0
              simp only [List.nil_append] at hxs
              apply h1
              simp only [Bool.and_eq_true, decide_eq_true_eq]
              refine ⟨hc, ?_⟩
              rw [hxs]
              simp [isWordBoundary, hcw, hr]

/-! ## The unit corrections, word by word -/

theorem matchLiteral_nonword (stem : List Char) (hs : IsStem stem) (c : Char) (cs : List Char)
    (hc : isWordChar c = false) : matchLiteral stem (c :: cs) = none := by
  obtain ⟨hne, hlet⟩ := hs
  cases stem with
  | nil => exact absurd rfl hne
  | cons p ps =>
    simp only [matchLiteral]
    rw [if_neg]
    intro h
    have := isWordChar_of_toLower c p (hlet p (by simp)) h
    rw [hc] at this
    cases this

theorem matchUnitWord_nonword (stem : List Char) (hs : IsStem stem) (b : Option Char) (c : Char)
    (cs : List Char) (hc : isWordChar c = false) : matchUnitWord stem b (c :: cs) = none := by
  unfold matchUnitWord
  split
  · rw [matchLiteral_nonword stem hs c cs hc]
  · rfl

theorem matchUnitWord_inside (stem : List Char) (b : Option Char) (c : Char) (cs : List Char)
    (hb : b.any isWordChar = true) (hc : isWordChar c = true) :
    matchUnitWord stem b (c :: cs) = none := by
  unfold matchUnitWord
  rw [if_neg]
  simp [isWordBoundary, hb, hc]

theorem matchUnitWord_nil (stem : List Char) (hs : IsStem stem) (b : Option Char) :
    matchUnitWord stem b [] = none := by
  obtain ⟨hne, -⟩ := hs
  unfold matchUnitWord
  cases stem with
  | nil => exact absurd rfl hne
  | cons p ps => simp [matchLiteral]

theorem replaceAllFrom_skip (m : Option Char → List Char → Option Nat) (rep r : List Char)
    (a : List Char) : ∀ (b : Option Char), a ≠ [] →
    replaceAllFrom m rep a.length b (a ++ r) = replaceAllFrom m rep 0 a.getLast? r := by
  induction a with
  | nil => intro b h; exact absurd rfl h
  | cons x xs ih =>
    intro b _
    cases xs with
    | nil => simp [replaceAllFrom]
    | cons y ys =>
      simp only [List.length_cons, List.cons_append, replaceAllFrom, List.append_eq]
      have := ih (some x) (by simp)
      simp only [List.length_cons, List.cons_append, replaceAllFrom, List.append_eq] at this
      rw [this]
      simp

/-- Inside a word the scanner copies the rest of the word. -/
theorem replaceAllFrom_inside (stem rep r : List Char) (w : List Char) :
    ∀ (b : Option Char), b.any isWordChar = true → (∀ c ∈ w, isWordChar c = true) →
    ∃ b' : Option Char, b'.any isWordChar = true ∧
      replaceAllFrom (matchUnitWord stem) rep 0 b (w ++ r)
        = w ++ replaceAllFrom (matchUnitWord stem) rep 0 b' r := by
  induction w with
  | nil => intro b hb _; exact ⟨b, hb, rfl⟩
  | cons x xs ih =>
    intro b hb hall
    have hx : isWordChar x = true := hall x (by simp)
    obtain ⟨b', hb', heq⟩ := ih (some x) (by simpa using hx)
      (fun c hc => hall c (List.mem_cons_of_mem _ hc))
    refine ⟨b', hb', ?_⟩
    simp only [List.cons_append, replaceAllFrom, matchUnitWord_inside stem b x _ hb hx,
      List.append_eq]
    rw [heq]

/-- At the start of a word the scanner emits the corrected word and goes on
behind it. -/
theorem replaceAllFrom_word (entry : List Char × List Char) (hs : IsStem entry.1)
    (b : Option Char) (hb : b.any isWordChar = false) (w r : List Char) (hw : w ≠ [])
    (hall : ∀ c ∈ w, isWordChar c = true) (hr : r.head?.any isWordChar = false) :
    ∃ b' : Option Char, b'.any isWordChar = true ∧
      replaceAllFrom (matchUnitWord entry.1) entry.2 0 b (w ++ r)
        = fixWord entry w ++ replaceAllFrom (matchUnitWord entry.1) entry.2 0 b' r := by
  have hm := matchUnitWord_word entry.1 hs b hb w r hw hall hr
  cases w with
  | nil => exact absurd rfl hw
  | cons x xs =>
    have hx : isWordChar x = true := hall x (by simp)
    by_cases hmatch : (x :: xs).map Char.toLower = entry.1
        ∨ (x :: xs).map Char.toLower = entry.1 ++ ['s']
    · rw [if_pos hmatch] at hm
      have hfix : fixWord entry (x :: xs) = entry.2 := by
        unfold fixWord matchesEntry
        rw [if_pos (decide_eq_true hmatch)]
      refine ⟨(x :: xs).getLast?, ?_, ?_⟩
      · obtain ⟨l, hl⟩ : ∃ l, (x :: xs).getLast? = some l := by
          cases hg : (x :: xs).getLast? with
          | none => simp at hg
          | some l => exact ⟨l, rfl⟩
        rw [hl]
        simpa using hall l (List.mem_of_getLast?_eq_some hl)
      · simp only [List.cons_append] at hm ⊢
        simp only [List.length_cons] at hm
        simp only [replaceAllFrom, hm, hfix, List.append_eq]
        cases xs with
        | nil => simp
        | cons y ys =>
          have := replaceAllFrom_skip (matchUnitWord entry.1) entry.2 r (y :: ys) (some x)
            (by simp)
          simp only [List.length_cons, List.cons_append] at this
          simp only [List.length_cons, List.cons_append]
          rw [this]
          simp
    · rw [if_neg hmatch] at hm
      have hfix : fixWord entry (x :: xs) = x :: xs := by
        unfold fixWord matchesEntry
        rw [if_neg (by simpa using hmatch)]
      obtain ⟨b', hb', heq⟩ := replaceAllFrom_inside entry.1 entry.2 r xs (some x)
        (by simpa using hx) (fun c hc => hall c (List.mem_cons_of_mem _ hc))
      refine ⟨b', hb', ?_⟩
      simp only [List.cons_append] at hm ⊢
      simp only [replaceAllFrom, hm, hfix, List.append_eq]
      rw [heq]
      simp

theorem mapWordsFrom_word (f : List Char → List Char) (w : List Char) :
    ∀ (acc r : List Char), (∀ c ∈ w, isWordChar c = true) →
    mapWordsFrom f acc (w ++ r) = mapWordsFrom f (w.reverse ++ acc) r := by
  induction w with
  | nil => intro acc r _; rfl
  | cons x xs ih =>
    intro acc r hall
    have hx : isWordChar x = true := hall x (by simp)
    simp only [List.cons_append, mapWordsFrom, hx, if_true, List.append_eq]
    rw [ih (x :: acc) r (fun c hc => hall c (List.mem_cons_of_mem _ hc))]
    simp

theorem mapWords_nil (f : List Char → List Char) : mapWords f [] = [] := rfl

theorem mapWords_nonword (f : List Char → List Char) (c : Char) (cs : List Char)
    (hc : isWordChar c = false) : mapWords f (c :: cs) = c :: mapWords f cs := by
  simp [mapWords, mapWordsFrom, hc]

theorem mapWords_word (f : List Char → List Char) (w r : List Char) (hw : w ≠ [])
    (hall : ∀ c ∈ w, isWordChar c = true) (hr : r.head?.any isWordChar = false) :
    mapWords f (w ++ r) = f w ++ mapWords f r := by
  unfold mapWords
  rw [mapWordsFrom_word f w [] r hall]
  simp only [List.append_nil]
  have hne : w.reverse.isEmpty = false := by
    cases w with
    | nil => exact absurd rfl hw
    | cons x xs => simp
  cases r with
  | nil => simp [mapWordsFrom, hne]
  | cons c cs =>
    have hc : isWordChar c = false := by simpa using hr
    simp [mapWordsFrom, hc, hne]

/-- A text that starts with a word character splits into its first word and
a rest that does not start with a word character. -/
theorem split_first_word (c : Char) (cs : List Char) (hc : isWordChar c = true) :
    ∃ w r, c :: cs = w ++ r ∧ w ≠ [] ∧ (∀ x ∈ w, isWordChar x = true) ∧
      r.head?.any isWordChar = false ∧ r.length < (c :: cs).length := by
  refine ⟨(c :: cs).takeWhile isWordChar, (c :: cs).dropWhile isWordChar,
    (List.takeWhile_append_dropWhile _ _).symm, ?_, ?_, ?_, ?_⟩
  · simp [List.takeWhile_cons, hc]
  · intro x hx; exact List.mem_takeWhile_imp hx
  · have := List.head?_dropWhile_not isWordChar (c :: cs)
    cases h : ((c :: cs).dropWhile isWordChar).head? with
    | none => rfl
    | some y => rw [h] at this; simpa using this
  · rw [List.dropWhile_cons_of_pos hc]
    exact Nat.lt_succ_of_le (List.Sublist.length_le (List.dropWhile_sublist _))

/-- One correction is the word-wise map of `fixWord`. -/
theorem replaceAll_eq_mapWords (entry : List Char × List Char) (hs : IsStem entry.1) :
    ∀ (n : Nat) (t : List Char), t.length ≤ n → ∀ b : Option Char,
      (b.any isWordChar = false ∨ t.head?.any isWordChar = false) →
      replaceAllFrom (matchUnitWord entry.1) entry.2 0 b t = mapWords (fixWord entry) t := by
  intro n
  induction n with
  | zero =>
    intro t ht b _
    have : t = [] := List.length_eq_zero.1 (Nat.le_zero.1 ht)
    subst this
    simp [replaceAllFrom, matchUnitWord_nil entry.1 hs, mapWords_nil]
  | succ n ih =>
    intro t ht b hb
    cases t with
    | nil => simp [replaceAllFrom, matchUnitWord_nil entry.1 hs, mapWords_nil]
    | cons c cs =>
      by_cases hc : isWordChar c = true
      · have hb' : b.any isWordChar = false := by
          rcases hb with hb | hb
          · exact hb
          · simp [hc] at hb
        obtain ⟨w, r, hsplit, hw, hall, hr, hlen⟩ := split_first_word c cs hc
        obtain ⟨b2, hb2, heq⟩ := replaceAllFrom_word entry hs b hb' w r hw hall hr
        rw [hsplit, heq, mapWords_word _ w r hw hall hr]
        congr 1
        apply ih r _ b2 (Or.inr hr)
        simp only [List.length_cons] at hlen ht
        omega
      · simp only [Bool.not_eq_true] at hc
        simp only [replaceAllFrom, matchUnitWord_nonword entry.1 hs b c cs hc]
        rw [mapWords_nonword _ c cs hc]
        congr 1
        apply ih cs _ (some c) (Or.inl (by simpa using hc))
        simp only [List.length_cons] at ht
        omega

theorem replaceAll_correction (entry : List Char × List Char) (hs : IsStem entry.1)
    (t : List Char) :
    replaceAll (matchUnitWord entry.1) entry.2 t = mapWords (fixWord entry) t :=
  replaceAll_eq_mapWords entry hs t.length t (Nat.le_refl _) none (Or.inl rfl)

theorem mapWords_head_nonword (f : List Char → List Char) (r : List Char)
    (hr : r.head?.any isWordChar = false) : (mapWords f r).head?.any isWordChar = false := by
  cases r with
  | nil => rfl
  | cons c cs =>
    have hc : isWordChar c = false := by simpa using hr
    rw [mapWords_nonword f c cs hc]
    simpa using hc

theorem mapWords_comp (f g : List Char → List Char) (hf : PreservesWords f) :
    ∀ (n : Nat) (t : List Char), t.length ≤ n →
      mapWords g (mapWords f t) = mapWords (fun w => g (f w)) t := by
  intro n
  induction n with
  | zero =>
    intro t ht
    have : t = [] := List.length_eq_zero.1 (Nat.le_zero.1 ht)
    subst this
    rfl
  | succ n ih =>
    intro t ht
    cases t with
    | nil => rfl
    | cons c cs =>
      by_cases hc : isWordChar c = true
      · obtain ⟨w, r, hsplit, hw, hall, hr, hlen⟩ := split_first_word c cs hc
        obtain ⟨hfw1, hfw2⟩ := hf w hw hall
        rw [hsplit, mapWords_word f w r hw hall hr,
          mapWords_word g (f w) (mapWords f r) hfw1 hfw2 (mapWords_head_nonword f r hr),
          mapWords_word _ w r hw hall hr, ih r (by simp only [List.length_cons] at hlen ht; omega)]
      · simp only [Bool.not_eq_true] at hc
        rw [mapWords_nonword f c cs hc, mapWords_nonword g c _ hc, mapWords_nonword _ c cs hc,
          ih cs (by simp only [List.length_cons] at ht; omega)]

theorem preservesWords_fixWord (entry : List Char × List Char) (hs : IsStem entry.2) :
    PreservesWords (fixWord entry) := by
  intro w hw hall
  unfold fixWord
  split
  · exact ⟨hs.1, fun c hc => isWordChar_of_letter c (hs.2 c hc)⟩
  · exact ⟨hw, hall⟩

theorem foldl_mapWords (es : List (List Char × List Char))
    (hs : ∀ e ∈ es, IsStem e.1 ∧ IsStem e.2) : ∀ t : List Char,
    es.foldl (fun acc entry => replaceAll (matchUnitWord entry.1) entry.2 acc) t
      = mapWords (fun w => es.foldl (fun a e => fixWord e a) w) t := by
  induction es with
  | nil =>
    intro t
    simp only [List.foldl_nil]
    -- mapWords id t = t
    have hid : ∀ (n : Nat) (t : List Char), t.length ≤ n → mapWords (fun w => w) t = t := by
      intro n
      induction n with
      | zero =>
        intro t ht
        have : t = [] := List.length_eq_zero.1 (Nat.le_zero.1 ht)
        subst this; rfl
      | succ n ih =>
        intro t ht
        cases t with
        | nil => rfl
        | cons c cs =>
          by_cases hc : isWordChar c = true
          · obtain ⟨w, r, hsplit, hw, hall, hr, hlen⟩ := split_first_word c cs hc
            rw [hsplit, mapWords_word _ w r hw hall hr,
              ih r (by simp only [List.length_cons] at hlen ht; omega)]
          · simp only [Bool.not_eq_true] at hc
            rw [mapWords_nonword _ c cs hc, ih cs (by simp only [List.length_cons] at ht; omega)]
    exact (hid t.length t (Nat.le_refl _)).symm
  | cons e es ih =>
    intro t
    simp only [List.foldl_cons]
    rw [ih (fun e' he' => hs e' (List.mem_cons_of_mem _ he')),
      replaceAll_correction e (hs e (List.mem_cons_self _ _)).1,
      mapWords_comp _ _ (preservesWords_fixWord e (hs e (List.mem_cons_self _ _)).2) _ _
        (Nat.le_refl _)]

theorem foldl_fixWord_fixed (es : List (List Char × List Char)) (w : List Char)
    (h : ∀ e ∈ es, fixWord e w = w) : es.foldl (fun a e => fixWord e a) w = w := by
  induction es with
  | nil => rfl
  | cons e es ih =>
    simp only [List.foldl_cons]
    rw [h e (List.mem_cons_self _ _)]
    exact ih (fun e' he' => h e' (List.mem_cons_of_mem _ he'))

theorem foldl_fixWord_eq (es : List (List Char × List Char))
    (hfix : ∀ e ∈ es, ∀ e' ∈ es, fixWord e' e.2 = e.2) : ∀ w : List Char,
    es.foldl (fun a e => fixWord e a) w
      = (match es.find? (fun entry => matchesEntry entry w) with
         | some entry => entry.2
         | none => w) := by
  induction es with
  | nil => intro w; rfl
  | cons e es ih =>
    intro w
    simp only [List.foldl_cons, List.find?_cons]
    by_cases hm : matchesEntry e w = true
    · simp only [hm]
      have : fixWord e w = e.2 := by simp [fixWord, hm]
      rw [this]
      exact foldl_fixWord_fixed es e.2
        (fun e' he' => hfix e (List.mem_cons_self _ _) e' (List.mem_cons_of_mem _ he'))
    · simp only [Bool.not_eq_true] at hm
      simp only [hm]
      have : fixWord e w = w := by simp [fixWord, hm]
      rw [this]
      exact ih (fun a ha b hb => hfix a (List.mem_cons_of_mem _ ha) b
        (List.mem_cons_of_mem _ hb)) w

theorem recipeCorrections_stems : ∀ e ∈ recipeCorrections, IsStem e.1 ∧ IsStem e.2 := by
  have h : ∀ e ∈ recipeCorrections,
      ((!e.1.isEmpty && e.1.all (fun p => decide (97 ≤ p.toNat) && decide (p.toNat ≤ 122)))
        = true) ∧
      ((!e.2.isEmpty && e.2.all (fun p => decide (97 ≤ p.toNat) && decide (p.toNat ≤ 122)))
        = true) := by
    decide
  intro e he
  have hb : ∀ stem : List Char,
      (!stem.isEmpty && stem.all (fun p => decide (97 ≤ p.toNat) && decide (p.toNat ≤ 122)))
        = true → IsStem stem := by
    intro stem hstem
    simp only [Bool.and_eq_true, Bool.not_eq_true', List.all_eq_true, decide_eq_true_eq]
      at hstem
    refine ⟨?_, fun p hp => hstem.2 p hp⟩
    intro e0
    rw [e0] at hstem
    simp at hstem
  exact ⟨hb _ (h e he).1, hb _ (h e he).2⟩

theorem recipeCorrections_fixed :
    ∀ e ∈ recipeCorrections, ∀ e' ∈ recipeCorrections, fixWord e' e.2 = e.2 := by
  decide

/-- The table of corrections is the word-wise map of `correctWord`. -/
theorem applyCorrections_eq (t : List Char) :
    applyCorrections t = mapWords correctWord t := by
  have hfun : (fun w => recipeCorrections.foldl (fun a e => fixWord e a) w) = correctWord := by
    funext w
    rw [foldl_fixWord_eq _ recipeCorrections_fixed w]
    unfold correctWord
    rfl
  unfold applyCorrections
  rw [foldl_mapWords _ recipeCorrections_stems, hfun]

theorem wordsOfFrom_word (w : List Char) :
    ∀ (acc r : List Char), (∀ c ∈ w, isWordChar c = true) →
    wordsOfFrom acc (w ++ r) = wordsOfFrom (w.reverse ++ acc) r := by
  induction w with
  | nil => intro acc r _; rfl
  | cons x xs ih =>
    intro acc r hall
    have hx : isWordChar x = true := hall x (by simp)
    simp only [List.cons_append, wordsOfFrom, hx, if_true, List.append_eq]
    rw [ih (x :: acc) r (fun c hc => hall c (List.mem_cons_of_mem _ hc))]
    simp

theorem wordsOf_nonword (c : Char) (cs : List Char) (hc : isWordChar c = false) :
    wordsOf (c :: cs) = wordsOf cs := by
  simp [wordsOf, wordsOfFrom, hc]

theorem wordsOf_word (w r : List Char) (hw : w ≠ [])
    (hall : ∀ c ∈ w, isWordChar c = true) (hr : r.head?.any isWordChar = false) :
    wordsOf (w ++ r) = w :: wordsOf r := by
  unfold wordsOf
  rw [wordsOfFrom_word w [] r hall]
  simp only [List.append_nil]
  have hne : w.reverse.isEmpty = false := by
    cases w with
    | nil => exact absurd rfl hw
    | cons x xs => simp
  cases r with
  | nil => simp [wordsOfFrom, hne]
  | cons c cs =>
    have hc : isWordChar c = false := by simpa using hr
    simp [wordsOfFrom, hc, hne]

theorem wordsOf_mapWords (f : List Char → List Char) (hf : PreservesWords f) :
    ∀ (n : Nat) (t : List Char), t.length ≤ n →
      wordsOf (mapWords f t) = (wordsOf t).map f := by
  intro n
  induction n with
  | zero =>
    intro t ht
    have : t = [] := List.length_eq_zero.1 (Nat.le_zero.1 ht)
    subst this
    rfl
  | succ n ih =>
    intro t ht
    cases t with
    | nil => rfl
    | cons c cs =>
      by_cases hc : isWordChar c = true
      · obtain ⟨w, r, hsplit, hw, hall, hr, hlen⟩ := split_first_word c cs hc
        obtain ⟨hfw1, hfw2⟩ := hf w hw hall
        rw [hsplit, mapWords_word f w r hw hall hr,
          wordsOf_word (f w) (mapWords f r) hfw1 hfw2 (mapWords_head_nonword f r hr),
          wordsOf_word w r hw hall hr, ih r (by simp only [List.length_cons] at hlen ht; omega)]
        rfl
      · simp only [Bool.not_eq_true] at hc
        rw [mapWords_nonword f c cs hc, wordsOf_nonword c _ hc, wordsOf_nonword c cs hc,
          ih cs (by simp only [List.length_cons] at ht; omega)]

theorem correctWord_cases (w : List Char) :
    (∃ e ∈ recipeCorrections, correctWord w = e.2) ∨
      (correctWord w = w ∧ ∀ e ∈ recipeCorrections, matchesEntry e w = false) := by
  unfold correctWord
  cases h : recipeCorrections.find? (fun entry => matchesEntry entry w) with
  | none =>
    right
    refine ⟨rfl, ?_⟩
    intro e he
    have := List.find?_eq_none.1 h e he
    simpa using this
  | some e =>
    left
    exact ⟨e, List.mem_of_find?_eq_some h, rfl⟩

theorem preservesWords_correctWord : PreservesWords correctWord := by
  intro w hw hall
  rcases correctWord_cases w with ⟨e, he, heq⟩ | ⟨heq, -⟩
  · rw [heq]
    have hs := (recipeCorrections_stems e he).2
    exact ⟨hs.1, fun c hc => isWordChar_of_letter c (hs.2 c hc)⟩
  · rw [heq]; exact ⟨hw, hall⟩

theorem correctWord_not_plural (w plural : List Char) (hp : plural ∈ pluralForms) :
    (correctWord w).map Char.toLower ≠ plural := by
  rcases correctWord_cases w with ⟨e, he, heq⟩ | ⟨heq, hno⟩
  · rw [heq]
    have hall : ∀ e ∈ recipeCorrections, ∀ p ∈ pluralForms, e.2.map Char.toLower ≠ p := by
      decide
    exact hall e he plural hp
  · rw [heq]
    unfold pluralForms at hp
    rw [List.mem_map] at hp
    obtain ⟨e, he, rfl⟩ := hp
    have := hno e he
    unfold matchesEntry at this
    simp only [decide_eq_false_iff_not, not_or] at this
    exact this.2

theorem applyCorrections_no_plural (t plural : List Char) (hp : plural ∈ pluralForms) :
    hasWholeWord plural (applyCorrections t) = false := by
  unfold hasWholeWord
  rw [applyCorrections_eq, wordsOf_mapWords _ preservesWords_correctWord _ _ (Nat.le_refl _)]
  rw [Bool.eq_false_iff]
  intro h
  rw [List.any_eq_true] at h
  obtain ⟨x, hx, hx2⟩ := h
  rw [List.mem_map] at hx
  obtain ⟨w, -, rfl⟩ := hx
  exact correctWord_not_plural w plural hp (by simpa using hx2)

/-- C14, as stated, fails: in the raw text `cups|` the word cups is a whole
word, but the vertical bar is turned into the letter I before the corrections
run, so the output is `cupsI` and the plural is not replaced. -/
theorem cups_pipe_counterexample :
    hasWholeWord "cups".data "cups|".data = true ∧
    cleanExtractedText "cups|".data = "cupsI".data := by
  decide

/-- C14, amended: the corrections act on the text as it stands after the
white-space and character clean-up; every whole word of that text that equals,
in any letter case, one of tsp, tbsp, cup, oz, lb, clove, spoon or its plural
is replaced by the lower-case singular form and every other word and character
is kept; so the output of `cleanExtractedText` contains none of the plural
forms as a whole word, while words that merely contain them, such as
"teaspoons" or "hiccups", are left unchanged. -/
theorem unit_corrections (rawText : List Char) :
    (rawText ≠ [] →
      cleanExtractedText rawText
        = applyCorrections
            (replaceAll matchArtifact [' ']
              (replaceAll matchZero ['O']
                (replaceAll matchPipeOrBackslash ['I']
                  (trim (replaceAll matchBlankLines ['\n']
                    (replaceAll matchWhiteSpaceRun [' '] rawText))))))) ∧
    (∀ t, applyCorrections t = mapWords correctWord t) ∧
    (∀ plural ∈ pluralForms, hasWholeWord plural (cleanExtractedText rawText) = false) ∧
    cleanExtractedText "2 Cups and 3 TSPS".data = "2 cup and 3 tsp".data ∧
    cleanExtractedText "two teaspoons".data = "two teaspoons".data ∧
    cleanExtractedText "hiccups".data = "hiccups".data := by
  have h1 : rawText ≠ [] →
      cleanExtractedText rawText
        = applyCorrections
            (replaceAll matchArtifact [' ']
              (replaceAll matchZero ['O']
                (replaceAll matchPipeOrBackslash ['I']
                  (trim (replaceAll matchBlankLines ['\n']
                    (replaceAll matchWhiteSpaceRun [' '] rawText)))))) := by
    intro hne
    unfold cleanExtractedText applyCorrections
    cases rawText with
    | nil => exact absurd rfl hne
    | cons c cs => rfl
  refine ⟨h1, applyCorrections_eq, ?_, by decide, by decide, by decide⟩
  intro plural hp
  by_cases hne : rawText = []
  · subst hne
    have : cleanExtractedText [] = [] := rfl
    rw [this]
    rfl
  · rw [h1 hne]
    exact applyCorrections_no_plural _ plural hp

/-- Witness of C14 amended: cloves and ozs in upper and mixed case. -/
theorem unit_corrections_witness :
    ("2 Cloves | 3 OZS".data ≠ []) ∧
    (∀ plural ∈ pluralForms,
      hasWholeWord plural (cleanExtractedText "2 Cloves | 3 OZS".data) = false) :=
  ⟨by decide, (unit_corrections "2 Cloves | 3 OZS".data).2.2.1⟩

/-! ## Adding to the pantry -/

/-- The outcomes of `addIngredient`: a failed save, which leaves the stored
pantry as it was; a merge into the first record whose name matches; a new
record at the end. -/
theorem addIngredient_cases {Num : Type} (js : JsNumbers Num) (lc : String → String) (now : Int)
    (p : Pantry Num) (ingredient : Ingredient Num) :
    addIngredient js lc now p ingredient = (p, Except.error validationFailed) ∨
    (∃ (i : Nat) (item updated : IngredientRecord Num),
      p.ingredients[i]? = some item ∧ lc item.name = lc ingredient.name ∧
      (∀ j, j < i → ∀ y : IngredientRecord Num, p.ingredients[j]? = some y →
        lc y.name ≠ lc ingredient.name) ∧
      mergeRecord js item ingredient = some updated ∧ validRecord updated = true ∧
      addIngredient js lc now p ingredient
        = (save now { p with ingredients := p.ingredients.set i updated },
            Except.ok updated)) ∨
    (∃ r : IngredientRecord Num,
      (∀ x ∈ p.ingredients, lc x.name ≠ lc ingredient.name) ∧
      newRecord js lc now ingredient = some r ∧ validRecord r = true ∧
      addIngredient js lc now p ingredient
        = (save now { p with ingredients := p.ingredients ++ [r] }, Except.ok r)) := by
  cases hl : (findIndex (fun item => lc item.name == lc ingredient.name) p.ingredients).bind
      (fun i => (p.ingredients[i]?).map (fun item => (i, item))) with
  | none =>
    have hnone := (lookup_eq_none _ _).1 hl
    cases hr : newRecord js lc now ingredient with
    | none =>
      left
      unfold addIngredient
      simp only [hl, hr]
    | some r =>
      by_cases hv : validRecord r = true
      · right; right
        refine ⟨r, ?_, rfl, hv, ?_⟩
        · intro x hx
          simpa using hnone x hx
        · unfold addIngredient
          simp only [hl, hr, hv, if_true]
      · left
        unfold addIngredient
        simp only [hl, hr, hv, if_false, Bool.false_eq_true]
  | some pr =>
    obtain ⟨i, item⟩ := pr
    obtain ⟨h1, h2, h3⟩ := lookup_eq_some _ _ _ _ hl
    cases hm : mergeRecord js item ingredient with
    | none =>
      left
      unfold addIngredient
      simp only [hl, hm]
    | some updated =>
      by_cases hv : validRecord updated = true
      · right; left
        refine ⟨i, item, updated, h1, by simpa using h2, ?_, hm, hv, ?_⟩
        · intro j hj y hy
          simpa using h3 j hj y hy
        · unfold addIngredient
          simp only [hl, hm, hv, if_true]
      · left
        unfold addIngredient
        simp only [hl, hm, hv, if_false, Bool.false_eq_true]

theorem mergeRecord_fields {Num : Type} (js : JsNumbers Num) (item updated : IngredientRecord Num)
    (ingredient : Ingredient Num) (h : mergeRecord js item ingredient = some updated) :
    updated.name = item.name ∧ updated.category = item.category ∧
    updated.unit = unitOr ingredient.unit item.unit ∧
    updated.expiryDate = item.expiryDate ∧ updated.addedDate = item.addedDate ∧
    castQuantity js (plus js item.quantity (quantityOrOne js ingredient.quantity))
      = some updated.quantity := by
  unfold mergeRecord at h
  cases hq : castQuantity js (plus js item.quantity (quantityOrOne js ingredient.quantity)) with
  | none => simp [hq] at h
  | some q =>
    simp only [hq, Option.map_some', Option.some.injEq] at h
    subst h
    simp

theorem newRecord_fields {Num : Type} (js : JsNumbers Num) (lc : String → String) (now : Int)
    (ingredient : Ingredient Num) (r : IngredientRecord Num)
    (h : newRecord js lc now ingredient = some r) :
    r.name = storedName lc ingredient.name ∧ r.category = ingredient.category.getD "other" ∧
    r.unit = ingredient.unit.getD "piece" ∧ r.expiryDate = ingredient.expiryDate ∧
    r.addedDate = now ∧
    (ingredient.quantity.map (castQuantity js)).getD (some (js.ofInt 1)) = some r.quantity := by
  unfold newRecord at h
  cases hq : (ingredient.quantity.map (castQuantity js)).getD (some (js.ofInt 1)) with
  | none => simp [hq] at h
  | some q =>
    simp only [hq, Option.map_some', Option.some.injEq] at h
    subst h
    simp

/-- Names stay pairwise distinct, ignoring case, under `addIngredient` when the
incoming name is stored as a name that lower-cases to the same string. -/
theorem addIngredient_names_nodup {Num : Type} (js : JsNumbers Num) (lc : String → String)
    (now : Int) (p : Pantry Num) (ingredient : Ingredient Num)
    (hname : lc (storedName lc ingredient.name) = lc ingredient.name)
    (h : (p.ingredients.map (fun r => lc r.name)).Nodup) :
    ((addIngredient js lc now p ingredient).1.ingredients.map (fun r => lc r.name)).Nodup := by
  rcases addIngredient_cases js lc now p ingredient with he | ⟨i, item, updated, h1, -, -, hm, -, he⟩
    | ⟨r, hno, hr, -, he⟩
  · rw [he]; exact h
  · rw [he]
    simp only [save]
    rw [map_set_of_eq (fun r => lc r.name) p.ingredients i item updated h1
      (by show lc updated.name = lc item.name
          rw [(mergeRecord_fields js item updated ingredient hm).1])]
    exact h
  · rw [he]
    simp only [save, List.map_append, List.map_cons, List.map_nil]
    rw [List.nodup_append]
    refine ⟨h, by simp, ?_⟩
    intro a ha hb
    simp only [List.mem_singleton] at hb
    subst hb
    simp only [List.mem_map] at ha
    obtain ⟨x, hx, hxa⟩ := ha
    rw [(newRecord_fields js lc now ingredient r hr).1, hname] at hxa
    exact hno x hx hxa

theorem addAll_names_nodup {Num : Type} (js : JsNumbers Num) (lc : String → String)
    (calls : List (Int × Ingredient Num)) (p : Pantry Num)
    (hnames : ∀ c ∈ calls, lc (storedName lc c.2.name) = lc c.2.name)
    (h : (p.ingredients.map (fun r => lc r.name)).Nodup) :
    ((addAll js lc p calls).ingredients.map (fun r => lc r.name)).Nodup := by
  induction calls generalizing p with
  | nil => simpa [addAll] using h
  | cons c cs ih =>
    simp only [addAll, List.foldl_cons]
    exact ih _ (fun d hd => hnames d (List.mem_cons_of_mem _ hd))
      (addIngredient_names_nodup js lc c.1 p c.2 (hnames c (List.mem_cons_self _ _)) h)

/-- Records with pairwise distinct names, ignoring case, have pairwise distinct
`(name, category, unit)` keys. -/
theorem keys_nodup_of_names_nodup {Num : Type} (lc : String → String)
    (l : List (IngredientRecord Num))
    (h : (l.map (fun r => lc r.name)).Nodup) : (l.map recordKey).Nodup := by
  have hmap : l.map (fun r => lc r.name) = (l.map recordKey).map (fun k => lc k.1) := by
    simp [List.map_map, Function.comp_def, recordKey]
  rw [hmap] at h
  exact List.Nodup.of_map _ h

/-- After calls whose names are stored as they are passed, as the add routes
pass them, no two stored records share a key. -/
theorem addAll_keys_nodup {Num : Type} (js : JsNumbers Num) (lc : String → String) (now : Int)
    (calls : List (Int × Ingredient Num))
    (hnames : ∀ c ∈ calls, lc (storedName lc c.2.name) = lc c.2.name) :
    ((addAll js lc (createUserPantry now) calls).ingredients.map recordKey).Nodup :=
  keys_nodup_of_names_nodup lc _
    (addAll_names_nodup js lc calls (createUserPantry now) hnames (by simp [createUserPantry]))

/-- C2, at the failing input: two direct calls with the name " egg" (a leading
space) on a new pantry.  The first call stores the name "egg"; the look-up of
the second compares the stored "egg" with the incoming " egg", finds no match
and pushes a second record, so the pantry holds two records with the key
(egg, other, piece). -/
theorem addIngredient_duplicate_keys {Num : Type} (js : JsNumbers Num) :
    (addAll js asciiLower (createUserPantry 0)
        [(0, { name := " egg" }), (1, { name := " egg" })]).ingredients.map recordKey
      = [("egg", "other", "piece"), ("egg", "other", "piece")] := by
  rfl

/-! ## Adding at concrete pantries -/

theorem lookup_head {α : Type} (pred : α → Bool) (x : α) (xs : List α) (h : pred x = true) :
    (findIndex pred (x :: xs)).bind (fun i => ((x :: xs)[i]?).map (fun item => (i, item)))
      = some (0, x) := by
  simp [findIndex, h]

/-- `addIngredient` on a pantry none of whose names matches. -/
theorem addIngredient_new {Num : Type} (js : JsNumbers Num) (lc : String → String) (now : Int)
    (p : Pantry Num) (ingredient : Ingredient Num) (r : IngredientRecord Num)
    (hno : ∀ x ∈ p.ingredients, (lc x.name == lc ingredient.name) = false)
    (hr : newRecord js lc now ingredient = some r) (hv : validRecord r = true) :
    addIngredient js lc now p ingredient
      = (save now { p with ingredients := p.ingredients ++ [r] }, Except.ok r) := by
  have hl := (lookup_eq_none (fun item : IngredientRecord Num =>
    lc item.name == lc ingredient.name) p.ingredients).2 hno
  unfold addIngredient
  simp only [hl, hr, hv, if_true]

/-- `addIngredient` on a pantry whose first record matches the name. -/
theorem addIngredient_merge_head {Num : Type} (js : JsNumbers Num) (lc : String → String)
    (now : Int) (p : Pantry Num) (ingredient : Ingredient Num)
    (item updated : IngredientRecord Num) (rest : List (IngredientRecord Num))
    (hp : p.ingredients = item :: rest) (hn : (lc item.name == lc ingredient.name) = true)
    (hm : mergeRecord js item ingredient = some updated) (hv : validRecord updated = true) :
    addIngredient js lc now p ingredient
      = (save now { p with ingredients := updated :: rest }, Except.ok updated) := by
  have hl := lookup_head (fun item : IngredientRecord Num =>
    lc item.name == lc ingredient.name) item rest hn
  unfold addIngredient
  rw [hp]
  simp only [hl, hm, hv, if_true, List.set_cons_zero]

theorem storedName_egg : storedName asciiLower "egg" = "egg" := by decide

theorem asciiLower_egg : asciiLower "egg" = "egg" := by decide

/-- Whatever the numbers are, after adding egg (other, piece, 2) and then egg
(other, cup, 3) the key (egg, other, cup) holds 5 while the only call made with
that key asked for 3. -/
theorem total_by_key_general {Num : Type} (js : JsNumbers Num) :
    storedUnderKey
        (addAll js asciiLower (createUserPantry 0)
          [(0, { name := "egg", category := some "other",
                 quantity := some (QuantityValue.num (js.ofInt 2)), unit := some "piece" }),
           (1, { name := "egg", category := some "other",
                 quantity := some (QuantityValue.num (js.ofInt 3)), unit := some "cup" })])
        ("egg", "other", "cup") = [js.ofInt 5] ∧
    requestedUnderKey
        [(0, { name := "egg", category := some "other",
               quantity := some (QuantityValue.num (js.ofInt 2)), unit := some "piece" }),
         (1, { name := "egg", category := some "other",
               quantity := some (QuantityValue.num (js.ofInt 3)), unit := some "cup" })]
        ("egg", "other", "cup") = [some (QuantityValue.num (js.ofInt 3))] ∧
    js.ofInt 5 ≠ js.ofInt 3 := by
  have e2 : js.castNumber (js.ofInt 2) = some (js.ofInt 2) := js.castNumber_ofInt 2 (by norm_num)
  have e5 : js.castNumber (js.ofInt 5) = some (js.ofInt 5) := js.castNumber_ofInt 5 (by norm_num)
  have f3 : js.falsy (js.ofInt 3) = false := by
    have := js.falsy_ofInt 3 (by norm_num)
    simpa using this
  have a23 : js.add (js.ofInt 2) (js.ofInt 3) = js.ofInt 5 :=
    js.add_ofInt 2 3 (by norm_num) (by norm_num) (by norm_num)
  have s1 := addIngredient_new js asciiLower 0 (createUserPantry 0)
    { name := "egg", category := some "other",
      quantity := some (QuantityValue.num (js.ofInt 2)), unit := some "piece" }
    { name := "egg", category := "other", quantity := js.ofInt 2, unit := "piece",
      expiryDate := none, addedDate := 0 }
    (by simp [createUserPantry])
    (by simp [newRecord, castQuantity, e2, storedName_egg])
    rfl
  have s2 := addIngredient_merge_head js asciiLower 1
    (save 0 { (createUserPantry 0 : Pantry Num) with
      ingredients := (createUserPantry 0 : Pantry Num).ingredients ++
        [{ name := "egg", category := "other", quantity := js.ofInt 2, unit := "piece",
           expiryDate := none, addedDate := 0 }] })
    { name := "egg", category := some "other",
      quantity := some (QuantityValue.num (js.ofInt 3)), unit := some "cup" }
    { name := "egg", category := "other", quantity := js.ofInt 2, unit := "piece",
      expiryDate := none, addedDate := 0 }
    { name := "egg", category := "other", quantity := js.ofInt 5, unit := "cup",
      expiryDate := none, addedDate := 0 } [] rfl rfl
    (by simp [mergeRecord, quantityOrOne, f3, plus, a23, castQuantity, e5, unitOr])
    rfl
  refine ⟨?_, rfl, ?_⟩
  · simp only [addAll, List.foldl_cons, List.foldl_nil]
    rw [s1, s2]
    rfl
  · intro h
    have := js.ofInt_inj 5 3 (by norm_num) (by norm_num) h
    omega

/-- C3, as stated, fails: after adding egg (other, piece, 2) and then egg
(other, cup, 3) the single stored record is egg (other, cup, 5), so the key
(egg, other, cup) holds 5 while the only call made with that key asked for 3. -/
theorem total_by_key_counterexample :
    storedUnderKey
        (addAll intNumbers asciiLower (createUserPantry 0)
          [(0, { name := "egg", category := some "other",
                 quantity := some (QuantityValue.num 2), unit := some "piece" }),
           (1, { name := "egg", category := some "other",
                 quantity := some (QuantityValue.num 3), unit := some "cup" })])
        ("egg", "other", "cup") = [5] ∧
    requestedUnderKey
        ([(0, { name := "egg", category := some "other",
                quantity := some (QuantityValue.num 2), unit := some "piece" }),
          (1, { name := "egg", category := some "other",
                quantity := some (QuantityValue.num 3), unit := some "cup" })] :
          List (Int × Ingredient Int))
        ("egg", "other", "cup") = [some (QuantityValue.num 3)] ∧
    (5 : Int) ≠ 3 :=
  total_by_key_general intNumbers

/-! ## Quantities stored under a name -/

theorem positive_one {Num : Type} (js : JsNumbers Num) : js.positive (js.ofInt 1) = true :=
  (js.positive_ofInt 1 (by norm_num)).2 (by norm_num)

theorem callNumber_positive {Num : Type} (js : JsNumbers Num) (lc : String → String)
    (c : Ingredient Num) (hc : WellFormedCall js lc c) :
    js.positive (callNumber js c) = true := by
  obtain ⟨-, -, -, -, hq⟩ := hc
  unfold callNumber
  rcases hq with hq | ⟨n, hq, hn⟩
  · rw [hq]; exact positive_one js
  · rw [hq]; exact hn

theorem quantityOrOne_wellFormed {Num : Type} (js : JsNumbers Num) (lc : String → String)
    (c : Ingredient Num) (hc : WellFormedCall js lc c) :
    quantityOrOne js c.quantity = QuantityValue.num (callNumber js c) := by
  obtain ⟨-, -, -, -, hq⟩ := hc
  unfold callNumber quantityOrOne
  rcases hq with hq | ⟨n, hq, hn⟩
  · rw [hq]
  · rw [hq]
    simp [js.positive_truthy n hn]

theorem unit_valid {Num : Type} (js : JsNumbers Num) (lc : String → String)
    (c : Ingredient Num) (hc : WellFormedCall js lc c) (old : String)
    (hold : unitValues.contains old = true) :
    unitValues.contains (unitOr c.unit old) = true ∧
    unitValues.contains (c.unit.getD "piece") = true := by
  obtain ⟨-, -, -, hu, -⟩ := hc
  unfold unitOr
  cases h : c.unit with
  | none => exact ⟨hold, by decide⟩
  | some v =>
    have hv := hu v h
    refine ⟨?_, by simpa using hv⟩
    by_cases he : v = ""
    · simpa [he] using hold
    · simp only [he, if_false]; exact hv

theorem validRecord_iff {Num : Type} (r : IngredientRecord Num) :
    validRecord r = true ↔ r.name ≠ "" ∧ categoryValues.contains r.category = true ∧
      unitValues.contains r.unit = true := by
  unfold validRecord
  simp only [Bool.and_eq_true, bne_iff_ne, ne_eq, and_assoc]

/-- A well-formed call on a well-formed pantry always succeeds: it adds the
number of the call to the first record of that name, or stores a new record
with the fields of the call. -/
theorem addIngredient_wellFormed {Num : Type} (js : JsNumbers Num) (lc : String → String)
    (now : Int) (p : Pantry Num) (c : Ingredient Num) (hc : WellFormedCall js lc c)
    (hp : WellFormedPantry js p) :
    (∃ (i : Nat) (item : IngredientRecord Num),
      p.ingredients[i]? = some item ∧ lc item.name = lc c.name ∧
      (addIngredient js lc now p c).1
        = save now { p with ingredients := p.ingredients.set i (mergedWith js item c) }) ∨
    ((∀ x ∈ p.ingredients, lc x.name ≠ lc c.name) ∧
      (addIngredient js lc now p c).1
        = save now { p with ingredients := p.ingredients ++ [storedFor js now c] }) := by
  have hpos := callNumber_positive js lc c hc
  have hqo := quantityOrOne_wellFormed js lc c hc
  cases hl : (findIndex (fun item => lc item.name == lc c.name) p.ingredients).bind
      (fun i => (p.ingredients[i]?).map (fun item => (i, item))) with
  | none =>
    right
    have hnone := (lookup_eq_none _ _).1 hl
    refine ⟨fun x hx => by simpa using hnone x hx, ?_⟩
    have hr : newRecord js lc now c
        = some (storedFor js now c) := by
      obtain ⟨hn, -, -, -, hq⟩ := hc
      unfold newRecord storedFor callNumber
      rcases hq with hq | ⟨n, hq, hn'⟩
      · simp [hq, hn]
      · simp [hq, hn, castQuantity, js.positive_cast n hn']
    have hv : validRecord (storedFor js now c) = true := by
      rw [validRecord_iff]
      refine ⟨hc.2.1, ?_, (unit_valid js lc c hc "piece" (by decide)).2⟩
      show categoryValues.contains (c.category.getD "other") = true
      cases hk : c.category with
      | none => decide
      | some k => simpa using hc.2.2.1 k hk
    unfold addIngredient
    simp only [hl, hr, hv, if_true]
  | some pr =>
    left
    obtain ⟨i, item⟩ := pr
    obtain ⟨h1, h2, -⟩ := lookup_eq_some _ _ _ _ hl
    have hitem := hp item (List.getElem?_mem h1)
    refine ⟨i, item, h1, by simpa using h2, ?_⟩
    have hsum : js.positive (js.add item.quantity (callNumber js c)) = true :=
      js.positive_add _ _ hitem.2 hpos
    have hm : mergeRecord js item c
        = some (mergedWith js item c) := by
      unfold mergeRecord mergedWith
      rw [hqo]
      simp [plus, castQuantity, js.positive_cast _ hsum]
    have hv : validRecord (mergedWith js item c) = true := by
      have hi := (validRecord_iff item).1 hitem.1
      rw [validRecord_iff]
      exact ⟨hi.1, hi.2.1, (unit_valid js lc c hc item.unit hi.2.2).1⟩
    unfold addIngredient
    simp only [hl, hm, hv, if_true]

theorem addIngredient_wellFormedPantry {Num : Type} (js : JsNumbers Num) (lc : String → String)
    (now : Int) (p : Pantry Num) (c : Ingredient Num) (hc : WellFormedCall js lc c)
    (hp : WellFormedPantry js p) : WellFormedPantry js (addIngredient js lc now p c).1 := by
  have hpos := callNumber_positive js lc c hc
  rcases addIngredient_wellFormed js lc now p c hc hp with ⟨i, item, h1, -, he⟩ | ⟨-, he⟩
  · rw [he]
    intro r hr
    simp only [save] at hr
    rcases List.mem_or_eq_of_mem_set hr with hr | hr
    · exact hp r hr
    · subst hr
      have hitem := hp item (List.getElem?_mem h1)
      have hi := (validRecord_iff item).1 hitem.1
      refine ⟨?_, js.positive_add _ _ hitem.2 hpos⟩
      rw [validRecord_iff]
      exact ⟨hi.1, hi.2.1, (unit_valid js lc c hc item.unit hi.2.2).1⟩
  · rw [he]
    intro r hr
    simp only [save, List.mem_append, List.mem_singleton] at hr
    rcases hr with hr | hr
    · exact hp r hr
    · subst hr
      refine ⟨?_, hpos⟩
      rw [validRecord_iff]
      refine ⟨hc.2.1, ?_, (unit_valid js lc c hc "piece" (by decide)).2⟩
      show categoryValues.contains (c.category.getD "other") = true
      cases hk : c.category with
      | none => decide
      | some k => simpa using hc.2.2.1 k hk

/-- Among records with pairwise distinct values of `f`, the records whose value
is that of the record at position `i` are that record alone. -/
theorem filter_unique {α β : Type} [DecidableEq β] (f : α → β) (l : List α) (i : Nat) (x : α)
    (hn : (l.map f).Nodup) (hx : l[i]? = some x) :
    l.filter (fun y => f y == f x) = [x] := by
  induction l generalizing i with
  | nil => simp at hx
  | cons a as ih =>
    simp only [List.map_cons, List.nodup_cons] at hn
    cases i with
    | zero =>
      simp at hx; subst hx
      simp only [List.filter_cons, beq_self_eq_true, if_true, List.cons.injEq, true_and]
      rw [List.filter_eq_nil_iff]
      intro y hy
      simp only [beq_iff_eq]
      intro he
      exact hn.1 (by rw [← he]; exact List.mem_map_of_mem f hy)
    | succ i =>
      simp at hx
      have hax : f a ≠ f x := by
        intro he
        exact hn.1 (by rw [he]; exact List.mem_map_of_mem f (List.getElem?_mem hx))
      simp [List.filter_cons, hax, ih i hn.2 hx]

theorem filter_set_same {α : Type} (pred : α → Bool) (l : List α) (i : Nat) (x y : α)
    (hx : l[i]? = some x) (hp : pred x = true) (hy : pred y = true) :
    ((l.set i y).filter pred).length = (l.filter pred).length ∧
    (l.filter pred = [x] → (l.set i y).filter pred = [y]) := by
  induction l generalizing i with
  | nil => simp at hx
  | cons a as ih =>
    cases i with
    | zero =>
      simp at hx; subst hx
      simp [List.filter_cons, hp, hy]
    | succ i =>
      simp at hx
      obtain ⟨ih1, ih2⟩ := ih i hx
      by_cases ha : pred a = true
      · simp only [List.set_cons_succ, List.filter_cons, ha, if_true, List.length_cons, ih1,
          true_and]
        intro h
        simp only [List.cons.injEq] at h
        have : (as.filter pred).length = 0 := by rw [h.2]; rfl
        have hmem : x ∈ as.filter pred := List.mem_filter.2 ⟨List.getElem?_mem hx, hp⟩
        rw [h.2] at hmem
        simp at hmem
      · simp only [Bool.not_eq_true] at ha
        simp only [List.set_cons_succ, List.filter_cons, ha, Bool.false_eq_true, if_false]
        exact ⟨ih1, ih2⟩

theorem filter_set_other {α : Type} (pred : α → Bool) (l : List α) (i : Nat) (x y : α)
    (hx : l[i]? = some x) (hp : pred x = false) (hy : pred y = false) :
    (l.set i y).filter pred = l.filter pred := by
  induction l generalizing i with
  | nil => simp at hx
  | cons a as ih =>
    cases i with
    | zero =>
      simp at hx; subst hx
      simp [List.filter_cons, hp, hy]
    | succ i =>
      simp at hx
      simp [List.filter_cons, ih i hx]

/-- One well-formed call changes the quantities stored under a name only when
it is made with that name, and then takes the number of the call up into the
single quantity stored there. -/
theorem storedUnderName_step {Num : Type} (js : JsNumbers Num) (lc : String → String)
    (now : Int) (p : Pantry Num) (c : Ingredient Num) (name : String)
    (hc : WellFormedCall js lc c) (hp : WellFormedPantry js p)
    (hn : (p.ingredients.map (fun r => lc r.name)).Nodup)
    (total : Option Num) (ht : storedUnderName lc p name = total.toList) :
    storedUnderName lc (addIngredient js lc now p c).1 name
      = (if lc c.name == lc name then accumulate js total (callNumber js c) else total).toList := by
  rcases addIngredient_wellFormed js lc now p c hc hp with ⟨i, item, h1, h2, he⟩ | ⟨hno, he⟩
  · rw [he]
    simp only [save]
    unfold storedUnderName at ht ⊢
    by_cases hcn : lc c.name = lc name
    · have hpred : (fun r : IngredientRecord Num => lc r.name == lc name)
          = (fun r => (fun r : IngredientRecord Num => lc r.name) r
              == (fun r : IngredientRecord Num => lc r.name) item) := by
        funext r
        simp only [h2, hcn]
      have hf := filter_unique (fun r : IngredientRecord Num => lc r.name) p.ingredients i item
        hn h1
      rw [← hpred] at hf
      rw [hf] at ht
      have hset := (filter_set_same (fun r : IngredientRecord Num => lc r.name == lc name)
        p.ingredients i item
        (mergedWith js item c) h1
        (by simp [h2, hcn]) (by simp [mergedWith, h2, hcn])).2 hf
      rw [hset]
      cases total with
      | none => simp at ht
      | some t =>
        simp only [List.map_cons, List.map_nil, Option.toList, List.cons.injEq, and_true] at ht
        simp [hcn, accumulate, ht, mergedWith]
    · have hitem : (lc item.name == lc name) = false := by
        simp only [beq_eq_false_iff_ne, ne_eq]
        rw [h2]; exact hcn
      rw [filter_set_other (fun r : IngredientRecord Num => lc r.name == lc name)
        p.ingredients i item _ h1 hitem (by simpa [mergedWith] using hitem)]
      simp [hcn, ht]
  · rw [he]
    simp only [save]
    unfold storedUnderName at ht ⊢
    simp only [List.filter_append, List.map_append]
    by_cases hcn : lc c.name = lc name
    · have hempty : p.ingredients.filter (fun r => lc r.name == lc name) = [] := by
        rw [List.filter_eq_nil_iff]
        intro x hx
        simp only [beq_iff_eq]
        rw [← hcn]
        exact hno x hx
      rw [hempty] at ht ⊢
      cases total with
      | some t => simp at ht
      | none => simp [List.filter_cons, hcn, accumulate, storedFor]
    · simp [List.filter_cons, hcn, ht, storedFor]

theorem storedUnderName_addAll {Num : Type} (js : JsNumbers Num) (lc : String → String)
    (calls : List (Int × Ingredient Num)) (name : String)
    (hc : ∀ c ∈ calls, WellFormedCall js lc c.2) :
    ∀ (p : Pantry Num) (total : Option Num), WellFormedPantry js p →
      (p.ingredients.map (fun r => lc r.name)).Nodup →
      storedUnderName lc p name = total.toList →
      storedUnderName lc (addAll js lc p calls) name
        = ((calls.filter (fun c => lc c.2.name == lc name)).foldl
            (fun total c => accumulate js total (callNumber js c.2)) total).toList := by
  induction calls with
  | nil => intro p total _ _ ht; simpa [addAll] using ht
  | cons c cs ih =>
    intro p total hp hn ht
    have hcc := hc c (List.mem_cons_self _ _)
    have hstep := storedUnderName_step js lc c.1 p c.2 name hcc hp hn total ht
    have hname : lc (storedName lc c.2.name) = lc c.2.name := by rw [hcc.1]
    have := ih (fun d hd => hc d (List.mem_cons_of_mem _ hd)) (addIngredient js lc c.1 p c.2).1
      (if lc c.2.name == lc name then accumulate js total (callNumber js c.2) else total)
      (addIngredient_wellFormedPantry js lc c.1 p c.2 hcc hp)
      (addIngredient_names_nodup js lc c.1 p c.2 hname hn) hstep
    simp only [addAll, List.foldl_cons] at this ⊢
    rw [this]
    by_cases hcn : lc c.2.name = lc name
    · simp [List.filter_cons, hcn]
    · simp [List.filter_cons, hcn]

/-- C3, amended: starting from an empty pantry, after every finite sequence of
`addIngredient` calls that the schema accepts as they stand (names in stored
form and not empty, categories and units absent or listed, quantities absent
or positive numbers), for every name the pantry holds at most one record under
that name, ignoring case, and its quantity is the sum, taken by `+` in call
order, of the numbers of all the calls made with that name (an absent quantity
counting as the default 1), whatever the category and unit of those calls. -/
theorem addIngredient_total_by_name {Num : Type} (js : JsNumbers Num) (lc : String → String)
    (now : Int) (calls : List (Int × Ingredient Num)) (name : String)
    (hc : ∀ c ∈ calls, WellFormedCall js lc c.2) :
    storedUnderName lc (addAll js lc (createUserPantry now) calls) name
      = (requestedUnderName js lc calls name).toList := by
  exact storedUnderName_addAll js lc calls name hc (createUserPantry now) none
    (by intro r hr; simp [createUserPantry] at hr) (by simp [createUserPantry])
    (by simp [storedUnderName, createUserPantry])

/-- Witness of C3 amended: egg 2, then egg 3 with another unit, then milk, with
exact integers; the name asked for is written EGG. -/
theorem addIngredient_total_by_name_witness :
    (∀ c ∈ ([(0, { name := "egg", quantity := some (QuantityValue.num 2), unit := some "piece" }),
             (1, { name := "egg", quantity := some (QuantityValue.num 3), unit := some "cup" }),
             (2, { name := "milk" })] : List (Int × Ingredient Int)),
        WellFormedCall intNumbers asciiLower c.2) ∧
    storedUnderName asciiLower
        (addAll intNumbers asciiLower (createUserPantry 0)
          [(0, { name := "egg", quantity := some (QuantityValue.num 2), unit := some "piece" }),
           (1, { name := "egg", quantity := some (QuantityValue.num 3), unit := some "cup" }),
           (2, { name := "milk" })]) "EGG" = [5] := by
  have hw : ∀ c ∈ ([(0, { name := "egg", quantity := some (QuantityValue.num 2),
                            unit := some "piece" }),
             (1, { name := "egg", quantity := some (QuantityValue.num 3), unit := some "cup" }),
             (2, { name := "milk" })] : List (Int × Ingredient Int)),
        WellFormedCall intNumbers asciiLower c.2 := by
    intro c hc
    simp only [List.mem_cons, List.mem_singleton, List.not_mem_nil, or_false] at hc
    rcases hc with rfl | rfl | rfl
    · exact ⟨by decide, by decide, by simp, by simp; decide, Or.inr ⟨2, rfl, by decide⟩⟩
    · exact ⟨by decide, by decide, by simp, by simp; decide, Or.inr ⟨3, rfl, by decide⟩⟩
    · exact ⟨by decide, by decide, by simp, by simp, Or.inl rfl⟩
  refine ⟨hw, ?_⟩
  rw [addIngredient_total_by_name intNumbers asciiLower 0 _ "EGG" hw]
  decide

/-- Whatever the numbers are, the record egg with quantity 2 merged with egg
of quantity 0 gets quantity 3, in a direct call and through the add route
alike. -/
theorem merge_zero_quantity_general {Num : Type} (js : JsNumbers Num) :
    (addIngredient js asciiLower 1
        { ingredients := [{ name := "egg", category := "other", quantity := js.ofInt 2,
                            unit := "piece", expiryDate := none, addedDate := 0 }],
          totalItems := 1, lastUpdated := 0 }
        { name := "egg", quantity := some (QuantityValue.num (js.ofInt 0)) }).1.ingredients.map
      (fun r => r.quantity) = [js.ofInt 3] ∧
    js.ofInt 3 ≠ js.ofInt (2 + 0) ∧
    (postIngredient js asciiLower 1
        (some { ingredients := [{ name := "egg", category := "other", quantity := js.ofInt 2,
                                  unit := "piece", expiryDate := none, addedDate := 0 }],
                totalItems := 1, lastUpdated := 0 })
        { name := some "egg", quantity := some (QuantityValue.num (js.ofInt 0)) }).1.map
      (fun p => p.ingredients.map (fun r => r.quantity)) = some [js.ofInt 3] := by
  have f0 : js.falsy (js.ofInt 0) = true := (js.falsy_ofInt 0 (by norm_num)).2 rfl
  have f1 : js.falsy (js.ofInt 1) = false := by
    have := js.falsy_ofInt 1 (by norm_num)
    simpa using this
  have e3 : js.castNumber (js.ofInt 3) = some (js.ofInt 3) := js.castNumber_ofInt 3 (by norm_num)
  have a21 : js.add (js.ofInt 2) (js.ofInt 1) = js.ofInt 3 :=
    js.add_ofInt 2 1 (by norm_num) (by norm_num) (by norm_num)
  have s1 := addIngredient_merge_head js asciiLower 1
    { ingredients := [{ name := "egg", category := "other", quantity := js.ofInt 2,
                        unit := "piece", expiryDate := none, addedDate := 0 }],
      totalItems := 1, lastUpdated := 0 }
    { name := "egg", quantity := some (QuantityValue.num (js.ofInt 0)) }
    { name := "egg", category := "other", quantity := js.ofInt 2, unit := "piece",
      expiryDate := none, addedDate := 0 }
    { name := "egg", category := "other", quantity := js.ofInt 3, unit := "piece",
      expiryDate := none, addedDate := 0 } [] rfl rfl
    (by simp [mergeRecord, quantityOrOne, f0, plus, a21, castQuantity, e3, unitOr])
    rfl
  have s2 := addIngredient_merge_head js asciiLower 1
    { ingredients := [{ name := "egg", category := "other", quantity := js.ofInt 2,
                        unit := "piece", expiryDate := none, addedDate := 0 }],
      totalItems := 1, lastUpdated := 0 }
    (formatIngredient js asciiLower "egg"
      { name := some "egg", quantity := some (QuantityValue.num (js.ofInt 0)) })
    { name := "egg", category := "other", quantity := js.ofInt 2, unit := "piece",
      expiryDate := none, addedDate := 0 }
    { name := "egg", category := "other", quantity := js.ofInt 3, unit := "piece",
      expiryDate := none, addedDate := 0 } [] rfl rfl
    (by simp [mergeRecord, formatIngredient, quantityOrOne, f0, f1, plus, a21, castQuantity, e3,
          unitOr, stringOr])
    rfl
  refine ⟨?_, ?_, ?_⟩
  · rw [s1]; rfl
  · intro h
    have := js.ofInt_inj 3 (2 + 0) (by norm_num) (by norm_num) h
    omega
  · unfold postIngredient
    simp only [Option.getD_some]
    rw [if_neg (by decide), s2]
    rfl

/-- C4, as stated, fails: a present quantity 0 is not added as 0; the record
egg with quantity 2 merged with egg of quantity 0 gets quantity 3, in a direct
call and through the add route alike. -/
theorem merge_zero_quantity_counterexample :
    (addIngredient intNumbers asciiLower 1
        { ingredients := [{ name := "egg", category := "other", quantity := 2,
                            unit := "piece", expiryDate := none, addedDate := 0 }],
          totalItems := 1, lastUpdated := 0 }
        { name := "egg", quantity := some (QuantityValue.num 0) }).1.ingredients.map
      (fun r => r.quantity) = [3] ∧
    (3 : Int) ≠ 2 + 0 ∧
    (postIngredient intNumbers asciiLower 1
        (some { ingredients := [{ name := "egg", category := "other", quantity := 2,
                                  unit := "piece", expiryDate := none, addedDate := 0 }],
                totalItems := 1, lastUpdated := 0 })
        { name := some "egg", quantity := some (QuantityValue.num 0) }).1.map
      (fun p => p.ingredients.map (fun r => r.quantity)) = some [3] :=
  merge_zero_quantity_general intNumbers

/-- C4, amended: for every pantry that holds a record whose name equals
`incoming.name` ignoring case, `addIngredient` leaves the number of records and
every record but the first such record as they are.  When the merged record
passes the cast of its quantity and the validators (its unit is listed in the
schema), it is stored and returned: its quantity is `old + (incoming.quantity
|| 1)` as JavaScript computes it, that is the sum of the two numbers when
`incoming.quantity` is a number other than 0, `old + 1` when it is absent, 0 or
the empty string, and the number read from the text of `old` followed by the
string when it is a non-empty string; its unit is `incoming.unit` when that is
present and not empty and the old unit otherwise; its name, category,
expiryDate and addedDate are unchanged.  Otherwise the save fails and the
stored pantry stays as it was.  A pantry with egg quantity 2 merged with egg
quantity 3 holds a single egg record of quantity 5. -/
theorem addIngredient_merge {Num : Type} (js : JsNumbers Num) (lc : String → String) (now : Int)
    (p : Pantry Num) (incoming : Ingredient Num)
    (h : ∃ r ∈ p.ingredients, lc r.name = lc incoming.name) :
    (∃ (i : Nat) (item : IngredientRecord Num), p.ingredients[i]? = some item ∧
      lc item.name = lc incoming.name ∧
      (∀ j, j < i → ∀ y : IngredientRecord Num, p.ingredients[j]? = some y →
        lc y.name ≠ lc incoming.name) ∧
      (addIngredient js lc now p incoming).1.ingredients.length = p.ingredients.length ∧
      (∀ j, j ≠ i →
        (addIngredient js lc now p incoming).1.ingredients[j]? = p.ingredients[j]?) ∧
      (∀ u, mergeRecord js item incoming = some u → validRecord u = true →
        addIngredient js lc now p incoming
          = (save now { p with ingredients := p.ingredients.set i u }, Except.ok u) ∧
        (addIngredient js lc now p incoming).1.ingredients[i]? = some u) ∧
      ((mergeRecord js item incoming = none ∨
          ∃ u, mergeRecord js item incoming = some u ∧ validRecord u = false) →
        addIngredient js lc now p incoming = (p, Except.error validationFailed)) ∧
      (∀ u, mergeRecord js item incoming = some u →
        u.name = item.name ∧ u.category = item.category ∧
        u.expiryDate = item.expiryDate ∧ u.addedDate = item.addedDate ∧
        (∀ v, incoming.unit = some v → v ≠ "" → u.unit = v) ∧
        (incoming.unit = none ∨ incoming.unit = some "" → u.unit = item.unit) ∧
        (∀ n, incoming.quantity = some (QuantityValue.num n) → js.falsy n = false →
          js.castNumber (js.add item.quantity n) = some u.quantity) ∧
        (∀ n, incoming.quantity = some (QuantityValue.num n) →
          js.positive item.quantity = true → js.positive n = true →
          u.quantity = js.add item.quantity n) ∧
        (incoming.quantity = none ∨ incoming.quantity = some (QuantityValue.str "") ∨
            (∃ n, incoming.quantity = some (QuantityValue.num n) ∧ js.falsy n = true) →
          js.castNumber (js.add item.quantity (js.ofInt 1)) = some u.quantity) ∧
        (∀ s, incoming.quantity = some (QuantityValue.str s) → s ≠ "" →
          js.castText (js.toText item.quantity ++ s) = some u.quantity))) ∧
    (addIngredient js asciiLower now
        { ingredients := [{ name := "egg", category := "other", quantity := js.ofInt 2,
                            unit := "piece", expiryDate := none, addedDate := 0 }],
          totalItems := 1, lastUpdated := 0 }
        { name := "egg", quantity := some (QuantityValue.num (js.ofInt 3)),
          unit := some "piece" }).1.ingredients
      = [{ name := "egg", category := "other", quantity := js.ofInt 5, unit := "piece",
           expiryDate := none, addedDate := 0 }] := by
  constructor
  · cases hl : (findIndex (fun item => lc item.name == lc incoming.name) p.ingredients).bind
        (fun i => (p.ingredients[i]?).map (fun item => (i, item))) with
    | none =>
      obtain ⟨r, hr, hrn⟩ := h
      have := (lookup_eq_none _ _).1 hl r hr
      simp [hrn] at this
    | some pr =>
      obtain ⟨i, item⟩ := pr
      obtain ⟨h1, h2, h3⟩ := lookup_eq_some _ _ _ _ hl
      have hi : i < p.ingredients.length := by
        rcases Nat.lt_or_ge i p.ingredients.length with hlt | hge
        · exact hlt
        · rw [List.getElem?_eq_none hge] at h1; cases h1
      have hok : ∀ u, mergeRecord js item incoming = some u → validRecord u = true →
          addIngredient js lc now p incoming
            = (save now { p with ingredients := p.ingredients.set i u }, Except.ok u) := by
        intro u hu hv
        unfold addIngredient
        simp only [hl, hu, hv, if_true]
      have hfail : (mergeRecord js item incoming = none ∨
          ∃ u, mergeRecord js item incoming = some u ∧ validRecord u = false) →
          addIngredient js lc now p incoming = (p, Except.error validationFailed) := by
        rintro (hn | ⟨u, hu, hv⟩)
        · unfold addIngredient
          simp only [hl, hn]
        · unfold addIngredient
          simp only [hl, hu, hv, Bool.false_eq_true, if_false]
      have hcases : addIngredient js lc now p incoming = (p, Except.error validationFailed) ∨
          ∃ u, addIngredient js lc now p incoming
            = (save now { p with ingredients := p.ingredients.set i u }, Except.ok u) := by
        cases hm : mergeRecord js item incoming with
        | none => exact Or.inl (hfail (Or.inl hm))
        | some u =>
          by_cases hv : validRecord u = true
          · exact Or.inr ⟨u, hok u hm hv⟩
          · simp only [Bool.not_eq_true] at hv
            exact Or.inl (hfail (Or.inr ⟨u, hm, hv⟩))
      refine ⟨i, item, h1, by simpa using h2, ?_, ?_, ?_, ?_, hfail, ?_⟩
      · intro j hj y hy
        simpa using h3 j hj y hy
      · rcases hcases with he | ⟨u, he⟩
        · rw [he]
        · rw [he]; simp [save]
      · intro j hj
        rcases hcases with he | ⟨u, he⟩
        · rw [he]
        · rw [he]
          simp only [save]
          rw [List.getElem?_set_ne (Ne.symm hj)]
      · intro u hu hv
        refine ⟨hok u hu hv, ?_⟩
        rw [hok u hu hv]
        simp [save, List.getElem?_set, hi]
      · intro u hu
        obtain ⟨f1, f2, f3, f4, f5, f6⟩ := mergeRecord_fields js item u incoming hu
        refine ⟨f1, f2, f4, f5, ?_, ?_, ?_, ?_, ?_, ?_⟩
        · intro v hv hv0
          rw [f3]; simp [unitOr, hv, hv0]
        · rintro (hv | hv) <;> rw [f3] <;> simp [unitOr, hv]
        · intro n hn hf
          rw [← f6]; simp [quantityOrOne, hn, hf, plus, castQuantity]
        · intro n hn hp1 hp2
          have hc : castQuantity js (plus js item.quantity (quantityOrOne js incoming.quantity))
              = some (js.add item.quantity n) := by
            simp [quantityOrOne, hn, js.positive_truthy n hp2, plus, castQuantity,
              js.positive_cast _ (js.positive_add _ _ hp1 hp2)]
          rw [hc] at f6
          exact (Option.some.inj f6).symm
        · rintro (hq | hq | ⟨n, hq, hf⟩)
          · rw [← f6]; simp [quantityOrOne, hq, plus, castQuantity]
          · rw [← f6]; simp [quantityOrOne, hq, plus, castQuantity]
          · rw [← f6]; simp [quantityOrOne, hq, hf, plus, castQuantity]
        · intro s hs hs0
          rw [← f6]; simp [quantityOrOne, hs, hs0, plus, castQuantity]
  · have f3 : js.falsy (js.ofInt 3) = false := by
      have := js.falsy_ofInt 3 (by norm_num)
      simpa using this
    have e5 : js.castNumber (js.ofInt 5) = some (js.ofInt 5) :=
      js.castNumber_ofInt 5 (by norm_num)
    have a23 : js.add (js.ofInt 2) (js.ofInt 3) = js.ofInt 5 :=
      js.add_ofInt 2 3 (by norm_num) (by norm_num) (by norm_num)
    rw [addIngredient_merge_head js asciiLower now
      { ingredients := [{ name := "egg", category := "other", quantity := js.ofInt 2,
                          unit := "piece", expiryDate := none, addedDate := 0 }],
        totalItems := 1, lastUpdated := 0 }
      { name := "egg", quantity := some (QuantityValue.num (js.ofInt 3)), unit := some "piece" }
      { name := "egg", category := "other", quantity := js.ofInt 2, unit := "piece",
        expiryDate := none, addedDate := 0 }
      { name := "egg", category := "other", quantity := js.ofInt 5, unit := "piece",
        expiryDate := none, addedDate := 0 } [] rfl rfl
      (by simp [mergeRecord, quantityOrOne, f3, plus, a23, castQuantity, e5, unitOr])
      rfl]
    rfl

/-- Witness of C4 amended: milk and egg in the pantry, EGG (quantity 3) added,
with exact integers. -/
theorem addIngredient_merge_witness :
    (∃ r ∈ ({ ingredients :=
                [{ name := "milk", category := "dairy", quantity := 1, unit := "l",
                   expiryDate := none, addedDate := 0 },
                 { name := "egg", category := "other", quantity := 2, unit := "piece",
                   expiryDate := none, addedDate := 0 }],
              totalItems := 2, lastUpdated := 0 } : Pantry Int).ingredients,
        asciiLower r.name = asciiLower "EGG") ∧
    (addIngredient intNumbers asciiLower 1
        { ingredients :=
            [{ name := "milk", category := "dairy", quantity := 1, unit := "l",
               expiryDate := none, addedDate := 0 },
             { name := "egg", category := "other", quantity := 2, unit := "piece",
               expiryDate := none, addedDate := 0 }],
          totalItems := 2, lastUpdated := 0 }
        { name := "EGG", quantity := some (QuantityValue.num 3) }).1.ingredients.length = 2 :=
  ⟨by decide, by
    obtain ⟨⟨_, _, _, _, _, hlen, _⟩, _⟩ := addIngredient_merge intNumbers asciiLower 1
      { ingredients :=
          [{ name := "milk", category := "dairy", quantity := 1, unit := "l",
             expiryDate := none, addedDate := 0 },
           { name := "egg", category := "other", quantity := 2, unit := "piece",
             expiryDate := none, addedDate := 0 }],
        totalItems := 2, lastUpdated := 0 }
      { name := "EGG", quantity := some (QuantityValue.num 3) } (by decide)
    simpa using hlen⟩

/-! ## Names in stored form and the add route -/

theorem toLower_toLower (c : Char) : c.toLower.toLower = c.toLower := by
  have key : ∀ d : Char, ¬ (65 ≤ d.toNat ∧ d.toNat ≤ 90) → d.toLower = d := by
    intro d hd
    unfold Char.toLower
    simp only [ge_iff_le]
    rw [if_neg hd]
  by_cases h : 65 ≤ c.toNat ∧ c.toNat ≤ 90
  · have hc : c = Char.ofNat c.toNat := (Char.ofNat_toNat c).symm
    obtain ⟨h1, h2⟩ := h
    have hall : ∀ n, 65 ≤ n → n ≤ 90 →
        (Char.ofNat n).toLower.toLower = (Char.ofNat n).toLower := by
      intro n a b
      interval_cases n <;> decide
    rw [hc]
    exact hall _ h1 h2
  · simp only [key c h]

theorem dropWhile_fixed {α : Type} (w : α → Bool) (l : List α)
    (h : ∀ x, l.head? = some x → w x = false) : l.dropWhile w = l := by
  cases l with
  | nil => rfl
  | cons a as => simp [List.dropWhile, h a rfl]

theorem head_dropWhile {α : Type} (w : α → Bool) (l : List α) :
    ∀ x, (l.dropWhile w).head? = some x → w x = false := by
  induction l with
  | nil => simp
  | cons a as ih =>
    intro x hx
    by_cases ha : w a = true
    · simp only [List.dropWhile, ha] at hx
      exact ih x hx
    · simp only [Bool.not_eq_true] at ha
      simp only [List.dropWhile, ha, List.head?_cons, Option.some.injEq] at hx
      rw [← hx]; exact ha

theorem trim_sublist (s : List Char) : (trim s).Sublist s := by
  unfold trim
  have h1 : ((s.dropWhile isWhiteSpace).reverse.dropWhile isWhiteSpace).reverse.Sublist
      (s.dropWhile isWhiteSpace) := by
    have := (List.dropWhile_suffix isWhiteSpace
      (l := (s.dropWhile isWhiteSpace).reverse)).sublist
    have := this.reverse
    rwa [List.reverse_reverse] at this
  exact h1.trans (List.dropWhile_suffix _).sublist

/-- The name that the routes pass is in stored form: the setters of the schema
leave it as it is. -/
theorem storedName_formatted (name : String) :
    storedName asciiLower (String.mk (trim (asciiLower name).data))
      = String.mk (trim (asciiLower name).data) := by
  unfold storedName
  have hl : (asciiLower (String.mk (trim (asciiLower name).data))).data
      = trim (asciiLower name).data := by
    unfold asciiLower
    simp only
    have hfix : ∀ l : List Char, (∀ c ∈ l, c.toLower = c) → l.map Char.toLower = l := by
      intro l hl
      induction l with
      | nil => rfl
      | cons a as ih =>
        rw [List.map_cons, hl a (List.mem_cons_self _ _),
          ih (fun c hc => hl c (List.mem_cons_of_mem _ hc))]
    apply hfix
    intro c hc
    have hmem := (trim_sublist _).subset hc
    simp only [List.mem_map] at hmem
    obtain ⟨d, -, rfl⟩ := hmem
    exact toLower_toLower d
  rw [hl, trim_trim]

/-- The add route keeps the names of a pantry distinct ignoring case. -/
theorem postIngredient_names_nodup {Num : Type} (js : JsNumbers Num) (now : Int)
    (stored : Option (Pantry Num)) (body : AddRequest Num)
    (h : ∀ q, stored = some q → (q.ingredients.map (fun r => asciiLower r.name)).Nodup) :
    ∀ q, (postIngredient js asciiLower now stored body).1 = some q →
      (q.ingredients.map (fun r => asciiLower r.name)).Nodup := by
  unfold postIngredient
  split
  · exact h
  · rename_i name hname
    split
    · exact h
    · have hall := addIngredient_names_nodup js asciiLower now
        (stored.getD (createUserPantry now)) (formatIngredient js asciiLower name body)
        (by
          show asciiLower (storedName asciiLower (String.mk (trim (asciiLower name).data)))
            = asciiLower (String.mk (trim (asciiLower name).data))
          rw [storedName_formatted])
        (by
          cases stored with
          | none => simp [createUserPantry]
          | some p0 => simpa using h p0 rfl)
      intro q hq
      simp only at hq
      generalize addIngredient js asciiLower now (stored.getD (createUserPantry now))
        (formatIngredient js asciiLower name body) = res at hq hall
      obtain ⟨p', e⟩ := res
      cases e <;>
      · simp only [Option.some.injEq] at hq
        subst hq
        exact hall

/-- Every sequence of add requests through the add route keeps the names of a
pantry distinct ignoring case, hence its `(name, category, unit)` keys
distinct. -/
theorem postAll_keys_nodup {Num : Type} (js : JsNumbers Num)
    (requests : List (Int × AddRequest Num)) (stored : Option (Pantry Num))
    (h : ∀ q, stored = some q → (q.ingredients.map (fun r => asciiLower r.name)).Nodup) :
    ∀ q, postAll js asciiLower stored requests = some q →
      (q.ingredients.map (fun r => asciiLower r.name)).Nodup ∧
      (q.ingredients.map recordKey).Nodup := by
  induction requests generalizing stored with
  | nil =>
    intro q hq
    simp only [postAll, List.foldl_nil] at hq
    exact ⟨h q hq, keys_nodup_of_names_nodup asciiLower _ (h q hq)⟩
  | cons c cs ih =>
    simp only [postAll, List.foldl_cons]
    exact ih _ (postIngredient_names_nodup js c.1 stored c.2 h)

/-! ## Updating, searching and statistics -/

theorem includes_iff_infix (s t : List Char) : includes s t = true ↔ t <:+: s := by
  induction s with
  | nil => simp [includes, List.infix_nil]
  | cons c cs ih =>
    rw [includes, Bool.or_eq_true, ih, List.infix_cons_iff, List.isPrefixOf_iff_prefix]

/-- C8: for every pantry and every name that matches no record ignoring case,
`updateIngredient` fails with the error 'Ingredient not found' and leaves the
pantry as it was; the route answers it with status 404 (not the generic 500)
and stores the unmodified pantry. -/
theorem updateIngredient_not_found {Num : Type} (js : JsNumbers Num) (lc : String → String)
    (now : Int) (p : Pantry Num) (ingredientName : String) (updates : IngredientUpdates Num)
    (h : ∀ r ∈ p.ingredients, lc r.name ≠ lc ingredientName) :
    updateIngredient js lc now p ingredientName updates
      = (p, Except.error "Ingredient not found") ∧
    putIngredient js lc now (some p) ingredientName updates
      = (some p, { status := 404, success := false,
                   message := some "Ingredient not found in pantry", data := none }) ∧
    (putIngredient js lc now (some p) ingredientName updates).2.status ≠ 500 := by
  have hnone : (findIndex (fun item => lc item.name == lc ingredientName) p.ingredients).bind
      (fun i => (p.ingredients[i]?).map (fun item => (i, item))) = none := by
    rw [lookup_eq_none]
    intro x hx
    simpa using h x hx
  have hu : updateIngredient js lc now p ingredientName updates
      = (p, Except.error "Ingredient not found") := by
    unfold updateIngredient
    simp only [hnone]
  refine ⟨hu, ?_, ?_⟩ <;> simp [putIngredient, hu]

/-- Witness of C8: a pantry holding only egg, updated under the name
"nonexistent". -/
theorem updateIngredient_not_found_witness :
    (∀ r ∈ ({ ingredients := [{ name := "egg", category := "other", quantity := 2,
                                unit := "piece", expiryDate := none, addedDate := 0 }],
              totalItems := 1, lastUpdated := 0 } : Pantry Int).ingredients,
        asciiLower r.name ≠ asciiLower "nonexistent") ∧
    updateIngredient intNumbers asciiLower 1
        { ingredients := [{ name := "egg", category := "other", quantity := 2,
                            unit := "piece", expiryDate := none, addedDate := 0 }],
          totalItems := 1, lastUpdated := 0 } "nonexistent"
        { quantity := some (QuantityValue.num 4) }
      = ({ ingredients := [{ name := "egg", category := "other", quantity := 2,
                             unit := "piece", expiryDate := none, addedDate := 0 }],
           totalItems := 1, lastUpdated := 0 }, Except.error "Ingredient not found") :=
  ⟨by decide,
   (updateIngredient_not_found intNumbers asciiLower 1 _ "nonexistent"
      { quantity := some (QuantityValue.num 4) } (by decide)).1⟩

/-- C9: for every pantry and every non-empty query, the search answers with
exactly the records whose name contains the query as a contiguous block,
ignoring case, in pantry order; for the empty (or absent) query it answers with
the validation error 'Search query is required' (status 400) and no result
list. -/
theorem search_spec {Num : Type} (lc : String → String) (p : Pantry Num) (query : String)
    (hq : query ≠ "") :
    search lc (some p) (some query)
      = { status := 200, success := true, message := none,
          data := some
            { results := p.ingredients.filter
                (fun r => decide ((lc query).data <:+: (lc r.name).data))
              totalResults := (p.ingredients.filter
                (fun r => decide ((lc query).data <:+: (lc r.name).data))).length
              query := some query } } ∧
    search lc (some p) (some "")
      = { status := 400, success := false, message := some "Search query is required",
          data := none } ∧
    search lc (some p) none
      = { status := 400, success := false, message := some "Search query is required",
          data := none } := by
  have hf : (fun ingredient : IngredientRecord Num =>
        includes (lc ingredient.name).data (lc query).data)
      = (fun r => decide ((lc query).data <:+: (lc r.name).data)) := by
    funext r
    rw [Bool.eq_iff_iff, includes_iff_infix]
    simp
  refine ⟨?_, by simp [search], by simp [search]⟩
  simp only [search, hq, if_false, hf]

/-- Witness of C9: the query "GG" on a pantry holding milk and egg. -/
theorem search_spec_witness :
    ("GG" ≠ "") ∧
    (search asciiLower
        (some ({ ingredients :=
                   [{ name := "milk", category := "dairy", quantity := 1, unit := "l",
                      expiryDate := none, addedDate := 0 },
                    { name := "egg", category := "other", quantity := 2, unit := "piece",
                      expiryDate := none, addedDate := 0 }],
                 totalItems := 2, lastUpdated := 0 } : Pantry Int))
        (some "GG")).status = 200 :=
  ⟨by decide, by
    rw [(search_spec asciiLower _ "GG" (by decide)).1]⟩

/-- C10: for every pantry and current instant `now`, the expiring items of
the statistics are exactly the records, in pantry order, that have an
expiryDate `e` with `now ≤ e ≤ now + 7 days`, both bounds inclusive: a record
expiring at `now + 7 days` is included, one at `now + 8 days`, one at
`now - 1 day` and one without expiryDate are excluded. -/
theorem stats_expiring {Num : Type} (now : Int) (p : Pantry Num) :
    (stats now (some p)).data.map (fun d => d.expiringItems)
      = some (p.ingredients.filter (fun r =>
          decide (∃ e ∈ r.expiryDate, now ≤ e ∧ e ≤ now + 7 * 86400000))) ∧
    (∀ r ∈ p.ingredients, r.expiryDate = some (now + 7 * 86400000) →
      r ∈ p.ingredients.filter (isExpiring now)) ∧
    (∀ r, r.expiryDate = some (now + 8 * 86400000) → r ∉ p.ingredients.filter (isExpiring now)) ∧
    (∀ r, r.expiryDate = some (now - 86400000) → r ∉ p.ingredients.filter (isExpiring now)) ∧
    (∀ r, r.expiryDate = none → r ∉ p.ingredients.filter (isExpiring now)) := by
  have hf : (isExpiring now : IngredientRecord Num → Bool)
      = (fun r => decide (∃ e ∈ r.expiryDate, now ≤ e ∧ e ≤ now + 7 * 86400000)) := by
    funext r
    rw [Bool.eq_iff_iff]
    unfold isExpiring sevenDaysFromNow msPerDay
    cases r.expiryDate with
    | none => simp
    | some e => simp; tauto
  refine ⟨by simp [stats, hf], ?_, ?_, ?_, ?_⟩
  · intro r hr he
    simp [List.mem_filter, hr, isExpiring, he, sevenDaysFromNow, msPerDay]
  · intro r he
    simp [List.mem_filter, isExpiring, he, sevenDaysFromNow, msPerDay]
  · intro r he
    simp [List.mem_filter, isExpiring, he, sevenDaysFromNow, msPerDay]
  · intro r he
    simp [List.mem_filter, isExpiring, he]

/-- Witness of C10: at instant 1000, yoghurt expires exactly seven days later
and is reported, milk expires eight days later and is not. -/
theorem stats_expiring_witness :
    (stats 1000
        (some ({ ingredients :=
                   [{ name := "milk", category := "dairy", quantity := 1, unit := "l",
                      expiryDate := some (1000 + 8 * 86400000), addedDate := 0 },
                    { name := "yoghurt", category := "dairy", quantity := 1, unit := "cup",
                      expiryDate := some (1000 + 7 * 86400000), addedDate := 0 }],
                 totalItems := 2, lastUpdated := 0 } : Pantry Int))).data.map
        (fun d => d.expiringItems)
      = some [{ name := "yoghurt", category := "dairy", quantity := 1, unit := "cup",
                expiryDate := some (1000 + 7 * 86400000), addedDate := 0 }] := by
  rw [(stats_expiring 1000 _).1]
  decide

/-! ## The pantry invariant, dates and removal -/

/-- C19, as stated, fails: a pantry with the distinct keys (egg, other, piece)
and (milk, other, piece) has two records with the key (egg, other, piece) after
`updateIngredient` renames milk to egg. -/
theorem update_rename_counterexample :
    (eggMilkPantry.ingredients.map recordKey).Nodup ∧
    ¬ ((updateIngredient intNumbers asciiLower 1 eggMilkPantry "milk"
        { name := some "egg" }).1.ingredients.map recordKey).Nodup := by
  decide

/-- C19, amended: `removeIngredient` and clearing preserve the invariant that
no two records share the same `(name, category, unit)`; `addIngredient`, called
with a name that its setters leave the same ignoring case (a name in stored
form), preserves the stronger invariant that no two records share the same name
ignoring case, which implies it, and so does the add route for every request
body; `updateIngredient` preserves it for every patch that carries no name,
category or unit. -/
theorem pantry_operations_invariant {Num : Type} (js : JsNumbers Num) (lc : String → String)
    (now : Int) (p : Pantry Num) :
    (∀ name, (p.ingredients.map recordKey).Nodup →
      ((removeIngredient lc now p name).ingredients.map recordKey).Nodup) ∧
    ((clearIngredients now p).ingredients.map recordKey).Nodup ∧
    (∀ ingredient : Ingredient Num, lc (storedName lc ingredient.name) = lc ingredient.name →
      (p.ingredients.map (fun r => lc r.name)).Nodup →
      ((addIngredient js lc now p ingredient).1.ingredients.map (fun r => lc r.name)).Nodup ∧
      ((addIngredient js lc now p ingredient).1.ingredients.map recordKey).Nodup) ∧
    (∀ body : AddRequest Num, (p.ingredients.map (fun r => asciiLower r.name)).Nodup →
      ∀ q, (postIngredient js asciiLower now (some p) body).1 = some q →
        (q.ingredients.map (fun r => asciiLower r.name)).Nodup ∧
        (q.ingredients.map recordKey).Nodup) ∧
    (∀ name (updates : IngredientUpdates Num), updates.name = none → updates.category = none →
      updates.unit = none → (p.ingredients.map recordKey).Nodup →
      ((updateIngredient js lc now p name updates).1.ingredients.map recordKey).Nodup) := by
  refine ⟨?_, by simp [clearIngredients, save], ?_, ?_, ?_⟩
  · intro name h
    simp only [removeIngredient, save]
    exact (List.Nodup.sublist (List.Sublist.map _ (List.filter_sublist _)) h)
  · intro ingredient hname h
    have h1 := addIngredient_names_nodup js lc now p ingredient hname h
    exact ⟨h1, keys_nodup_of_names_nodup lc _ h1⟩
  · intro body h q hq
    have h1 := postIngredient_names_nodup js now (some p) body
      (by intro q0 hq0; cases hq0; exact h) q hq
    exact ⟨h1, keys_nodup_of_names_nodup asciiLower _ h1⟩
  · intro name updates hn hc hu h
    unfold updateIngredient
    simp only
    split
    · rename_i i item heq
      obtain ⟨h1, -, -⟩ := lookup_eq_some _ _ _ _ heq
      cases ha : assign js lc item updates with
      | none => exact h
      | some updated =>
        simp only
        split
        · simp only [save]
          rw [map_set_of_eq recordKey p.ingredients i item updated h1]
          · exact h
          · unfold assign at ha
            simp only [hn, hc, hu, Option.map_none', Option.getD_none, Option.map_eq_some'] at ha
            obtain ⟨q, -, rfl⟩ := ha
            rfl
        · exact h
    · exact h

/-- Witness of C19 amended: removing egg from a pantry holding egg and milk. -/
theorem pantry_operations_invariant_witness :
    (eggMilkPantry.ingredients.map recordKey).Nodup ∧
    ((removeIngredient asciiLower 1
        eggMilkPantry "EGG").ingredients.map recordKey).Nodup :=
  ⟨by decide, (pantry_operations_invariant intNumbers asciiLower 1 _).1 "EGG" (by decide)⟩

/-- C20, as stated, fails: a patch that carries an addedDate overwrites the
stored one (here 0 becomes 99). -/
theorem update_addedDate_counterexample :
    (updateIngredient intNumbers asciiLower 1
        { ingredients := [{ name := "egg", category := "other", quantity := 2,
                            unit := "piece", expiryDate := none, addedDate := 0 }],
          totalItems := 1, lastUpdated := 0 } "egg" { addedDate := some 99 }).1.ingredients.map
      (fun r => r.addedDate) = [99] := by
  decide

/-- C20, amended: for every pantry, name and update patch that carries no
addedDate, `updateIngredient` leaves the addedDate of every record equal to its
value before the call, and a merging `addIngredient` leaves the addedDate of
every record unchanged. -/
theorem addedDate_unchanged {Num : Type} (js : JsNumbers Num) (lc : String → String) (now : Int)
    (p : Pantry Num) :
    (∀ name (updates : IngredientUpdates Num), updates.addedDate = none →
      (updateIngredient js lc now p name updates).1.ingredients.map (fun r => r.addedDate)
        = p.ingredients.map (fun r => r.addedDate)) ∧
    (∀ ingredient : Ingredient Num, (∃ r ∈ p.ingredients, lc r.name = lc ingredient.name) →
      (addIngredient js lc now p ingredient).1.ingredients.map (fun r => r.addedDate)
        = p.ingredients.map (fun r => r.addedDate)) := by
  constructor
  · intro name updates hu
    unfold updateIngredient
    simp only
    split
    · rename_i i item heq
      obtain ⟨h1, -, -⟩ := lookup_eq_some _ _ _ _ heq
      cases ha : assign js lc item updates with
      | none => rfl
      | some updated =>
        simp only
        split
        · simp only [save]
          apply map_set_of_eq _ p.ingredients i item updated h1
          unfold assign at ha
          simp only [hu, Option.getD_none, Option.map_eq_some'] at ha
          obtain ⟨q, -, rfl⟩ := ha
          rfl
        · rfl
    · rfl
  · intro ingredient h
    unfold addIngredient
    simp only
    split
    · rename_i i item heq
      obtain ⟨h1, -, -⟩ := lookup_eq_some _ _ _ _ heq
      cases hm : mergeRecord js item ingredient with
      | none => rfl
      | some updated =>
        simp only
        split
        · simp only [save]
          apply map_set_of_eq _ p.ingredients i item updated h1
          exact (mergeRecord_fields js item updated ingredient hm).2.2.2.2.1
        · rfl
    · rename_i heq
      obtain ⟨r, hr, hrn⟩ := h
      have := (lookup_eq_none _ _).1 heq r hr
      simp [hrn] at this

/-- Witness of C20 amended: the quantity of egg is patched, the dates stay. -/
theorem addedDate_unchanged_witness :
    (({ quantity := some (QuantityValue.num 7) } : IngredientUpdates Int).addedDate = none) ∧
    (updateIngredient intNumbers asciiLower 5
        eggMilkPantry "Egg" { quantity := some (QuantityValue.num 7) }).1.ingredients.map
      (fun r => r.addedDate) = [0, 0] :=
  ⟨rfl, (addedDate_unchanged intNumbers asciiLower 5 _).1 "Egg"
    { quantity := some (QuantityValue.num 7) } rfl⟩

/-- C21: for every pantry and name, `removeIngredient` yields exactly the
records whose name differs from the given name ignoring case, in their original
order; no record with that name remains; when none matches the collection is
unchanged; and the route answers with success (status 200), not an error. -/
theorem removeIngredient_spec {Num : Type} (lc : String → String) (now : Int) (p : Pantry Num)
    (name : String) :
    (removeIngredient lc now p name).ingredients
      = p.ingredients.filter (fun r => decide (lc r.name ≠ lc name)) ∧
    (∀ r ∈ (removeIngredient lc now p name).ingredients, lc r.name ≠ lc name) ∧
    ((∀ r ∈ p.ingredients, lc r.name ≠ lc name) →
      (removeIngredient lc now p name).ingredients = p.ingredients) ∧
    (deleteIngredient lc now (some p) name).1 = some (removeIngredient lc now p name) ∧
    (deleteIngredient lc now (some p) name).2.status = 200 ∧
    (deleteIngredient lc now (some p) name).2.success = true := by
  have h1 : (removeIngredient lc now p name).ingredients
      = p.ingredients.filter (fun r => decide (lc r.name ≠ lc name)) := by
    simp only [removeIngredient, save]
    congr 1
    funext r
    rw [Bool.eq_iff_iff]
    simp
  refine ⟨h1, ?_, ?_, by simp [deleteIngredient], by simp [deleteIngredient],
    by simp [deleteIngredient]⟩
  · intro r hr
    rw [h1, List.mem_filter] at hr
    simpa using hr.2
  · intro h
    rw [h1, List.filter_eq_self]
    intro r hr
    simpa using h r hr

/-- Witness of C21: removing butter, which the pantry does not hold. -/
theorem removeIngredient_spec_witness :
    (∀ r ∈ eggMilkPantry.ingredients,
        asciiLower r.name ≠ asciiLower "butter") ∧
    (removeIngredient asciiLower 1
        eggMilkPantry "butter").ingredients
      = eggMilkPantry.ingredients :=
  ⟨by decide, (removeIngredient_spec asciiLower 1 _ "butter").2.2.1 (by decide)⟩

/-! ## Stored quantities -/

theorem addIngredient_positive {Num : Type} (js : JsNumbers Num) (lc : String → String)
    (now : Int) (p : Pantry Num) (ingredient : Ingredient Num) (n : Num)
    (hq : ingredient.quantity = some (QuantityValue.num n)) (hpos : js.positive n = true)
    (h : ∀ r ∈ p.ingredients, js.positive r.quantity = true) :
    ∀ r ∈ (addIngredient js lc now p ingredient).1.ingredients, js.positive r.quantity = true := by
  rcases addIngredient_cases js lc now p ingredient with
    he | ⟨i, item, updated, h1, -, -, hm, -, he⟩ | ⟨r, -, hr, -, he⟩
  · rw [he]; exact h
  · rw [he]
    simp only [save]
    intro r hr
    rcases List.mem_or_eq_of_mem_set hr with hr | hr
    · exact h r hr
    · subst hr
      have hitem : js.positive item.quantity = true := h item (List.getElem?_mem h1)
      have hc := (mergeRecord_fields js item r ingredient hm).2.2.2.2.2
      simp only [quantityOrOne, hq, js.positive_truthy n hpos, plus, castQuantity,
        js.positive_cast _ (js.positive_add _ _ hitem hpos), Bool.false_eq_true, if_false,
        Option.some.injEq] at hc
      rw [← hc]
      exact js.positive_add _ _ hitem hpos
  · rw [he]
    simp only [save]
    intro x hx
    rcases List.mem_append.1 hx with hx | hx
    · exact h x hx
    · simp only [List.mem_singleton] at hx
      subst hx
      have hc := (newRecord_fields js lc now ingredient x hr).2.2.2.2.2
      simp only [hq, Option.map_some', castQuantity, js.positive_cast n hpos, Option.getD_some,
        Option.some.injEq] at hc
      rw [← hc]
      exact hpos

theorem quantityOrOne_positive {Num : Type} (js : JsNumbers Num)
    (q : Option (QuantityValue Num))
    (h : q = none ∨ ∃ n, q = some (QuantityValue.num n) ∧
      (js.falsy n = true ∨ js.positive n = true)) :
    ∃ m, quantityOrOne js q = QuantityValue.num m ∧ js.positive m = true := by
  have h1 : js.positive (js.ofInt 1) = true :=
    (js.positive_ofInt 1 (by norm_num)).2 (by norm_num)
  rcases h with h | ⟨n, h, hn⟩
  · exact ⟨js.ofInt 1, by rw [h]; rfl, h1⟩
  · cases hf : js.falsy n with
    | true => exact ⟨js.ofInt 1, by rw [h]; simp [quantityOrOne, hf], h1⟩
    | false =>
      rcases hn with hn | hn
      · rw [hf] at hn; cases hn
      · exact ⟨n, by rw [h]; simp [quantityOrOne, hf], hn⟩

theorem postIngredient_positive {Num : Type} (js : JsNumbers Num) (lc : String → String)
    (now : Int) (stored : Option (Pantry Num)) (body : AddRequest Num)
    (hb : body.quantity = none ∨ ∃ n, body.quantity = some (QuantityValue.num n) ∧
      (js.falsy n = true ∨ js.positive n = true))
    (h : ∀ p, stored = some p → ∀ r ∈ p.ingredients, js.positive r.quantity = true) :
    ∀ p, (postIngredient js lc now stored body).1 = some p →
      ∀ r ∈ p.ingredients, js.positive r.quantity = true := by
  unfold postIngredient
  split
  · exact h
  · rename_i name hname
    split
    · exact h
    · obtain ⟨m, hm, hpos⟩ := quantityOrOne_positive js body.quantity hb
      have hall := addIngredient_positive js lc now (stored.getD (createUserPantry now))
        (formatIngredient js lc name body) m (by simp [formatIngredient, hm]) hpos
        (by
          cases stored with
          | none => simp [createUserPantry]
          | some p0 => simpa using h p0 rfl)
      intro p hp
      simp only at hp
      generalize addIngredient js lc now (stored.getD (createUserPantry now))
        (formatIngredient js lc name body) = res at hp hall
      obtain ⟨p', e⟩ := res
      cases e <;>
      · simp only [Option.some.injEq] at hp
        subst hp
        exact hall

/-- Whatever the numbers are, the add route accepts the quantity -3 and stores
it. -/
theorem negative_quantity_general {Num : Type} (js : JsNumbers Num) :
    (postAll js asciiLower none
        [(0, { name := some "egg", quantity := some (QuantityValue.num (js.ofInt (-3))) })]).map
      (fun p => p.ingredients.map (fun r => r.quantity)) = some [js.ofInt (-3)] ∧
    js.positive (js.ofInt (-3)) = false := by
  have f3 : js.falsy (js.ofInt (-3)) = false := by
    have := js.falsy_ofInt (-3) (by norm_num)
    simpa using this
  have e3 : js.castNumber (js.ofInt (-3)) = some (js.ofInt (-3)) :=
    js.castNumber_ofInt (-3) (by norm_num)
  have p3 : js.positive (js.ofInt (-3)) = false := by
    have := js.positive_ofInt (-3) (by norm_num)
    simpa using this
  have s := addIngredient_new js asciiLower 0 (createUserPantry 0)
    (formatIngredient js asciiLower "egg"
      { name := some "egg", quantity := some (QuantityValue.num (js.ofInt (-3))) })
    { name := "egg", category := "other", quantity := js.ofInt (-3), unit := "piece",
      expiryDate := none, addedDate := 0 }
    (by intro x hx; simp [createUserPantry] at hx)
    (by
      simp only [newRecord, formatIngredient, quantityOrOne, f3, Bool.false_eq_true, if_false,
        Option.map_some', castQuantity, e3, Option.getD_some, Option.some.injEq]
      rfl)
    rfl
  refine ⟨?_, p3⟩
  simp only [postAll, List.foldl_cons, List.foldl_nil]
  unfold postIngredient
  simp only [Option.getD_none]
  rw [if_neg (by decide), s]
  rfl

/-- C22, as stated, fails: the add route accepts the quantity -3 (it is
truthy) and stores it. -/
theorem negative_quantity_counterexample :
    (postAll intNumbers asciiLower none
        [(0, { name := some "egg", quantity := some (QuantityValue.num (-3)) })]).map
      (fun p => p.ingredients.map (fun r => r.quantity)) = some [-3] ∧
    intNumbers.positive (-3) = false :=
  negative_quantity_general intNumbers

/-- C22, amended: for every sequence of add requests through the add route
each of whose quantities is absent or a number that is 0 (falsy) or positive,
made against a store whose records all have a positive quantity (in particular
a user without a pantry), each stored record's quantity is greater than 0,
whether the requests are saved or rejected by the validators. -/
theorem stored_quantities_positive {Num : Type} (js : JsNumbers Num) (lc : String → String)
    (requests : List (Int × AddRequest Num)) (stored : Option (Pantry Num))
    (hreq : ∀ r ∈ requests, r.2.quantity = none ∨
      ∃ n, r.2.quantity = some (QuantityValue.num n) ∧
        (js.falsy n = true ∨ js.positive n = true))
    (h : ∀ p, stored = some p → ∀ r ∈ p.ingredients, js.positive r.quantity = true) :
    ∀ p, postAll js lc stored requests = some p →
      ∀ r ∈ p.ingredients, js.positive r.quantity = true := by
  induction requests generalizing stored with
  | nil => simpa [postAll] using h
  | cons c cs ih =>
    simp only [postAll, List.foldl_cons]
    exact ih _ (fun r hr => hreq r (List.mem_cons_of_mem _ hr))
      (postIngredient_positive js lc c.1 stored c.2 (hreq c (List.mem_cons_self _ _)) h)

/-- Witness of C22 amended: egg without quantity, egg with quantity 0, milk
with quantity 2 and a unit outside the schema, for a user without a pantry,
with exact integers. -/
theorem stored_quantities_positive_witness :
    (∀ r ∈ ([(0, { name := some "egg" }),
             (1, { name := some "Egg ", quantity := some (QuantityValue.num 0) }),
             (2, { name := some "milk", quantity := some (QuantityValue.num 2),
                   unit := some "bunch" })] : List (Int × AddRequest Int)),
        r.2.quantity = none ∨ ∃ n, r.2.quantity = some (QuantityValue.num n) ∧
          (intNumbers.falsy n = true ∨ intNumbers.positive n = true)) ∧
    postAll intNumbers asciiLower none
        [(0, { name := some "egg" }),
         (1, { name := some "Egg ", quantity := some (QuantityValue.num 0) }),
         (2, { name := some "milk", quantity := some (QuantityValue.num 2),
               unit := some "bunch" })]
      = some { ingredients := [{ name := "egg", category := "other", quantity := 2,
                                 unit := "piece", expiryDate := none, addedDate := 0 }],
               totalItems := 1, lastUpdated := 1 } ∧
    (∀ p, postAll intNumbers asciiLower none
        [(0, { name := some "egg" }),
         (1, { name := some "Egg ", quantity := some (QuantityValue.num 0) }),
         (2, { name := some "milk", quantity := some (QuantityValue.num 2),
               unit := some "bunch" })] = some p →
      ∀ r ∈ p.ingredients, intNumbers.positive r.quantity = true) := by
  have hw : ∀ r ∈ ([(0, { name := some "egg" }),
             (1, { name := some "Egg ", quantity := some (QuantityValue.num 0) }),
             (2, { name := some "milk", quantity := some (QuantityValue.num 2),
                   unit := some "bunch" })] : List (Int × AddRequest Int)),
        r.2.quantity = none ∨ ∃ n, r.2.quantity = some (QuantityValue.num n) ∧
          (intNumbers.falsy n = true ∨ intNumbers.positive n = true) := by
    intro r hr
    simp only [List.mem_cons, List.mem_singleton, List.not_mem_nil, or_false] at hr
    rcases hr with rfl | rfl | rfl
    · exact Or.inl rfl
    · exact Or.inr ⟨0, rfl, Or.inl (by decide)⟩
    · exact Or.inr ⟨2, rfl, Or.inr (by decide)⟩
  exact ⟨hw, by decide, stored_quantities_positive intNumbers asciiLower _ none hw (by simp)⟩

/-! ## The client store -/

/-- C27, at the failing input: store and server both hold egg with quantity 2
and egg with quantity 3 is added; the server merges to 5 and returns the merged
record, the store adds the returned 5 to its own 2 and shows 7. -/
theorem store_add_double_count :
    clientAddIngredient intNumbers asciiLower 5
        (some { ingredients := [{ name := "egg", category := "other", quantity := 2,
                                  unit := "piece", expiryDate := none, addedDate := 0 }],
                totalItems := 1, lastUpdated := 0 })
        { ingredients := [{ name := "egg", category := "other", quantity := 2,
                            unit := "piece", expiryDate := none, addedDate := 0 }],
          totalItems := 1 }
        { name := some "egg", quantity := some (QuantityValue.num 3) }
      = (some { ingredients := [{ name := "egg", category := "other", quantity := 5,
                                  unit := "piece", expiryDate := none, addedDate := 0 }],
                totalItems := 1, lastUpdated := 5 },
         { ingredients := [{ name := "egg", category := "other", quantity := 7,
                             unit := "piece", expiryDate := none, addedDate := 0 }],
           totalItems := 1 }) := by
  decide

/-- C28, at the failing input: removing butter, which the local list does not
hold, succeeds on the server; the store keeps its two records and lowers
totalItems from 2 to 1. -/
theorem store_remove_total :
    (clientRemoveIngredient asciiLower 5 (some eggMilkPantry)
        { ingredients := eggMilkPantry.ingredients, totalItems := 2 } "butter").2
      = { ingredients := eggMilkPantry.ingredients, totalItems := 1 } := by
  decide

end ReciSense
